import Mathlib

/-!
# LeonardYM: the Arnoldi eigensolver `DiracEigenSolver`

A shallow embedding of `source/fermion_measurements/DiracEigenSolver.cpp`, and of the
derivative of the Wilson fermion force, `source/hmc_forces/DiracWilsonFermionForce.cpp`
with `FermionForce::tensor`.

* A lattice field (`reduced_dirac_vector_t`) is a function `Fin d → K`: one scalar per
  (site, spin, colour) component of the whole lattice, `K` being the scalar field
  (`std::complex<real_t>` read in exact arithmetic).  Halo exchange and the OpenMP
  site loops have no effect on the values and are not represented.
* `std::vector<reduced_dirac_vector_t> V` and `matrix_t H` are functions of their indices.
* The two output sequences are lists: `resize`, `std::reverse` and `erase` act on them.
* The Dirac operator, the linear solver, the dense eigensolvers and the square root are
  collaborators that are not part of the sources; they are fields of `Collaborators`.
* Every operator application and every collective reduction appends an `Event` to a log,
  in program order.
* A second embedding of the two methods checks every indexed access against the size of
  its container and fails (`none`) outside it; a third leaves the quotient `f/beta` open.
* In the fermion force a `GaugeVector` is a function `Nat → K` and a matrix is a function
  `Nat → Nat → K`, of which the indices below `diracVectorLength` are used.
-/

set_option linter.unusedSectionVars false
set_option linter.unusedVariables false
set_option linter.unnecessarySeqFocus false

namespace Update

/-- The number of values of `unsigned int`. -/
def UINT_RANGE : Nat := 2 ^ 32

/-- Modelled from the spec: the enumeration `EigevaluesMode` is declared in
`DiracEigenSolver.h`, which is not among the sources.  Its four values index
`EigevaluesMap`; the first one is `LargestReal` (used by `rotateVector`). -/
inductive EigevaluesMode where
  | LargestReal
  | SmallestReal
  | LargestImaginary
  | SmallestImaginary
  deriving DecidableEq, Repr

/-- The two dense linear-algebra back ends selected by the preprocessor. -/
inductive Backend where
  | EIGEN
  | ARMADILLO
  deriving DecidableEq, Repr

/-- The calls to collaborators, recorded in program order. -/
inductive Event where
  | multiplyAdd
  | multiply
  | solve
  | dot
  | squaredNorm
  | differenceNorm
  | newBiConjugateGradient
  | setPrecision
  deriving DecidableEq, Repr

/-- Output of a dense eigendecomposition of the projected matrix: the Ritz values and the
matrix whose columns are the eigenvectors (`eigenvectors row column`). -/
structure DenseEig (K : Type) where
  eigenvalues : Nat → K
  eigenvectors : Nat → Nat → K

/-- Modelled from the spec: the class `BiConjugateGradient` is not among the sources; only
the precision given to it by `setPrecision` is represented. -/
structure BiConjugateGradient (R : Type) where
  precision : R

/-- The data members of `DiracEigenSolver`. -/
structure DiracEigenSolver (R : Type) where
  epsilon : R
  extra_steps : Nat
  biConjugateGradient : Option (BiConjugateGradient R)

/-- The collaborators of the eigensolver that are not part of the sources.
* `I` is `std::complex<real_t>(0.,1.)`;
* `sqrt` is the real square root, applied to a squared norm;
* `multiply` is `DiracOperator::multiply`;
* `solve bicg source` is the solution returned by `BiConjugateGradient::solve` for the
  same operator;
* `newBiCG` is the state of a default-constructed `BiConjugateGradient`;
* `ComplexEigenSolver steps H` and `eig_gen steps H` are the dense eigendecompositions of
  Eigen and of Armadillo. -/
structure Collaborators (R K : Type) (d : Nat) where
  I : K
  sqrt : K → K
  multiply : (Fin d → K) → (Fin d → K)
  solve : BiConjugateGradient R → (Fin d → K) → (Fin d → K)
  newBiCG : BiConjugateGradient R
  ComplexEigenSolver : Nat → (Nat → Nat → K) → DenseEig K
  eig_gen : Nat → (Nat → Nat → K) → DenseEig K

/-- The working variables of the Arnoldi process. -/
structure Arnoldi (K : Type) (d : Nat) where
  V : Nat → Fin d → K
  H : Nat → Nat → K
  w : Fin d → K
  f : Fin d → K
  log : List Event

/-- What a call leaves behind: the solver object, the two output sequences, the reported
convergence value and the log of collaborator calls. -/
structure Outcome (R K : Type) (d : Nat) where
  self : DiracEigenSolver R
  eigenvalues : List K
  eigenvectors : List (Fin d → K)
  diffnorm : K
  log : List Event

section Definitions

variable {R K : Type} [Field K] [StarRing K] {d : Nat}

/-- The loop `for (unsigned int i = 0; i < n; ++i) body(i)` as a state transformer. -/
def forLoop {σ : Type} (n : Nat) (body : Nat → σ → σ) (s : σ) : σ :=
  match n with
  | 0 => s
  | k + 1 => body k (forLoop k body s)

/-- Assignment `M(i,j) = x` to one entry of a dense matrix. -/
def setEntry (M : Nat → Nat → K) (i j : Nat) (x : K) : Nat → Nat → K :=
  fun a b => if a = i ∧ b = j then x else M a b

/-- Assignment `V[k] = v` to one element of a vector of fields. -/
def setField (V : Nat → Fin d → K) (k : Nat) (v : Fin d → K) : Nat → Fin d → K :=
  fun a => if a = k then v else V a

/-- The method `std::vector::resize(k)`: keep the first `k` elements, pad with
value-initialised ones. -/
def resize {α : Type} (xs : List α) (k : Nat) (dflt : α) : List α :=
  xs.take k ++ List.replicate (k - xs.length) dflt

/-- The call `xs.erase(xs.end() - k, xs.end())`; the range must lie inside the sequence. -/
def eraseTail {α : Type} (xs : List α) (k : Nat) : Option (List α) :=
  if k ≤ xs.length then some (xs.take (xs.length - k)) else none

/-- Modelled from the spec: `AlgebraUtils::dot` is not among the sources; the global inner
product of two fields, conjugate-linear in its first argument. -/
def dot (a b : Fin d → K) : K := ∑ site, star (a site) * b site

/-- Modelled from the spec: `AlgebraUtils::squaredNorm` is not among the sources; the
squared norm of a field. -/
def squaredNorm (a : Fin d → K) : K := ∑ site, star (a site) * a site

/-- Modelled from the spec: `AlgebraUtils::differenceNorm` is not among the sources; the
norm of the difference of two fields. -/
def differenceNorm (sqrt : K → K) (a b : Fin d → K) : K :=
  sqrt (squaredNorm (fun site => a site - b site))

/-- Modelled from the spec: `DiracOperator::multiplyAdd` is not among the sources;
`out = Operator(in) + shift * base`. -/
def multiplyAdd (multiply : (Fin d → K) → (Fin d → K)) (input base : Fin d → K)
    (shift : K) : Fin d → K :=
  fun site => multiply input site + shift * base site

/-- The table `EigevaluesMap[4] = {1., -1., (0.,1.), (0.,-1.)}`. -/
def EigevaluesMap (I : K) : EigevaluesMode → K
  | .LargestReal => 1
  | .SmallestReal => -1
  | .LargestImaginary => I
  | .SmallestImaginary => -I

/-- The comparison `maxcomparison`: `abs(i) > abs(j)`. -/
def maxcomparison {M : Type} [LT M] [DecidableRel (fun a b : M => a < b)] (abs : K → M)
    (i j : K) : Bool :=
  decide (abs j < abs i)

/-- The comparison `mincomparison`: `abs(i) < abs(j)`. -/
def mincomparison {M : Type} [LT M] [DecidableRel (fun a b : M => a < b)] (abs : K → M)
    (i j : K) : Bool :=
  decide (abs i < abs j)

/-- The function `rotateVector`: multiply every component by `EigevaluesMap[mode]`, unless
the mode is `LargestReal`. -/
def rotateVector (I : K) (vector : Fin d → K) (mode : EigevaluesMode) : Fin d → K :=
  if mode ≠ EigevaluesMode.LargestReal then fun site => EigevaluesMap I mode * vector site
  else vector

/-- The Ritz vector number `i`: starting from the zero field, the loop
`for j < steps: eigenvectors[i] += eigvec.at(j,i)*V[j]`. -/
def ritzVector (steps : Nat) (eigvec : Nat → Nat → K) (V : Nat → Fin d → K) (i : Nat) :
    Fin d → K :=
  forLoop steps (fun j acc => fun site => acc site + eigvec j i * V j site) (fun _ => 0)

/-- The loop `for i < steps: eigenvectors[i] = (Ritz vector i)` on the resized output. -/
def reconstruct (steps : Nat) (eigvec : Nat → Nat → K) (V : Nat → Fin d → K)
    (eigenvectors : List (Fin d → K)) : List (Fin d → K) :=
  forLoop steps (fun i evs => evs.set i (ritzVector steps eigvec V i))
    (resize eigenvectors steps (fun _ => 0))

namespace maximumEigenvalues

/-- The operator iterated by `maximumEigenvalues`: `tmpm = v; rotateVector(tmpm, mode);
multiplyAdd(w, tmpm, v, +5.)`. -/
def apply (c : Collaborators R K d) (mode : EigevaluesMode) (v : Fin d → K) : Fin d → K :=
  let tmpm := rotateVector c.I v mode
  multiplyAdd c.multiply tmpm v 5

/-- Lines 50-74: the start step, from the normalised random vector `v0` placed in `V[0]`. -/
def start (c : Collaborators R K d) (mode : EigevaluesMode) (v0 : Fin d → K) :
    Arnoldi K d :=
  let V : Nat → Fin d → K := setField (fun _ _ => 0) 0 v0
  let w := apply c mode (V 0)
  let alpha := dot (V 0) w
  let H : Nat → Nat → K := fun _ _ => 0
  let f : Fin d → K := fun site => w site - alpha * V 0 site
  let H := setEntry H 0 0 alpha
  { V := V, H := H, w := w, f := f, log := [Event.multiplyAdd, Event.dot] }

/-- Lines 101-111: one turn of the first Gram-Schmidt loop of iteration `j`. -/
def gramSchmidt (j i : Nat) (s : Arnoldi K d) : Arnoldi K d :=
  let proj := dot (s.V i) s.w
  { s with
    H := setEntry s.H i (j + 1) proj
    f := fun site => s.f site - proj * s.V i site
    log := s.log ++ [Event.dot] }

/-- Lines 113-123: one turn of the second Gram-Schmidt loop of iteration `j`. -/
def moreStableGramSchmidt (j i : Nat) (s : Arnoldi K d) : Arnoldi K d :=
  let proj := dot (s.V i) s.f
  { s with
    H := setEntry s.H i (j + 1) (s.H i (j + 1) + proj)
    f := fun site => s.f site - proj * s.V i site
    log := s.log ++ [Event.dot] }

/-- Lines 76-123: the body of the basis-extension loop for index `j`. -/
def iterate (c : Collaborators R K d) (mode : EigevaluesMode) (j : Nat) (s : Arnoldi K d) :
    Arnoldi K d :=
  let beta := c.sqrt (squaredNorm s.f)
  let V := setField s.V (j + 1) (fun site => s.f site / beta)
  let H := setEntry s.H (j + 1) j beta
  let w := apply c mode (V (j + 1))
  let s1 : Arnoldi K d :=
    { V := V, H := H, w := w, f := fun site => w site,
      log := s.log ++ [Event.squaredNorm, Event.multiplyAdd] }
  let s2 := forLoop (j + 2) (gramSchmidt j) s1
  forLoop (j + 2) (moreStableGramSchmidt j) s2

/-- The working variables after `k` turns of the basis-extension loop. -/
def krylovAt (c : Collaborators R K d) (mode : EigevaluesMode) (v0 : Fin d → K) (k : Nat) :
    Arnoldi K d :=
  forLoop k (iterate c mode) (start c mode v0)

/-- Lines 50-124: the Krylov construction, `for (j = 0; j < steps - 1; ++j)`. -/
def krylov (c : Collaborators R K d) (mode : EigevaluesMode) (v0 : Fin d → K) (steps : Nat) :
    Arnoldi K d :=
  krylovAt c mode v0 (steps - 1)

/-- Lines 128-142: the dense eigendecomposition of `H` by the active back end. -/
def dense (c : Collaborators R K d) (backend : Backend) (steps : Nat) (H : Nat → Nat → K) :
    DenseEig K :=
  match backend with
  | Backend.EIGEN => c.ComplexEigenSolver steps H
  | Backend.ARMADILLO => c.eig_gen steps H

/-- Lines 126-142: the eigenvalue stored for a Ritz value, in either back end. -/
def stored (c : Collaborators R K d) (backend : Backend) (mode : EigevaluesMode) (ritz : K) :
    K :=
  match backend with
  | Backend.EIGEN => EigevaluesMap c.I mode * (ritz - 5)
  | Backend.ARMADILLO => EigevaluesMap c.I mode * (ritz - 5)

/-- Lines 126-142: `eigenvalues.resize(steps)` and the loop storing the mapped Ritz
values. -/
def storeEigenvalues (c : Collaborators R K d) (backend : Backend) (mode : EigevaluesMode)
    (steps : Nat) (ritz : Nat → K) (eigenvalues : List K) : List K :=
  forLoop steps (fun i ev => ev.set i (stored c backend mode (ritz i)))
    (resize eigenvalues steps 0)

end maximumEigenvalues

/-- The method `DiracEigenSolver::maximumEigenvalues`.  `eigenvalues` and `eigenvectors`
are the contents of the two output arguments on entry, `v0` is the vector left in `V[0]`
by `generateRandomVector` and `normalize`.  The result is `none` where the C++ code
indexes outside a sequence (`V[0]` with `steps = 0`, an erased range longer than the
sequence). -/
def maximumEigenvalues (self : DiracEigenSolver R) (c : Collaborators R K d)
    (backend : Backend) (eigenvalues : List K) (eigenvectors : List (Fin d → K)) (n : Nat)
    (mode : EigevaluesMode) (v0 : Fin d → K) : Option (Outcome R K d) :=
  let steps := (self.extra_steps + n) % UINT_RANGE
  if steps = 0 then none
  else
    let kr := maximumEigenvalues.krylov c mode v0 steps
    let de := maximumEigenvalues.dense c backend steps kr.H
    let eigenvalues :=
      maximumEigenvalues.storeEigenvalues c backend mode steps de.eigenvalues eigenvalues
    let eigvec := de.eigenvectors
    let eigenvectors := reconstruct steps eigvec kr.V eigenvectors
    let tmp := c.multiply (eigenvectors.getLastD (fun _ => 0))
    let tmpe : Fin d → K :=
      fun site => eigenvalues.getLastD 0 * eigenvectors.getLastD (fun _ => 0) site
    let diffnorm := differenceNorm c.sqrt tmp tmpe
    let eigenvectors := eigenvectors.reverse
    let eigenvalues := eigenvalues.reverse
    match eraseTail eigenvalues self.extra_steps, eraseTail eigenvectors self.extra_steps with
    | some evals, some evecs =>
      some
        { self := self, eigenvalues := evals, eigenvectors := evecs, diffnorm := diffnorm,
          log := kr.log ++ [Event.multiply, Event.differenceNorm] }
    | _, _ => none

namespace minimumEigenvalues

/-- Lines 445-446: create the embedded solver if it is absent, then set its precision. -/
def prepare (self : DiracEigenSolver R) (c : Collaborators R K d) :
    BiConjugateGradient R × List Event :=
  match self.biConjugateGradient with
  | none =>
    ({ c.newBiCG with precision := self.epsilon },
      [Event.newBiConjugateGradient, Event.setPrecision])
  | some bicg => ({ bicg with precision := self.epsilon }, [Event.setPrecision])

/-- Lines 437-460: the start step, from the normalised random vector `v0` placed in `V[0]`;
`log0` holds the events that precede it. -/
def start (c : Collaborators R K d) (bicg : BiConjugateGradient R) (log0 : List Event)
    (v0 : Fin d → K) : Arnoldi K d :=
  let V : Nat → Fin d → K := setField (fun _ _ => 0) 0 v0
  let w := c.solve bicg (V 0)
  let alpha := dot (V 0) w
  let H : Nat → Nat → K := fun _ _ => 0
  let f : Fin d → K := fun site => w site - alpha * V 0 site
  let H := setEntry H 0 0 alpha
  { V := V, H := H, w := w, f := f, log := log0 ++ [Event.solve, Event.dot] }

/-- Lines 484-494: one turn of the first Gram-Schmidt loop of iteration `j`. -/
def gramSchmidt (j i : Nat) (s : Arnoldi K d) : Arnoldi K d :=
  let proj := dot (s.V i) s.w
  { s with
    H := setEntry s.H i (j + 1) proj
    f := fun site => s.f site - proj * s.V i site
    log := s.log ++ [Event.dot] }

/-- Lines 496-506: one turn of the second Gram-Schmidt loop of iteration `j`. -/
def moreStableGramSchmidt (j i : Nat) (s : Arnoldi K d) : Arnoldi K d :=
  let proj := dot (s.V i) s.f
  { s with
    H := setEntry s.H i (j + 1) (s.H i (j + 1) + proj)
    f := fun site => s.f site - proj * s.V i site
    log := s.log ++ [Event.dot] }

/-- Lines 462-506: the body of the basis-extension loop for index `j`. -/
def iterate (c : Collaborators R K d) (bicg : BiConjugateGradient R) (j : Nat)
    (s : Arnoldi K d) : Arnoldi K d :=
  let beta := c.sqrt (squaredNorm s.f)
  let V := setField s.V (j + 1) (fun site => s.f site / beta)
  let H := setEntry s.H (j + 1) j beta
  let w := c.solve bicg (V (j + 1))
  let s1 : Arnoldi K d :=
    { V := V, H := H, w := w, f := fun site => w site,
      log := s.log ++ [Event.squaredNorm, Event.solve] }
  let s2 := forLoop (j + 2) (gramSchmidt j) s1
  forLoop (j + 2) (moreStableGramSchmidt j) s2

/-- The working variables after `k` turns of the basis-extension loop. -/
def krylovAt (c : Collaborators R K d) (bicg : BiConjugateGradient R) (log0 : List Event)
    (v0 : Fin d → K) (k : Nat) : Arnoldi K d :=
  forLoop k (iterate c bicg) (start c bicg log0 v0)

/-- Lines 437-507: the Krylov construction, `for (j = 0; j < steps - 1; ++j)`. -/
def krylov (c : Collaborators R K d) (bicg : BiConjugateGradient R) (log0 : List Event)
    (v0 : Fin d → K) (steps : Nat) : Arnoldi K d :=
  krylovAt c bicg log0 v0 (steps - 1)

/-- Lines 511-525: the dense eigendecomposition of `H` by the active back end. -/
def dense (c : Collaborators R K d) (backend : Backend) (steps : Nat) (H : Nat → Nat → K) :
    DenseEig K :=
  match backend with
  | Backend.EIGEN => c.ComplexEigenSolver steps H
  | Backend.ARMADILLO => c.eig_gen steps H

/-- Lines 512-525: the eigenvalue stored for a Ritz value: `1/ritz` under `EIGEN`
(line 515), the Ritz value itself under `ARMADILLO` (line 523). -/
def stored (backend : Backend) (ritz : K) : K :=
  match backend with
  | Backend.EIGEN => 1 / ritz
  | Backend.ARMADILLO => ritz

/-- Lines 509-525: `eigenvalues.resize(steps)` and the loop storing the eigenvalues. -/
def storeEigenvalues (backend : Backend) (steps : Nat) (ritz : Nat → K)
    (eigenvalues : List K) : List K :=
  forLoop steps (fun i ev => ev.set i (stored backend (ritz i))) (resize eigenvalues steps 0)

end minimumEigenvalues

/-- The method `DiracEigenSolver::minimumEigenvalues`, with the same conventions as
`maximumEigenvalues`. -/
def minimumEigenvalues (self : DiracEigenSolver R) (c : Collaborators R K d)
    (backend : Backend) (eigenvalues : List K) (eigenvectors : List (Fin d → K)) (n : Nat)
    (v0 : Fin d → K) : Option (Outcome R K d) :=
  let steps := (self.extra_steps + n) % UINT_RANGE
  if steps = 0 then none
  else
    let pr := minimumEigenvalues.prepare self c
    let kr := minimumEigenvalues.krylov c pr.1 pr.2 v0 steps
    let de := minimumEigenvalues.dense c backend steps kr.H
    let eigenvalues :=
      minimumEigenvalues.storeEigenvalues backend steps de.eigenvalues eigenvalues
    let eigvec := de.eigenvectors
    let eigenvectors := reconstruct steps eigvec kr.V eigenvectors
    let tmp := c.multiply (eigenvectors.getLastD (fun _ => 0))
    let tmpe : Fin d → K :=
      fun site => eigenvalues.getLastD 0 * eigenvectors.getLastD (fun _ => 0) site
    let diffnorm := differenceNorm c.sqrt tmp tmpe
    let eigenvectors := eigenvectors.reverse
    let eigenvalues := eigenvalues.reverse
    match eraseTail eigenvalues self.extra_steps, eraseTail eigenvectors self.extra_steps with
    | some evals, some evecs =>
      some
        { self := { self with biConjugateGradient := some pr.1 }, eigenvalues := evals,
          eigenvectors := evecs, diffnorm := diffnorm,
          log := kr.log ++ [Event.multiply, Event.differenceNorm] }
    | _, _ => none

/-- One turn of the first Gram-Schmidt loop for an abstract Arnoldi process. -/
def arnoldiGramSchmidt (j i : Nat) (s : Arnoldi K d) : Arnoldi K d :=
  { s with
    H := setEntry s.H i (j + 1) (dot (s.V i) s.w)
    f := fun site => s.f site - dot (s.V i) s.w * s.V i site
    log := s.log ++ [Event.dot] }

/-- One turn of the second Gram-Schmidt loop for an abstract Arnoldi process. -/
def arnoldiMoreStable (j i : Nat) (s : Arnoldi K d) : Arnoldi K d :=
  { s with
    H := setEntry s.H i (j + 1) (s.H i (j + 1) + dot (s.V i) s.f)
    f := fun site => s.f site - dot (s.V i) s.f * s.V i site
    log := s.log ++ [Event.dot] }

/-- The start step of the Arnoldi process for an abstract operator `op`, whose application
is logged as `ev`. -/
def arnoldiStart (op : (Fin d → K) → (Fin d → K)) (ev : Event) (log0 : List Event)
    (v0 : Fin d → K) : Arnoldi K d :=
  { V := setField (fun _ _ => 0) 0 v0
    H := setEntry (fun _ _ => 0) 0 0 (dot v0 (op v0))
    w := op v0
    f := fun site => op v0 site - dot v0 (op v0) * v0 site
    log := log0 ++ [ev, Event.dot] }

/-- The body of the basis-extension loop for an abstract operator `op`. -/
def arnoldiIterate (sqrt : K → K) (op : (Fin d → K) → (Fin d → K)) (ev : Event) (j : Nat)
    (s : Arnoldi K d) : Arnoldi K d :=
  forLoop (j + 2) (arnoldiMoreStable j)
    (forLoop (j + 2) (arnoldiGramSchmidt j)
      { V := setField s.V (j + 1) (fun site => s.f site / sqrt (squaredNorm s.f))
        H := setEntry s.H (j + 1) j (sqrt (squaredNorm s.f))
        w := op (fun site => s.f site / sqrt (squaredNorm s.f))
        f := op (fun site => s.f site / sqrt (squaredNorm s.f))
        log := s.log ++ [Event.squaredNorm, ev] })

/-- The abstract Arnoldi process after `k` turns of the basis-extension loop. -/
def arnoldiAt (sqrt : K → K) (op : (Fin d → K) → (Fin d → K)) (ev : Event)
    (log0 : List Event) (v0 : Fin d → K) (k : Nat) : Arnoldi K d :=
  forLoop k (arnoldiIterate sqrt op ev) (arnoldiStart op ev log0 v0)

/-- The collaborator calls of an Arnoldi process with `k` turns of the basis-extension
loop, in program order: the start step applies the operator (`ev`) and takes one inner
product; turn `j` takes a squared norm, applies the operator and takes `j + 2` inner
products in each of the two Gram-Schmidt loops. -/
def arnoldiTrace (ev : Event) : Nat → List Event
  | 0 => [ev, Event.dot]
  | j + 1 =>
    arnoldiTrace ev j ++ [Event.squaredNorm, ev] ++ List.replicate (j + 2) Event.dot ++
      List.replicate (j + 2) Event.dot

namespace maximumEigenvalues

/-- Lines 76-100 of turn `j`: `beta`, `V[j+1] = f/beta`, `H(j+1,j) = beta`, the operator
application and the copy `f = w`, before the two Gram-Schmidt loops. -/
def extend (c : Collaborators R K d) (mode : EigevaluesMode) (j : Nat) (s : Arnoldi K d) :
    Arnoldi K d :=
  let beta := c.sqrt (squaredNorm s.f)
  let V := setField s.V (j + 1) (fun site => s.f site / beta)
  let H := setEntry s.H (j + 1) j beta
  let w := apply c mode (V (j + 1))
  { V := V, H := H, w := w, f := fun site => w site,
    log := s.log ++ [Event.squaredNorm, Event.multiplyAdd] }

/-- Lines 76-111 of turn `j`: the working variables after the first Gram-Schmidt loop. -/
def firstPass (c : Collaborators R K d) (mode : EigevaluesMode) (j : Nat) (s : Arnoldi K d) :
    Arnoldi K d :=
  forLoop (j + 2) (gramSchmidt j) (extend c mode j s)

/-- Lines 113-123 of turn `j`: the working variables when index `i` is reached in the
second Gram-Schmidt loop. -/
def secondPassAt (c : Collaborators R K d) (mode : EigevaluesMode) (j i : Nat)
    (s : Arnoldi K d) : Arnoldi K d :=
  forLoop i (moreStableGramSchmidt j) (firstPass c mode j s)

end maximumEigenvalues

namespace DiracEigenSolver

/-- The constructor `DiracEigenSolver()`:
`epsilon(0.00001), extra_steps(250), biConjugateGradient(0)`. -/
def construct [OfScientific R] : DiracEigenSolver R :=
  { epsilon := 0.00001, extra_steps := 250, biConjugateGradient := none }

/-- The method `setPrecision`: `epsilon = precision`. -/
def setPrecision (self : DiracEigenSolver R) (precision : R) : DiracEigenSolver R :=
  { self with epsilon := precision }

/-- The method `getPrecision`: `return epsilon`. -/
def getPrecision (self : DiracEigenSolver R) : R := self.epsilon

/-- The method `setExtraSteps`: `extra_steps = _extra_steps`. -/
def setExtraSteps (self : DiracEigenSolver R) (_extra_steps : Nat) : DiracEigenSolver R :=
  { self with extra_steps := _extra_steps }

/-- The method `getExtraSteps`: `return extra_steps`. -/
def getExtraSteps (self : DiracEigenSolver R) : Nat := self.extra_steps

end DiracEigenSolver

/-- Whether the event is an operator application, a solve or a collective reduction (the
calls every process has to reach in the same order). -/
def Event.isCollective : Event → Bool
  | Event.multiplyAdd => true
  | Event.multiply => true
  | Event.solve => true
  | Event.dot => true
  | Event.squaredNorm => true
  | Event.differenceNorm => true
  | Event.newBiConjugateGradient => false
  | Event.setPrecision => false

/-- The statements of `maximumEigenvalues` without the convergence check of lines 159-172:
the two sequences it returns. -/
def maximumEigenvalues.withoutCheck (self : DiracEigenSolver R) (c : Collaborators R K d)
    (backend : Backend) (eigenvalues : List K) (eigenvectors : List (Fin d → K)) (n : Nat)
    (mode : EigevaluesMode) (v0 : Fin d → K) : Option (List K × List (Fin d → K)) :=
  let steps := (self.extra_steps + n) % UINT_RANGE
  if steps = 0 then none
  else
    let kr := maximumEigenvalues.krylov c mode v0 steps
    let de := maximumEigenvalues.dense c backend steps kr.H
    let eigenvalues :=
      maximumEigenvalues.storeEigenvalues c backend mode steps de.eigenvalues eigenvalues
    let eigvec := de.eigenvectors
    let eigenvectors := reconstruct steps eigvec kr.V eigenvectors
    let eigenvectors := eigenvectors.reverse
    let eigenvalues := eigenvalues.reverse
    match eraseTail eigenvalues self.extra_steps, eraseTail eigenvectors self.extra_steps with
    | some evals, some evecs => some (evals, evecs)
    | _, _ => none

/-! ### The methods with bounds-checked containers -/

/-- The loop `for (unsigned int i = 0; i < n; ++i) body(i)` for a body that can fail. -/
def forLoopM {σ : Type} (n : Nat) (body : Nat → σ → Option σ) (s : σ) : Option σ :=
  match n with
  | 0 => some s
  | k + 1 => (forLoopM k body s).bind (body k)

/-- A read of `V[k]` in a vector of `size` fields; `none` outside the vector. -/
def readField (size : Nat) (V : Nat → Fin d → K) (k : Nat) : Option (Fin d → K) :=
  if k < size then some (V k) else none

/-- The assignment `V[k] = v` in a vector of `size` fields; `none` outside the vector. -/
def writeField (size : Nat) (V : Nat → Fin d → K) (k : Nat) (v : Fin d → K) :
    Option (Nat → Fin d → K) :=
  if k < size then some (setField V k v) else none

/-- A read of `M(i,j)` in a matrix with `rows` rows and `cols` columns; `none` outside the
matrix. -/
def readEntry (rows cols : Nat) (M : Nat → Nat → K) (i j : Nat) : Option K :=
  if i < rows ∧ j < cols then some (M i j) else none

/-- The assignment `M(i,j) = x` in a matrix with `rows` rows and `cols` columns; `none`
outside the matrix. -/
def writeEntry (rows cols : Nat) (M : Nat → Nat → K) (i j : Nat) (x : K) :
    Option (Nat → Nat → K) :=
  if i < rows ∧ j < cols then some (setEntry M i j x) else none

/-- A read of element `i` of a dense vector of `size` scalars (`ces.eigenvalues()[i]`,
`eigval[i]`); `none` outside the vector. -/
def readValue (size : Nat) (xs : Nat → K) (i : Nat) : Option K :=
  if i < size then some (xs i) else none

/-- The assignment `xs[i] = x` in a `std::vector`; `none` outside the sequence. -/
def writeAt {α : Type} (xs : List α) (i : Nat) (x : α) : Option (List α) :=
  if i < xs.length then some (xs.set i x) else none

/-- The call `xs.back()`; `none` on an empty sequence. -/
def back {α : Type} (xs : List α) : Option α := xs.getLast?

/-- The Ritz vector number `i` with checked accesses: `eigvec.at(j,i)` in the
`steps x steps` matrix `eigvec` and `V[j]` in the `steps` fields of `V`. -/
def ritzVectorChecked (steps : Nat) (eigvec : Nat → Nat → K) (V : Nat → Fin d → K) (i : Nat) :
    Option (Fin d → K) :=
  forLoopM steps (fun j acc => do
    let e ← readEntry steps steps eigvec j i
    let Vj ← readField steps V j
    some (fun site => acc site + e * Vj site)) (fun _ => 0)

/-- The reconstruction loop with checked accesses: `eigenvectors[i]` in the resized output,
`eigvec.at(j,i)` and `V[j]`. -/
def reconstructChecked (steps : Nat) (eigvec : Nat → Nat → K) (V : Nat → Fin d → K)
    (eigenvectors : List (Fin d → K)) : Option (List (Fin d → K)) :=
  forLoopM steps (fun i evs => do
    let x ← ritzVectorChecked steps eigvec V i
    writeAt evs i x) (resize eigenvectors steps (fun _ => 0))

namespace maximumEigenvalues

/-- Lines 50-74 with checked accesses: `V` has `steps` elements after `V.resize(steps)`,
`H` is `steps x steps`. -/
def startChecked (steps : Nat) (c : Collaborators R K d) (mode : EigevaluesMode)
    (v0 : Fin d → K) : Option (Arnoldi K d) := do
  let V ← writeField steps (fun _ _ => 0) 0 v0
  let V0 ← readField steps V 0
  let w := apply c mode V0
  let V0 ← readField steps V 0
  let alpha := dot V0 w
  let H : Nat → Nat → K := fun _ _ => 0
  let V0 ← readField steps V 0
  let f : Fin d → K := fun site => w site - alpha * V0 site
  let H ← writeEntry steps steps H 0 0 alpha
  some { V := V, H := H, w := w, f := f, log := [Event.multiplyAdd, Event.dot] }

/-- Lines 101-111 with checked accesses to `V[i]` and `H(i,j+1)`. -/
def gramSchmidtChecked (steps j i : Nat) (s : Arnoldi K d) : Option (Arnoldi K d) := do
  let Vi ← readField steps s.V i
  let proj := dot Vi s.w
  let H ← writeEntry steps steps s.H i (j + 1) proj
  let Vi ← readField steps s.V i
  some { s with
    H := H
    f := fun site => s.f site - proj * Vi site
    log := s.log ++ [Event.dot] }

/-- Lines 113-123 with checked accesses to `V[i]` and `H(i,j+1)`. -/
def moreStableGramSchmidtChecked (steps j i : Nat) (s : Arnoldi K d) :
    Option (Arnoldi K d) := do
  let Vi ← readField steps s.V i
  let proj := dot Vi s.f
  let h ← readEntry steps steps s.H i (j + 1)
  let H ← writeEntry steps steps s.H i (j + 1) (h + proj)
  let Vi ← readField steps s.V i
  some { s with
    H := H
    f := fun site => s.f site - proj * Vi site
    log := s.log ++ [Event.dot] }

/-- Lines 76-123 with checked accesses to `V[j+1]`, `H(j+1,j)`, `V[i]` and `H(i,j+1)`. -/
def iterateChecked (steps : Nat) (c : Collaborators R K d) (mode : EigevaluesMode) (j : Nat)
    (s : Arnoldi K d) : Option (Arnoldi K d) := do
  let beta := c.sqrt (squaredNorm s.f)
  let V ← writeField steps s.V (j + 1) (fun site => s.f site / beta)
  let H ← writeEntry steps steps s.H (j + 1) j beta
  let Vj1 ← readField steps V (j + 1)
  let w := apply c mode Vj1
  let s1 : Arnoldi K d :=
    { V := V, H := H, w := w, f := fun site => w site,
      log := s.log ++ [Event.squaredNorm, Event.multiplyAdd] }
  let s2 ← forLoopM (j + 2) (gramSchmidtChecked steps j) s1
  forLoopM (j + 2) (moreStableGramSchmidtChecked steps j) s2

/-- Lines 50-124 with checked accesses. -/
def krylovChecked (steps : Nat) (c : Collaborators R K d) (mode : EigevaluesMode)
    (v0 : Fin d → K) : Option (Arnoldi K d) := do
  let s ← startChecked steps c mode v0
  forLoopM (steps - 1) (iterateChecked steps c mode) s

/-- Lines 126-142 with checked accesses to `eigenvalues[i]` and to the Ritz value `i`. -/
def storeEigenvaluesChecked (c : Collaborators R K d) (backend : Backend)
    (mode : EigevaluesMode) (steps : Nat) (ritz : Nat → K) (eigenvalues : List K) :
    Option (List K) :=
  forLoopM steps (fun i ev => do
    let r ← readValue steps ritz i
    writeAt ev i (stored c backend mode r)) (resize eigenvalues steps 0)

/-- The method `maximumEigenvalues` with every indexed access checked against the size of
its container: `none` as soon as an index lies outside. -/
def checked (self : DiracEigenSolver R) (c : Collaborators R K d)
    (backend : Backend) (eigenvalues : List K) (eigenvectors : List (Fin d → K)) (n : Nat)
    (mode : EigevaluesMode) (v0 : Fin d → K) : Option (Outcome R K d) := do
  let steps := (self.extra_steps + n) % UINT_RANGE
  let kr ← krylovChecked steps c mode v0
  let de := dense c backend steps kr.H
  let eigenvalues ← storeEigenvaluesChecked c backend mode steps de.eigenvalues eigenvalues
  let eigvec := de.eigenvectors
  let eigenvectors ← reconstructChecked steps eigvec kr.V eigenvectors
  let lastVector ← back eigenvectors
  let tmp := c.multiply lastVector
  let lastValue ← back eigenvalues
  let lastVector ← back eigenvectors
  let tmpe : Fin d → K := fun site => lastValue * lastVector site
  let diffnorm := differenceNorm c.sqrt tmp tmpe
  let eigenvectors := eigenvectors.reverse
  let eigenvalues := eigenvalues.reverse
  let evals ← eraseTail eigenvalues self.extra_steps
  let evecs ← eraseTail eigenvectors self.extra_steps
  some
    { self := self, eigenvalues := evals, eigenvectors := evecs, diffnorm := diffnorm,
      log := kr.log ++ [Event.multiply, Event.differenceNorm] }

end maximumEigenvalues

namespace minimumEigenvalues

/-- Lines 437-460 with checked accesses: `V` has `steps` elements after `V.resize(steps)`,
`H` is `steps x steps`. -/
def startChecked (steps : Nat) (c : Collaborators R K d) (bicg : BiConjugateGradient R)
    (log0 : List Event) (v0 : Fin d → K) : Option (Arnoldi K d) := do
  let V ← writeField steps (fun _ _ => 0) 0 v0
  let V0 ← readField steps V 0
  let w := c.solve bicg V0
  let V0 ← readField steps V 0
  let alpha := dot V0 w
  let H : Nat → Nat → K := fun _ _ => 0
  let V0 ← readField steps V 0
  let f : Fin d → K := fun site => w site - alpha * V0 site
  let H ← writeEntry steps steps H 0 0 alpha
  some { V := V, H := H, w := w, f := f, log := log0 ++ [Event.solve, Event.dot] }

/-- Lines 484-494 with checked accesses to `V[i]` and `H(i,j+1)`. -/
def gramSchmidtChecked (steps j i : Nat) (s : Arnoldi K d) : Option (Arnoldi K d) := do
  let Vi ← readField steps s.V i
  let proj := dot Vi s.w
  let H ← writeEntry steps steps s.H i (j + 1) proj
  let Vi ← readField steps s.V i
  some { s with
    H := H
    f := fun site => s.f site - proj * Vi site
    log := s.log ++ [Event.dot] }

/-- Lines 496-506 with checked accesses to `V[i]` and `H(i,j+1)`. -/
def moreStableGramSchmidtChecked (steps j i : Nat) (s : Arnoldi K d) :
    Option (Arnoldi K d) := do
  let Vi ← readField steps s.V i
  let proj := dot Vi s.f
  let h ← readEntry steps steps s.H i (j + 1)
  let H ← writeEntry steps steps s.H i (j + 1) (h + proj)
  let Vi ← readField steps s.V i
  some { s with
    H := H
    f := fun site => s.f site - proj * Vi site
    log := s.log ++ [Event.dot] }

/-- Lines 462-506 with checked accesses to `V[j+1]`, `H(j+1,j)`, `V[i]` and `H(i,j+1)`. -/
def iterateChecked (steps : Nat) (c : Collaborators R K d) (bicg : BiConjugateGradient R)
    (j : Nat) (s : Arnoldi K d) : Option (Arnoldi K d) := do
  let beta := c.sqrt (squaredNorm s.f)
  let V ← writeField steps s.V (j + 1) (fun site => s.f site / beta)
  let H ← writeEntry steps steps s.H (j + 1) j beta
  let Vj1 ← readField steps V (j + 1)
  let w := c.solve bicg Vj1
  let s1 : Arnoldi K d :=
    { V := V, H := H, w := w, f := fun site => w site,
      log := s.log ++ [Event.squaredNorm, Event.solve] }
  let s2 ← forLoopM (j + 2) (gramSchmidtChecked steps j) s1
  forLoopM (j + 2) (moreStableGramSchmidtChecked steps j) s2

/-- Lines 437-507 with checked accesses. -/
def krylovChecked (steps : Nat) (c : Collaborators R K d) (bicg : BiConjugateGradient R)
    (log0 : List Event) (v0 : Fin d → K) : Option (Arnoldi K d) := do
  let s ← startChecked steps c bicg log0 v0
  forLoopM (steps - 1) (iterateChecked steps c bicg) s

/-- Lines 509-525 with checked accesses to `eigenvalues[i]` and to the Ritz value `i`. -/
def storeEigenvaluesChecked (backend : Backend) (steps : Nat) (ritz : Nat → K)
    (eigenvalues : List K) : Option (List K) :=
  forLoopM steps (fun i ev => do
    let r ← readValue steps ritz i
    writeAt ev i (stored backend r)) (resize eigenvalues steps 0)

/-- The method `minimumEigenvalues` with every indexed access checked against the size of
its container: `none` as soon as an index lies outside. -/
def checked (self : DiracEigenSolver R) (c : Collaborators R K d)
    (backend : Backend) (eigenvalues : List K) (eigenvectors : List (Fin d → K)) (n : Nat)
    (v0 : Fin d → K) : Option (Outcome R K d) := do
  let steps := (self.extra_steps + n) % UINT_RANGE
  let pr := prepare self c
  let kr ← krylovChecked steps c pr.1 pr.2 v0
  let de := dense c backend steps kr.H
  let eigenvalues ← storeEigenvaluesChecked backend steps de.eigenvalues eigenvalues
  let eigvec := de.eigenvectors
  let eigenvectors ← reconstructChecked steps eigvec kr.V eigenvectors
  let lastVector ← back eigenvectors
  let tmp := c.multiply lastVector
  let lastValue ← back eigenvalues
  let lastVector ← back eigenvectors
  let tmpe : Fin d → K := fun site => lastValue * lastVector site
  let diffnorm := differenceNorm c.sqrt tmp tmpe
  let eigenvectors := eigenvectors.reverse
  let eigenvalues := eigenvalues.reverse
  let evals ← eraseTail eigenvalues self.extra_steps
  let evecs ← eraseTail eigenvectors self.extra_steps
  some
    { self := { self with biConjugateGradient := some pr.1 }, eigenvalues := evals,
      eigenvectors := evecs, diffnorm := diffnorm,
      log := kr.log ++ [Event.multiply, Event.differenceNorm] }

end minimumEigenvalues

/-! ### `maximumEigenvalues` with the quotient of line 83 left open -/

namespace maximumEigenvalues

/-- Lines 76-123 of turn `j` with the quotient `f[site][mu]/beta` of line 83 computed by
`quot`; `iterateWith (fun a b => a / b)` is `iterate`. -/
def iterateWith (quot : K → K → K) (c : Collaborators R K d) (mode : EigevaluesMode) (j : Nat)
    (s : Arnoldi K d) : Arnoldi K d :=
  let beta := c.sqrt (squaredNorm s.f)
  let V := setField s.V (j + 1) (fun site => quot (s.f site) beta)
  let H := setEntry s.H (j + 1) j beta
  let w := apply c mode (V (j + 1))
  let s1 : Arnoldi K d :=
    { V := V, H := H, w := w, f := fun site => w site,
      log := s.log ++ [Event.squaredNorm, Event.multiplyAdd] }
  let s2 := forLoop (j + 2) (gramSchmidt j) s1
  forLoop (j + 2) (moreStableGramSchmidt j) s2

/-- Lines 50-124 with the quotient computed by `quot`. -/
def krylovWith (quot : K → K → K) (c : Collaborators R K d) (mode : EigevaluesMode)
    (v0 : Fin d → K) (steps : Nat) : Arnoldi K d :=
  forLoop (steps - 1) (iterateWith quot c mode) (start c mode v0)

end maximumEigenvalues

/-- The method `maximumEigenvalues` with the quotient of line 83 computed by `quot`;
`maximumEigenvaluesWith (fun a b => a / b)` is `maximumEigenvalues`. -/
def maximumEigenvaluesWith (quot : K → K → K) (self : DiracEigenSolver R)
    (c : Collaborators R K d) (backend : Backend) (eigenvalues : List K)
    (eigenvectors : List (Fin d → K)) (n : Nat) (mode : EigevaluesMode) (v0 : Fin d → K) :
    Option (Outcome R K d) :=
  let steps := (self.extra_steps + n) % UINT_RANGE
  if steps = 0 then none
  else
    let kr := maximumEigenvalues.krylovWith quot c mode v0 steps
    let de := maximumEigenvalues.dense c backend steps kr.H
    let eigenvalues :=
      maximumEigenvalues.storeEigenvalues c backend mode steps de.eigenvalues eigenvalues
    let eigvec := de.eigenvectors
    let eigenvectors := reconstruct steps eigvec kr.V eigenvectors
    let tmp := c.multiply (eigenvectors.getLastD (fun _ => 0))
    let tmpe : Fin d → K :=
      fun site => eigenvalues.getLastD 0 * eigenvectors.getLastD (fun _ => 0) site
    let diffnorm := differenceNorm c.sqrt tmp tmpe
    let eigenvectors := eigenvectors.reverse
    let eigenvalues := eigenvalues.reverse
    match eraseTail eigenvalues self.extra_steps, eraseTail eigenvectors self.extra_steps with
    | some evals, some evecs =>
      some
        { self := self, eigenvalues := evals, eigenvectors := evecs, diffnorm := diffnorm,
          log := kr.log ++ [Event.multiply, Event.differenceNorm] }
    | _, _ => none

/-! ### The Wilson fermion force (`hmc_forces`) -/

/-- The collaborators of the Wilson fermion force that are not part of the sources:
`diracVectorLength` is the number of colour components of a `GaugeVector`,
`g5idmg mu alpha beta` and `g5idpg mu alpha beta` are the entries returned by
`Gamma::g5idmg` and `Gamma::g5idpg` (real numbers, read as scalars), and `sup site mu` is
`Vector::sup(site, mu)`. -/
structure ForceCollaborators (K : Type) where
  diracVectorLength : Nat
  g5idmg : Int → Nat → Nat → K
  g5idpg : Int → Nat → Nat → K
  sup : Int → Int → Int

/-- The data member of `FermionForce`: `kappa`, set by the constructor. -/
structure FermionForce (K : Type) where
  kappa : K

/-- The class `DiracWilsonFermionForce`, derived from `FermionForce`; its constructor
passes `_kappa` on. -/
structure DiracWilsonFermionForce (K : Type) extends FermionForce K

/-- The Hermitian transpose `htrans` of a matrix. -/
def htrans (M : Nat → Nat → K) : Nat → Nat → K := fun i j => star (M j i)

/-- The product of a matrix with a `GaugeVector` of `size` components. -/
def matVec (size : Nat) (M : Nat → Nat → K) (v : Nat → K) : Nat → K :=
  fun i => ∑ k in Finset.range size, M i k * v k

/-- The method `FermionForce::tensor`: `result.at(i,j) = y[i]*conj(x[j])` for
`i, j < diracVectorLength`, on a matrix set to zero. -/
def FermionForce.tensor (self : FermionForce K) (diracVectorLength : Nat) (x y : Nat → K) :
    Nat → Nat → K :=
  let result : Nat → Nat → K := fun _ _ => 0
  forLoop diracVectorLength (fun i result =>
    forLoop diracVectorLength (fun j result => setEntry result i j (y i * star (x j)))
      result) result

/-- The method `DiracWilsonFermionForce::derivative` (lines 17-61): four loops over
`alpha`, each building `tmp` in a loop over `beta` and adding a tensor product to `force`
or subtracting it.  A link `lattice[site][mu]` is a matrix, `X[site][alpha]` is a
`GaugeVector`; `a * b * M * v` is read from the left, as C++ does. -/
def DiracWilsonFermionForce.derivative [DecidableEq K] (self : DiracWilsonFermionForce K)
    (c : ForceCollaborators K) (lattice : Int → Int → Nat → Nat → K)
    (X Y : Int → Nat → Nat → K) (site mu : Int) : Nat → Nat → K :=
  let force : Nat → Nat → K := fun _ _ => 0
  let force := forLoop 4 (fun alpha force =>
    let tmp : Nat → K := forLoop 4 (fun beta tmp =>
      if c.g5idmg mu alpha beta ≠ 0 then
        tmp + (-(self.kappa) * c.g5idmg mu alpha beta) • Y (c.sup site mu) beta
      else tmp) (fun _ => 0)
    force + self.tensor c.diracVectorLength (X site alpha) tmp) force
  let force := forLoop 4 (fun alpha force =>
    let tmp : Nat → K := forLoop 4 (fun beta tmp =>
      if c.g5idpg mu alpha beta ≠ 0 then
        tmp + matVec c.diracVectorLength
          ((-(self.kappa) * c.g5idpg mu alpha beta) • htrans (lattice site mu)) (Y site beta)
      else tmp) (fun _ => 0)
    force - self.tensor c.diracVectorLength
      (matVec c.diracVectorLength (lattice site mu) (X (c.sup site mu) alpha)) tmp) force
  let force := forLoop 4 (fun alpha force =>
    let tmp : Nat → K := forLoop 4 (fun beta tmp =>
      if c.g5idmg mu alpha beta ≠ 0 then
        tmp + (-(self.kappa) * c.g5idmg mu alpha beta) • X (c.sup site mu) beta
      else tmp) (fun _ => 0)
    force + self.tensor c.diracVectorLength (Y site alpha) tmp) force
  let force := forLoop 4 (fun alpha force =>
    let tmp : Nat → K := forLoop 4 (fun beta tmp =>
      if c.g5idpg mu alpha beta ≠ 0 then
        tmp + matVec c.diracVectorLength
          ((-(self.kappa) * c.g5idpg mu alpha beta) • htrans (lattice site mu)) (X site beta)
      else tmp) (fun _ => 0)
    force - self.tensor c.diracVectorLength
      (matVec c.diracVectorLength (lattice site mu) (Y (c.sup site mu) alpha)) tmp) force
  force


end Definitions

/-! ## Concrete scalars and collaborators for the examples -/

/-- Complex numbers with rational real and imaginary parts: the scalars of the concrete
examples. -/
@[ext]
structure GaussRat where
  re : ℚ
  im : ℚ
  deriving DecidableEq

namespace GaussRat

instance : Zero GaussRat := ⟨⟨0, 0⟩⟩

instance : One GaussRat := ⟨⟨1, 0⟩⟩

instance : Add GaussRat := ⟨fun a b => ⟨a.re + b.re, a.im + b.im⟩⟩

instance : Neg GaussRat := ⟨fun a => ⟨-a.re, -a.im⟩⟩

instance : Mul GaussRat :=
  ⟨fun a b => ⟨a.re * b.re - a.im * b.im, a.re * b.im + a.im * b.re⟩⟩

instance : Inv GaussRat :=
  ⟨fun a => ⟨a.re / (a.re * a.re + a.im * a.im), -a.im / (a.re * a.re + a.im * a.im)⟩⟩

instance : Star GaussRat := ⟨fun a => ⟨a.re, -a.im⟩⟩

instance : CommRing GaussRat where
  add_assoc a b c := GaussRat.ext (add_assoc a.re b.re c.re) (add_assoc a.im b.im c.im)
  zero_add a := GaussRat.ext (zero_add a.re) (zero_add a.im)
  add_zero a := GaussRat.ext (add_zero a.re) (add_zero a.im)
  add_comm a b := GaussRat.ext (add_comm a.re b.re) (add_comm a.im b.im)
  neg_add_cancel a := GaussRat.ext (neg_add_cancel a.re) (neg_add_cancel a.im)
  mul_assoc a b c := GaussRat.ext
    (show (a.re * b.re - a.im * b.im) * c.re - (a.re * b.im + a.im * b.re) * c.im =
      a.re * (b.re * c.re - b.im * c.im) - a.im * (b.re * c.im + b.im * c.re) by ring)
    (show (a.re * b.re - a.im * b.im) * c.im + (a.re * b.im + a.im * b.re) * c.re =
      a.re * (b.re * c.im + b.im * c.re) + a.im * (b.re * c.re - b.im * c.im) by ring)
  one_mul a := GaussRat.ext
    (show 1 * a.re - 0 * a.im = a.re by ring) (show 1 * a.im + 0 * a.re = a.im by ring)
  mul_one a := GaussRat.ext
    (show a.re * 1 - a.im * 0 = a.re by ring) (show a.re * 0 + a.im * 1 = a.im by ring)
  left_distrib a b c := GaussRat.ext
    (show a.re * (b.re + c.re) - a.im * (b.im + c.im) =
      a.re * b.re - a.im * b.im + (a.re * c.re - a.im * c.im) by ring)
    (show a.re * (b.im + c.im) + a.im * (b.re + c.re) =
      a.re * b.im + a.im * b.re + (a.re * c.im + a.im * c.re) by ring)
  right_distrib a b c := GaussRat.ext
    (show (a.re + b.re) * c.re - (a.im + b.im) * c.im =
      a.re * c.re - a.im * c.im + (b.re * c.re - b.im * c.im) by ring)
    (show (a.re + b.re) * c.im + (a.im + b.im) * c.re =
      a.re * c.im + a.im * c.re + (b.re * c.im + b.im * c.re) by ring)
  mul_comm a b := GaussRat.ext
    (show a.re * b.re - a.im * b.im = b.re * a.re - b.im * a.im by ring)
    (show a.re * b.im + a.im * b.re = b.re * a.im + b.im * a.re by ring)
  zero_mul a := GaussRat.ext
    (show 0 * a.re - 0 * a.im = 0 by ring) (show 0 * a.im + 0 * a.re = 0 by ring)
  mul_zero a := GaussRat.ext
    (show a.re * 0 - a.im * 0 = 0 by ring) (show a.re * 0 + a.im * 0 = 0 by ring)
  natCast n := ⟨n, 0⟩
  natCast_zero := GaussRat.ext (show ((0 : Nat) : ℚ) = 0 from Nat.cast_zero) rfl
  natCast_succ n := GaussRat.ext
    (show ((n + 1 : Nat) : ℚ) = (n : ℚ) + 1 from Nat.cast_succ n)
    (show (0 : ℚ) = 0 + 0 by ring)
  nsmul := nsmulRec
  zsmul := zsmulRec

instance : Field GaussRat where
  exists_pair_ne := ⟨0, 1, fun h => zero_ne_one (α := ℚ) (congrArg GaussRat.re h)⟩
  mul_inv_cancel a h := by
    have hn : a.re * a.re + a.im * a.im ≠ 0 := by
      intro h0
      apply h
      have h1 : a.re * a.re = 0 := by nlinarith [mul_self_nonneg a.re, mul_self_nonneg a.im]
      have h2 : a.im * a.im = 0 := by nlinarith [mul_self_nonneg a.re, mul_self_nonneg a.im]
      exact GaussRat.ext (mul_self_eq_zero.mp h1) (mul_self_eq_zero.mp h2)
    refine GaussRat.ext ?_ ?_
    · show a.re * (a.re / (a.re * a.re + a.im * a.im)) -
        a.im * (-a.im / (a.re * a.re + a.im * a.im)) = 1
      field_simp
    · show a.re * (-a.im / (a.re * a.re + a.im * a.im)) +
        a.im * (a.re / (a.re * a.re + a.im * a.im)) = 0
      field_simp
      ring
  inv_zero := GaussRat.ext
    (show (0 : ℚ) / (0 * 0 + 0 * 0) = 0 by simp) (show -(0 : ℚ) / (0 * 0 + 0 * 0) = 0 by simp)
  qsmul := _
  nnqsmul := _

instance : StarRing GaussRat where
  star_involutive a := GaussRat.ext rfl (neg_neg a.im)
  star_mul a b := GaussRat.ext
    (show a.re * b.re - a.im * b.im = b.re * a.re - -b.im * -a.im by ring)
    (show -(a.re * b.im + a.im * b.re) = b.re * -a.im + -b.im * a.re by ring)
  star_add a b := GaussRat.ext rfl (show -(a.im + b.im) = -a.im + -b.im by ring)

/-- The imaginary unit. -/
def I : GaussRat := ⟨0, 1⟩

/-- The real square root on the real part; exact on squares of rationals. -/
def sqrt (z : GaussRat) : GaussRat := ⟨Rat.sqrt z.re, 0⟩

/-- The squared magnitude, which orders scalars as `abs` does. -/
def normSq (z : GaussRat) : ℚ := z.re * z.re + z.im * z.im

end GaussRat

namespace Demo

/-- A dense eigendecomposition that is exact on diagonal matrices: the Ritz values are the
diagonal entries and the eigenvector matrix is the identity. -/
def diagonalEig (steps : Nat) (H : Nat → Nat → GaussRat) : DenseEig GaussRat :=
  { eigenvalues := fun i => H i i, eigenvectors := fun j i => if j = i then 1 else 0 }

/-- Collaborators over the rational complex numbers for an operator `multiply` with inverse
`inverse`. -/
def collaborators {d : Nat} (multiply inverse : (Fin d → GaussRat) → (Fin d → GaussRat)) :
    Collaborators ℚ GaussRat d :=
  { I := GaussRat.I
    sqrt := GaussRat.sqrt
    multiply := multiply
    solve := fun _ source => inverse source
    newBiCG := { precision := 0 }
    ComplexEigenSolver := diagonalEig
    eig_gen := diagonalEig }

/-- A solver object as the constructor leaves it, with `extra_steps` set to `k`. -/
def solver (k : Nat) : DiracEigenSolver ℚ :=
  { epsilon := 1 / 100000, extra_steps := k, biConjugateGradient := none }

/-- The identity operator on a lattice with one component. -/
def identity1 (v : Fin 1 → GaussRat) : Fin 1 → GaussRat := v

/-- The identity operator on a lattice with `d` components. -/
def identity {d : Nat} (v : Fin d → GaussRat) : Fin d → GaussRat := v

/-- The operator multiplying every component by the scalar `a`. -/
def scale {d : Nat} (a : GaussRat) (v : Fin d → GaussRat) : Fin d → GaussRat :=
  fun site => a * v site

/-- The operator exchanging the two components of a lattice with two components. -/
def swap2 (v : Fin 2 → GaussRat) : Fin 2 → GaussRat := fun site => v (1 - site)

/-- The operator `v ↦ swap2 v + 5 v` on two components. -/
def shiftedSwap2 (v : Fin 2 → GaussRat) : Fin 2 → GaussRat :=
  fun site => swap2 v site + 5 * v site

/-- The unit vector along the first component. -/
def e0 {d : Nat} : Fin (d + 1) → GaussRat := fun site => if site = 0 then 1 else 0

/-- The diagonal operator with the real entries `a0`, `a1` on two components. -/
def diagonal (a0 a1 : ℚ) (v : Fin 2 → GaussRat) : Fin 2 → GaussRat :=
  fun site => (if site = 0 then ⟨a0, 0⟩ else ⟨a1, 0⟩) * v site

/-- The normalised vector `(3/5, 4/5)`. -/
def v345 : Fin 2 → GaussRat := fun site => if site = 0 then ⟨3 / 5, 0⟩ else ⟨4 / 5, 0⟩

/-- A dense eigendecomposition that lists the Ritz values `vals` with the eigenvectors
`vecs` (`vecs[i]` is column `i`), whatever the matrix. -/
def listedEig (vals : List GaussRat) (vecs : List (List GaussRat)) (steps : Nat)
    (H : Nat → Nat → GaussRat) : DenseEig GaussRat :=
  { eigenvalues := fun i => vals.getD i 0, eigenvectors := fun j i => (vecs.getD i []).getD j 0 }

/-- The collaborators `c` with both dense back ends replaced by `eig`. -/
def withDense {d : Nat} (c : Collaborators ℚ GaussRat d)
    (eig : Nat → (Nat → Nat → GaussRat) → DenseEig GaussRat) : Collaborators ℚ GaussRat d :=
  { c with ComplexEigenSolver := eig, eig_gen := eig }

/-- The operator `diag(1, 2)` with a dense solver that lists the Ritz value `1` (eigenvector
`(3, 4)`) before the Ritz value `1/2` (eigenvector `(4, -3)`). -/
def descendingCollaborators : Collaborators ℚ GaussRat 2 :=
  withDense (collaborators (diagonal 1 2) (diagonal 1 (1 / 2)))
    (listedEig [1, ⟨1 / 2, 0⟩] [[3, 4], [4, -3]])

/-- The operator `diag(1, 2)` with a dense solver that lists the Ritz value `1/2`
(eigenvector `(4, -3)`) before the Ritz value `1` (eigenvector `(3, 4)`). -/
def ascendingCollaborators : Collaborators ℚ GaussRat 2 :=
  withDense (collaborators (diagonal 1 2) (diagonal 1 (1 / 2)))
    (listedEig [⟨1 / 2, 0⟩, 1] [[4, -3], [3, 4]])

/-- The swap operator with a dense solver that lists the Ritz value `4` (eigenvector
`(1, -1)`) before the Ritz value `6` (eigenvector `(1, 1)`). -/
def swapCollaborators : Collaborators ℚ GaussRat 2 :=
  withDense (collaborators swap2 swap2) (listedEig [4, 6] [[1, -1], [1, 1]])

end Demo

/-! ## Evaluation lemmas for the concrete scalars -/

section GaussRatLemmas

namespace GaussRat
@[simp]
theorem zero_re : (0 : GaussRat).re = 0 := rfl
@[simp]
theorem zero_im : (0 : GaussRat).im = 0 := rfl
@[simp]
theorem one_re : (1 : GaussRat).re = 1 := rfl
@[simp]
theorem one_im : (1 : GaussRat).im = 0 := rfl
@[simp]
theorem add_re (a b : GaussRat) : (a + b).re = a.re + b.re := rfl
@[simp]
theorem add_im (a b : GaussRat) : (a + b).im = a.im + b.im := rfl
@[simp]
theorem neg_re (a : GaussRat) : (-a).re = -a.re := rfl
@[simp]
theorem neg_im (a : GaussRat) : (-a).im = -a.im := rfl
@[simp]
theorem sub_re (a b : GaussRat) : (a - b).re = a.re - b.re := by
  rw [sub_eq_add_neg, sub_eq_add_neg]; rfl
@[simp]
theorem sub_im (a b : GaussRat) : (a - b).im = a.im - b.im := by
  rw [sub_eq_add_neg, sub_eq_add_neg]; rfl
@[simp]
theorem mul_re (a b : GaussRat) : (a * b).re = a.re * b.re - a.im * b.im := rfl
@[simp]
theorem mul_im (a b : GaussRat) : (a * b).im = a.re * b.im + a.im * b.re := rfl
@[simp]
theorem inv_re (a : GaussRat) : (a⁻¹).re = a.re / (a.re * a.re + a.im * a.im) := rfl
@[simp]
theorem inv_im (a : GaussRat) : (a⁻¹).im = -a.im / (a.re * a.re + a.im * a.im) := rfl
@[simp]
theorem star_re (a : GaussRat) : (star a).re = a.re := rfl
@[simp]
theorem star_im (a : GaussRat) : (star a).im = -a.im := rfl
@[simp]
theorem natCast_re (n : Nat) : ((n : GaussRat)).re = n := rfl
@[simp]
theorem natCast_im (n : Nat) : ((n : GaussRat)).im = 0 := rfl
@[simp]
theorem ofNat_re (n : Nat) [n.AtLeastTwo] :
    (no_index (OfNat.ofNat n) : GaussRat).re = OfNat.ofNat n := rfl
@[simp]
theorem ofNat_im (n : Nat) [n.AtLeastTwo] :
    (no_index (OfNat.ofNat n) : GaussRat).im = 0 := rfl
@[simp]
theorem I_re : I.re = 0 := rfl
@[simp]
theorem I_im : I.im = 1 := rfl
@[simp]
theorem sqrt_re (z : GaussRat) : (sqrt z).re = Rat.sqrt z.re := rfl
@[simp]
theorem sqrt_im (z : GaussRat) : (sqrt z).im = 0 := rfl
theorem rat_sqrt_sq (q : ℚ) (h : 0 ≤ q) : Rat.sqrt (q * q) = q := by
  rw [Rat.sqrt_eq, abs_of_nonneg h]
end GaussRat

end GaussRatLemmas

/-! ## Sequences: `resize`, element-wise stores, `reverse`, `erase` -/

section Sequences

variable {α : Type}

theorem resize_length (xs : List α) (k : Nat) (dflt : α) : (resize xs k dflt).length = k := by
  unfold resize
  simp only [List.length_append, List.length_take, List.length_replicate]
  omega

theorem forLoop_succ {σ : Type} (n : Nat) (body : Nat → σ → σ) (s : σ) :
    forLoop (n + 1) body s = body n (forLoop n body s) := rfl

theorem forLoop_set_length (g : Nat → α) (k : Nat) (l : List α) :
    (forLoop k (fun i xs => xs.set i (g i)) l).length = l.length := by
  induction k with
  | zero => rfl
  | succ k ih => rw [forLoop_succ, List.length_set, ih]

theorem forLoop_set_getElem? (g : Nat → α) (k : Nat) (l : List α) (i : Nat) :
    (forLoop k (fun i xs => xs.set i (g i)) l)[i]? =
      if i < k ∧ i < l.length then some (g i) else l[i]? := by
  induction k with
  | zero => simp [forLoop]
  | succ k ih =>
    rw [forLoop_succ, List.getElem?_set, ih, forLoop_set_length]
    by_cases hki : k = i
    · subst hki
      by_cases hl : k < l.length
      · simp [hl]
      · simp [hl]
        omega
    · by_cases hik : i < k
      · have : i < k + 1 := by omega
        simp [hki, hik, this]
      · have : ¬ i < k + 1 := by omega
        simp [hki, hik, this]

/-- Storing `g i` at every index of a sequence of length `k` leaves the sequence
`g 0, ..., g (k-1)`. -/
theorem forLoop_set_eq_map (g : Nat → α) (k : Nat) (l : List α) (hl : l.length = k) :
    forLoop k (fun i xs => xs.set i (g i)) l = (List.range k).map g := by
  apply List.ext_getElem?
  intro i
  rw [forLoop_set_getElem?]
  by_cases hik : i < k
  · simp [hik, hl]
  · simp only [hik, false_and, if_false]
    rw [List.getElem?_eq_none (by omega), List.getElem?_eq_none (by simp; omega)]

theorem eraseTail_eq_some (xs : List α) (k : Nat) (h : k ≤ xs.length) :
    eraseTail xs k = some (xs.take (xs.length - k)) := by
  simp [eraseTail, h]

/-- Element `k` of the first `m` elements of the reversal of `g 0, ..., g (steps-1)`. -/
theorem getElem?_take_reverse_map (g : Nat → α) (steps m k : Nat) (hm : m ≤ steps)
    (hk : k < m) :
    ((((List.range steps).map g).reverse).take m)[k]? = some (g (steps - 1 - k)) := by
  rw [List.getElem?_take_of_lt hk, List.getElem?_reverse (by simp; omega)]
  have h1 : steps - 1 - k < steps := by omega
  simp [h1]

theorem getLastD_map_range (g : Nat → α) (steps : Nat) (h : 0 < steps) (dflt : α) :
    ((List.range steps).map g).getLastD dflt = g (steps - 1) := by
  obtain ⟨m, rfl⟩ : ∃ m, steps = m + 1 := ⟨steps - 1, by omega⟩
  simp [List.range_succ]

end Sequences

/-! ## The two solvers in closed form -/

section ClosedForm

variable {R K : Type} [Field K] [StarRing K] {d : Nat}

theorem reconstruct_eq_map (steps : Nat) (eigvec : Nat → Nat → K) (V : Nat → Fin d → K)
    (eigenvectors : List (Fin d → K)) :
    reconstruct steps eigvec V eigenvectors =
      (List.range steps).map (ritzVector steps eigvec V) :=
  forLoop_set_eq_map _ steps _ (resize_length _ _ _)

theorem storeEigenvalues_max_eq_map (c : Collaborators R K d)
    (backend : Backend) (mode : EigevaluesMode) (steps : Nat) (ritz : Nat → K)
    (eigenvalues : List K) :
    maximumEigenvalues.storeEigenvalues c backend mode steps ritz eigenvalues =
      (List.range steps).map (fun i => maximumEigenvalues.stored c backend mode (ritz i)) :=
  forLoop_set_eq_map _ steps _ (resize_length _ _ _)

theorem storeEigenvalues_min_eq_map (backend : Backend) (steps : Nat)
    (ritz : Nat → K) (eigenvalues : List K) :
    minimumEigenvalues.storeEigenvalues backend steps ritz eigenvalues =
      (List.range steps).map (fun i => minimumEigenvalues.stored backend (ritz i)) :=
  forLoop_set_eq_map _ steps _ (resize_length _ _ _)

/-- The outcome of `maximumEigenvalues` when `steps` is positive and at least
`extra_steps`. -/
theorem maximumEigenvalues_closed (self : DiracEigenSolver R) (c : Collaborators R K d)
    (backend : Backend) (eigenvalues : List K) (eigenvectors : List (Fin d → K)) (n : Nat)
    (mode : EigevaluesMode) (v0 : Fin d → K) (steps : Nat)
    (hsteps : (self.extra_steps + n) % UINT_RANGE = steps) (hpos : 0 < steps)
    (hle : self.extra_steps ≤ steps) :
    maximumEigenvalues self c backend eigenvalues eigenvectors n mode v0 =
      some
        { self := self
          eigenvalues :=
            (((List.range steps).map (fun i => maximumEigenvalues.stored c backend mode
              ((maximumEigenvalues.dense c backend steps
                (maximumEigenvalues.krylov c mode v0 steps).H).eigenvalues i))).reverse).take
              (steps - self.extra_steps)
          eigenvectors :=
            (((List.range steps).map (ritzVector steps
              (maximumEigenvalues.dense c backend steps
                (maximumEigenvalues.krylov c mode v0 steps).H).eigenvectors
              (maximumEigenvalues.krylov c mode v0 steps).V)).reverse).take
              (steps - self.extra_steps)
          diffnorm :=
            differenceNorm c.sqrt
              (c.multiply (ritzVector steps
                (maximumEigenvalues.dense c backend steps
                  (maximumEigenvalues.krylov c mode v0 steps).H).eigenvectors
                (maximumEigenvalues.krylov c mode v0 steps).V (steps - 1)))
              (fun site => maximumEigenvalues.stored c backend mode
                  ((maximumEigenvalues.dense c backend steps
                    (maximumEigenvalues.krylov c mode v0 steps).H).eigenvalues (steps - 1)) *
                ritzVector steps
                  (maximumEigenvalues.dense c backend steps
                    (maximumEigenvalues.krylov c mode v0 steps).H).eigenvectors
                  (maximumEigenvalues.krylov c mode v0 steps).V (steps - 1) site)
          log := (maximumEigenvalues.krylov c mode v0 steps).log ++
            [Event.multiply, Event.differenceNorm] } := by
  have hne : ¬ steps = 0 := by omega
  unfold maximumEigenvalues
  simp only [hsteps, hne, if_false, reconstruct_eq_map,
    storeEigenvalues_max_eq_map, getLastD_map_range _ steps hpos]
  rw [eraseTail_eq_some _ _ (by simp; exact hle), eraseTail_eq_some _ _ (by simp; exact hle)]
  simp

/-- The outcome of `minimumEigenvalues` when `steps` is positive and at least
`extra_steps`. -/
theorem minimumEigenvalues_closed (self : DiracEigenSolver R) (c : Collaborators R K d)
    (backend : Backend) (eigenvalues : List K) (eigenvectors : List (Fin d → K)) (n : Nat)
    (v0 : Fin d → K) (steps : Nat)
    (hsteps : (self.extra_steps + n) % UINT_RANGE = steps) (hpos : 0 < steps)
    (hle : self.extra_steps ≤ steps) :
    minimumEigenvalues self c backend eigenvalues eigenvectors n v0 =
      some
        { self := { self with biConjugateGradient := some (minimumEigenvalues.prepare self c).1 }
          eigenvalues :=
            (((List.range steps).map (fun i => minimumEigenvalues.stored backend
              ((minimumEigenvalues.dense c backend steps
                (minimumEigenvalues.krylov c (minimumEigenvalues.prepare self c).1
                  (minimumEigenvalues.prepare self c).2 v0 steps).H).eigenvalues i))).reverse).take
              (steps - self.extra_steps)
          eigenvectors :=
            (((List.range steps).map (ritzVector steps
              (minimumEigenvalues.dense c backend steps
                (minimumEigenvalues.krylov c (minimumEigenvalues.prepare self c).1
                  (minimumEigenvalues.prepare self c).2 v0 steps).H).eigenvectors
              (minimumEigenvalues.krylov c (minimumEigenvalues.prepare self c).1
                (minimumEigenvalues.prepare self c).2 v0 steps).V)).reverse).take
              (steps - self.extra_steps)
          diffnorm :=
            differenceNorm c.sqrt
              (c.multiply (ritzVector steps
                (minimumEigenvalues.dense c backend steps
                  (minimumEigenvalues.krylov c (minimumEigenvalues.prepare self c).1
                    (minimumEigenvalues.prepare self c).2 v0 steps).H).eigenvectors
                (minimumEigenvalues.krylov c (minimumEigenvalues.prepare self c).1
                  (minimumEigenvalues.prepare self c).2 v0 steps).V (steps - 1)))
              (fun site => minimumEigenvalues.stored backend
                  ((minimumEigenvalues.dense c backend steps
                    (minimumEigenvalues.krylov c (minimumEigenvalues.prepare self c).1
                      (minimumEigenvalues.prepare self c).2 v0 steps).H).eigenvalues
                        (steps - 1)) *
                ritzVector steps
                  (minimumEigenvalues.dense c backend steps
                    (minimumEigenvalues.krylov c (minimumEigenvalues.prepare self c).1
                      (minimumEigenvalues.prepare self c).2 v0 steps).H).eigenvectors
                  (minimumEigenvalues.krylov c (minimumEigenvalues.prepare self c).1
                    (minimumEigenvalues.prepare self c).2 v0 steps).V (steps - 1) site)
          log := (minimumEigenvalues.krylov c (minimumEigenvalues.prepare self c).1
            (minimumEigenvalues.prepare self c).2 v0 steps).log ++
            [Event.multiply, Event.differenceNorm] } := by
  have hne : ¬ steps = 0 := by omega
  unfold minimumEigenvalues
  simp only [hsteps, hne, if_false, reconstruct_eq_map,
    storeEigenvalues_min_eq_map, getLastD_map_range _ steps hpos]
  rw [eraseTail_eq_some _ _ (by simp; exact hle), eraseTail_eq_some _ _ (by simp; exact hle)]
  simp

end ClosedForm

/-! ## The Krylov construction as an abstract Arnoldi process -/

section Bridge

variable {R K : Type} [Field K] [StarRing K] {d : Nat}

theorem setField_same (V : Nat → Fin d → K) (k : Nat) (v : Fin d → K) :
    setField V k v k = v := by
  simp [setField]

theorem setField_other (V : Nat → Fin d → K) (k a : Nat) (v : Fin d → K) (h : a ≠ k) :
    setField V k v a = V a := by
  simp [setField, h]

theorem max_iterate_eq (c : Collaborators R K d) (mode : EigevaluesMode) :
    maximumEigenvalues.iterate c mode =
      arnoldiIterate c.sqrt (maximumEigenvalues.apply c mode) Event.multiplyAdd := by
  funext j s
  simp only [maximumEigenvalues.iterate, arnoldiIterate, setField_same]
  rfl

theorem min_iterate_eq (c : Collaborators R K d) (bicg : BiConjugateGradient R) :
    minimumEigenvalues.iterate c bicg = arnoldiIterate c.sqrt (c.solve bicg) Event.solve := by
  funext j s
  simp only [minimumEigenvalues.iterate, arnoldiIterate, setField_same]
  rfl

theorem max_start_eq (c : Collaborators R K d) (mode : EigevaluesMode) (v0 : Fin d → K) :
    maximumEigenvalues.start c mode v0 =
      arnoldiStart (maximumEigenvalues.apply c mode) Event.multiplyAdd [] v0 := by
  simp only [maximumEigenvalues.start, arnoldiStart, setField_same]
  rfl

theorem min_start_eq (c : Collaborators R K d) (bicg : BiConjugateGradient R)
    (log0 : List Event) (v0 : Fin d → K) :
    minimumEigenvalues.start c bicg log0 v0 = arnoldiStart (c.solve bicg) Event.solve log0 v0 := by
  simp only [minimumEigenvalues.start, arnoldiStart, setField_same]

theorem max_krylovAt_eq (c : Collaborators R K d) (mode : EigevaluesMode) (v0 : Fin d → K)
    (k : Nat) :
    maximumEigenvalues.krylovAt c mode v0 k =
      arnoldiAt c.sqrt (maximumEigenvalues.apply c mode) Event.multiplyAdd [] v0 k := by
  simp only [maximumEigenvalues.krylovAt, arnoldiAt, max_iterate_eq, max_start_eq]

theorem min_krylovAt_eq (c : Collaborators R K d) (bicg : BiConjugateGradient R)
    (log0 : List Event) (v0 : Fin d → K) (k : Nat) :
    minimumEigenvalues.krylovAt c bicg log0 v0 k =
      arnoldiAt c.sqrt (c.solve bicg) Event.solve log0 v0 k := by
  simp only [minimumEigenvalues.krylovAt, arnoldiAt, min_iterate_eq, min_start_eq]

end Bridge

/-! ## Invariants of the Arnoldi process -/

section ArnoldiInvariants

variable {K : Type} [Field K] [StarRing K] {d : Nat}

theorem gramSchmidt_loop_V (j m : Nat) (s : Arnoldi K d) :
    (forLoop m (arnoldiGramSchmidt j) s).V = s.V := by
  induction m with
  | zero => rfl
  | succ m ih => rw [forLoop_succ]; exact ih

theorem gramSchmidt_loop_w (j m : Nat) (s : Arnoldi K d) :
    (forLoop m (arnoldiGramSchmidt j) s).w = s.w := by
  induction m with
  | zero => rfl
  | succ m ih => rw [forLoop_succ]; exact ih

theorem moreStable_loop_V (j m : Nat) (s : Arnoldi K d) :
    (forLoop m (arnoldiMoreStable j) s).V = s.V := by
  induction m with
  | zero => rfl
  | succ m ih => rw [forLoop_succ]; exact ih

theorem moreStable_loop_w (j m : Nat) (s : Arnoldi K d) :
    (forLoop m (arnoldiMoreStable j) s).w = s.w := by
  induction m with
  | zero => rfl
  | succ m ih => rw [forLoop_succ]; exact ih

/-- The basis after one turn of the outer loop: only `V[j+1]` is written. -/
theorem arnoldiIterate_V (sqrt : K → K) (op : (Fin d → K) → (Fin d → K)) (ev : Event)
    (j : Nat) (s : Arnoldi K d) :
    (arnoldiIterate sqrt op ev j s).V =
      setField s.V (j + 1) (fun site => s.f site / sqrt (squaredNorm s.f)) := by
  unfold arnoldiIterate
  rw [moreStable_loop_V, gramSchmidt_loop_V]

/-! ### Hessenberg structure -/

theorem setEntry_zero_outside (H : Nat → Nat → K) (k i j : Nat) (x : K) (hi : i ≤ j + 1)
    (hj : j ≤ k) (hH : ∀ a b, (b + 1 < a ∨ k < b) → H a b = 0) :
    ∀ a b, (b + 1 < a ∨ k < b) → setEntry H i j x a b = 0 := by
  intro a b hab
  unfold setEntry
  have hne : ¬ (a = i ∧ b = j) := by
    rintro ⟨rfl, rfl⟩
    omega
  rw [if_neg hne]
  exact hH a b hab

theorem gramSchmidt_loop_hessenberg (j m : Nat) (hm : m ≤ j + 2) (s : Arnoldi K d)
    (hH : ∀ a b, (b + 1 < a ∨ j + 1 < b) → s.H a b = 0) :
    ∀ a b, (b + 1 < a ∨ j + 1 < b) → (forLoop m (arnoldiGramSchmidt j) s).H a b = 0 := by
  induction m with
  | zero => exact hH
  | succ m ih =>
    rw [forLoop_succ]
    exact setEntry_zero_outside _ (j + 1) m (j + 1) _ (by omega) (le_refl _) (ih (by omega))

theorem moreStable_loop_hessenberg (j m : Nat) (hm : m ≤ j + 2) (s : Arnoldi K d)
    (hH : ∀ a b, (b + 1 < a ∨ j + 1 < b) → s.H a b = 0) :
    ∀ a b, (b + 1 < a ∨ j + 1 < b) → (forLoop m (arnoldiMoreStable j) s).H a b = 0 := by
  induction m with
  | zero => exact hH
  | succ m ih =>
    rw [forLoop_succ]
    exact setEntry_zero_outside _ (j + 1) m (j + 1) _ (by omega) (le_refl _) (ih (by omega))

theorem arnoldiIterate_hessenberg (sqrt : K → K) (op : (Fin d → K) → (Fin d → K))
    (ev : Event) (j : Nat) (s : Arnoldi K d)
    (hH : ∀ a b, (b + 1 < a ∨ j < b) → s.H a b = 0) :
    ∀ a b, (b + 1 < a ∨ j + 1 < b) → (arnoldiIterate sqrt op ev j s).H a b = 0 := by
  unfold arnoldiIterate
  apply moreStable_loop_hessenberg j (j + 2) (le_refl _)
  apply gramSchmidt_loop_hessenberg j (j + 2) (le_refl _)
  apply setEntry_zero_outside _ (j + 1) (j + 1) j _ (le_refl _) (by omega)
  intro a b hab
  exact hH a b (by omega)

/-- After `k` turns of the outer loop, `H` vanishes below the first subdiagonal and in every
column beyond `k`. -/
theorem arnoldiAt_hessenberg (sqrt : K → K) (op : (Fin d → K) → (Fin d → K)) (ev : Event)
    (log0 : List Event) (v0 : Fin d → K) (k : Nat) :
    ∀ a b, (b + 1 < a ∨ k < b) → (arnoldiAt sqrt op ev log0 v0 k).H a b = 0 := by
  induction k with
  | zero =>
    apply setEntry_zero_outside _ 0 0 0 _ (by omega) (le_refl _)
    intro a b _
    rfl
  | succ k ih =>
    exact arnoldiIterate_hessenberg sqrt op ev k _ ih

end ArnoldiInvariants


/-! ## Orthonormality of the Arnoldi basis -/

section Orthonormality

variable {K : Type} [Field K] [StarRing K] {d : Nat}

theorem dot_sub_mul (a f v : Fin d → K) (p : K) :
    dot a (fun site => f site - p * v site) = dot a f - p * dot a v := by
  unfold dot
  rw [Finset.mul_sum, ← Finset.sum_sub_distrib]
  apply Finset.sum_congr rfl
  intro site _
  ring

theorem dot_div_right (a f : Fin d → K) (b : K) :
    dot a (fun site => f site / b) = dot a f / b := by
  unfold dot
  rw [Finset.sum_div]
  apply Finset.sum_congr rfl
  intro site _
  ring

theorem dot_div_left (a f : Fin d → K) (b : K) :
    dot (fun site => f site / b) a = dot f a / star b := by
  unfold dot
  rw [Finset.sum_div]
  apply Finset.sum_congr rfl
  intro site _
  rw [star_div₀]
  ring

theorem star_dot (a b : Fin d → K) : star (dot a b) = dot b a := by
  unfold dot
  rw [star_sum]
  apply Finset.sum_congr rfl
  intro site _
  rw [star_mul, star_star, mul_comm]

theorem dot_eq_zero_symm (a b : Fin d → K) (h : dot a b = 0) : dot b a = 0 := by
  rw [← star_dot, h, star_zero]

theorem squaredNorm_eq_dot (a : Fin d → K) : squaredNorm a = dot a a := rfl

/-- The first Gram-Schmidt loop against an orthonormal family: after `m` turns the running
`f` is orthogonal to `V[0..m-1]` and still has the projections of `w` on the others. -/
theorem gramSchmidt_loop_dot (j m : Nat) (hm : m ≤ j + 2) (s : Arnoldi K d)
    (hV : ∀ a b, a ≤ j + 1 → b ≤ j + 1 → dot (s.V a) (s.V b) = if a = b then 1 else 0)
    (hf : ∀ a, a ≤ j + 1 → dot (s.V a) s.f = dot (s.V a) s.w) :
    ∀ a, a ≤ j + 1 → dot (s.V a) (forLoop m (arnoldiGramSchmidt j) s).f =
      if a < m then 0 else dot (s.V a) s.w := by
  induction m with
  | zero =>
    intro a ha
    simpa using hf a ha
  | succ m ih =>
    intro a ha
    rw [forLoop_succ]
    show dot (s.V a) (fun site => (forLoop m (arnoldiGramSchmidt j) s).f site -
      dot ((forLoop m (arnoldiGramSchmidt j) s).V m) (forLoop m (arnoldiGramSchmidt j) s).w *
        (forLoop m (arnoldiGramSchmidt j) s).V m site) = _
    rw [gramSchmidt_loop_V, gramSchmidt_loop_w, dot_sub_mul, ih (by omega) a ha,
      hV a m ha (by omega)]
    by_cases h1 : a = m
    · subst h1
      simp
    · by_cases h2 : a < m
      · have h3 : a < m + 1 := by omega
        simp [h1, h2, h3]
      · have h3 : ¬ a < m + 1 := by omega
        simp [h1, h2, h3]

/-- The second Gram-Schmidt loop keeps a residual that is already orthogonal to the
family. -/
theorem moreStable_loop_dot (j m : Nat) (hm : m ≤ j + 2) (s : Arnoldi K d)
    (hf : ∀ a, a ≤ j + 1 → dot (s.V a) s.f = 0) :
    ∀ a, a ≤ j + 1 → dot (s.V a) (forLoop m (arnoldiMoreStable j) s).f = 0 := by
  induction m with
  | zero => exact hf
  | succ m ih =>
    intro a ha
    rw [forLoop_succ]
    show dot (s.V a) (fun site => (forLoop m (arnoldiMoreStable j) s).f site -
      dot ((forLoop m (arnoldiMoreStable j) s).V m) (forLoop m (arnoldiMoreStable j) s).f *
        (forLoop m (arnoldiMoreStable j) s).V m site) = _
    rw [moreStable_loop_V, dot_sub_mul, ih (by omega) a ha, ih (by omega) m (by omega)]
    simp

/-- One turn of the outer loop keeps the basis orthonormal and the residual orthogonal to
it, when the residual norm is non-zero and the square root is exact on it. -/
theorem arnoldiIterate_orthonormal (sqrt : K → K) (op : (Fin d → K) → (Fin d → K))
    (ev : Event) (j : Nat) (s : Arnoldi K d)
    (hb : sqrt (squaredNorm s.f) ≠ 0)
    (hsq : sqrt (squaredNorm s.f) * sqrt (squaredNorm s.f) = squaredNorm s.f)
    (hre : star (sqrt (squaredNorm s.f)) = sqrt (squaredNorm s.f))
    (hV : ∀ a b, a ≤ j → b ≤ j → dot (s.V a) (s.V b) = if a = b then 1 else 0)
    (hf : ∀ a, a ≤ j → dot (s.V a) s.f = 0) :
    (∀ a b, a ≤ j + 1 → b ≤ j + 1 →
      dot ((arnoldiIterate sqrt op ev j s).V a) ((arnoldiIterate sqrt op ev j s).V b) =
        if a = b then 1 else 0) ∧
    (∀ a, a ≤ j + 1 →
      dot ((arnoldiIterate sqrt op ev j s).V a) (arnoldiIterate sqrt op ev j s).f = 0) := by
  have hV1 : ∀ a b, a ≤ j + 1 → b ≤ j + 1 →
      dot (setField s.V (j + 1) (fun site => s.f site / sqrt (squaredNorm s.f)) a)
        (setField s.V (j + 1) (fun site => s.f site / sqrt (squaredNorm s.f)) b) =
        if a = b then 1 else 0 := by
    intro a b ha hb1
    by_cases ha1 : a = j + 1
    · by_cases hb2 : b = j + 1
      · subst ha1; subst hb2
        rw [setField_same, dot_div_left, dot_div_right, hre, ← squaredNorm_eq_dot]
        rw [if_pos rfl]
        field_simp
        rw [hsq]
      · subst ha1
        rw [setField_same, setField_other _ _ _ _ hb2, dot_div_left,
          dot_eq_zero_symm _ _ (hf b (by omega)), if_neg (Ne.symm hb2)]
        simp
    · by_cases hb2 : b = j + 1
      · subst hb2
        rw [setField_same, setField_other _ _ _ _ ha1, dot_div_right, hf a (by omega),
          if_neg ha1]
        simp
      · rw [setField_other _ _ _ _ ha1, setField_other _ _ _ _ hb2]
        exact hV a b (by omega) (by omega)
  constructor
  · rw [arnoldiIterate_V]
    exact hV1
  · intro a ha
    have hgs : ∀ a', a' ≤ j + 1 →
        dot ((forLoop (j + 2) (arnoldiGramSchmidt j)
          { V := setField s.V (j + 1) (fun site => s.f site / sqrt (squaredNorm s.f))
            H := setEntry s.H (j + 1) j (sqrt (squaredNorm s.f))
            w := op (fun site => s.f site / sqrt (squaredNorm s.f))
            f := op (fun site => s.f site / sqrt (squaredNorm s.f))
            log := s.log ++ [Event.squaredNorm, ev] }).V a')
          (forLoop (j + 2) (arnoldiGramSchmidt j)
          { V := setField s.V (j + 1) (fun site => s.f site / sqrt (squaredNorm s.f))
            H := setEntry s.H (j + 1) j (sqrt (squaredNorm s.f))
            w := op (fun site => s.f site / sqrt (squaredNorm s.f))
            f := op (fun site => s.f site / sqrt (squaredNorm s.f))
            log := s.log ++ [Event.squaredNorm, ev] }).f = 0 := by
      intro a' ha'
      rw [gramSchmidt_loop_V]
      have h := gramSchmidt_loop_dot j (j + 2) (le_refl _)
        { V := setField s.V (j + 1) (fun site => s.f site / sqrt (squaredNorm s.f))
          H := setEntry s.H (j + 1) j (sqrt (squaredNorm s.f))
          w := op (fun site => s.f site / sqrt (squaredNorm s.f))
          f := op (fun site => s.f site / sqrt (squaredNorm s.f))
          log := s.log ++ [Event.squaredNorm, ev] } hV1 (fun _ _ => rfl) a' ha'
      rw [h, if_pos (by omega)]
    have h := moreStable_loop_dot j (j + 2) (le_refl _) _ hgs a ha
    rw [← moreStable_loop_V j (j + 2)] at h
    exact h

/-- After `k` turns of the outer loop the basis `V[0..k]` is orthonormal and the residual is
orthogonal to it, for a normalised start vector and non-zero residual norms. -/
theorem arnoldiAt_orthonormal (sqrt : K → K) (op : (Fin d → K) → (Fin d → K)) (ev : Event)
    (log0 : List Event) (v0 : Fin d → K) (hv0 : dot v0 v0 = 1) (k : Nat)
    (hbeta : ∀ j, j < k →
      sqrt (squaredNorm (arnoldiAt sqrt op ev log0 v0 j).f) ≠ 0 ∧
      sqrt (squaredNorm (arnoldiAt sqrt op ev log0 v0 j).f) *
        sqrt (squaredNorm (arnoldiAt sqrt op ev log0 v0 j).f) =
          squaredNorm (arnoldiAt sqrt op ev log0 v0 j).f ∧
      star (sqrt (squaredNorm (arnoldiAt sqrt op ev log0 v0 j).f)) =
        sqrt (squaredNorm (arnoldiAt sqrt op ev log0 v0 j).f)) :
    (∀ a b, a ≤ k → b ≤ k →
      dot ((arnoldiAt sqrt op ev log0 v0 k).V a) ((arnoldiAt sqrt op ev log0 v0 k).V b) =
        if a = b then 1 else 0) ∧
    (∀ a, a ≤ k →
      dot ((arnoldiAt sqrt op ev log0 v0 k).V a) (arnoldiAt sqrt op ev log0 v0 k).f = 0) := by
  induction k with
  | zero =>
    constructor
    · intro a b ha hb
      obtain rfl : a = 0 := by omega
      obtain rfl : b = 0 := by omega
      simpa [arnoldiAt, forLoop, arnoldiStart, setField] using hv0
    · intro a ha
      obtain rfl : a = 0 := by omega
      show dot (setField (fun _ _ => 0) 0 v0 0)
        (fun site => op v0 site - dot v0 (op v0) * v0 site) = 0
      rw [setField_same, dot_sub_mul, hv0]
      simp
  | succ k ih =>
    obtain ⟨hV, hf⟩ := ih (fun j hj => hbeta j (by omega))
    obtain ⟨h1, h2, h3⟩ := hbeta k (by omega)
    exact arnoldiIterate_orthonormal sqrt op ev k _ h1 h2 h3 hV hf

end Orthonormality

/-! ## Entries of the projected matrix -/

section ProjectedEntries

variable {K : Type} [Field K] [StarRing K] {d : Nat}

/-- Entries of `H` after `m` turns of the first Gram-Schmidt loop. -/
theorem gramSchmidt_loop_H (j m : Nat) (s : Arnoldi K d) (a b : Nat) :
    (forLoop m (arnoldiGramSchmidt j) s).H a b =
      if a < m ∧ b = j + 1 then dot (s.V a) s.w else s.H a b := by
  induction m with
  | zero => simp [forLoop]
  | succ m ih =>
    rw [forLoop_succ]
    show setEntry (forLoop m (arnoldiGramSchmidt j) s).H m (j + 1)
      (dot ((forLoop m (arnoldiGramSchmidt j) s).V m) (forLoop m (arnoldiGramSchmidt j) s).w)
      a b = _
    rw [gramSchmidt_loop_V, gramSchmidt_loop_w]
    unfold setEntry
    by_cases h1 : a = m ∧ b = j + 1
    · obtain ⟨rfl, rfl⟩ := h1
      simp
    · rw [if_neg h1, ih]
      by_cases h2 : a < m ∧ b = j + 1
      · have h3 : a < m + 1 ∧ b = j + 1 := ⟨by omega, h2.2⟩
        rw [if_pos h2, if_pos h3]
      · have h3 : ¬ (a < m + 1 ∧ b = j + 1) := by
          rintro ⟨h4, h5⟩
          rcases Nat.lt_succ_iff_lt_or_eq.mp h4 with h6 | h6
          · exact h2 ⟨h6, h5⟩
          · exact h1 ⟨h6, h5⟩
        rw [if_neg h2, if_neg h3]

/-- The second Gram-Schmidt loop changes neither `f` nor `H` when `f` is already orthogonal
to the family. -/
theorem moreStable_loop_fixed (j m : Nat) (hm : m ≤ j + 2) (s : Arnoldi K d)
    (hf : ∀ a, a ≤ j + 1 → dot (s.V a) s.f = 0) :
    (forLoop m (arnoldiMoreStable j) s).f = s.f ∧
    (forLoop m (arnoldiMoreStable j) s).H = s.H := by
  induction m with
  | zero => exact ⟨rfl, rfl⟩
  | succ m ih =>
    obtain ⟨h1, h2⟩ := ih (by omega)
    rw [forLoop_succ]
    have hz : dot ((forLoop m (arnoldiMoreStable j) s).V m)
        (forLoop m (arnoldiMoreStable j) s).f = 0 := by
      rw [moreStable_loop_V, h1]
      exact hf m (by omega)
    constructor
    · show (fun site => (forLoop m (arnoldiMoreStable j) s).f site -
        dot ((forLoop m (arnoldiMoreStable j) s).V m) (forLoop m (arnoldiMoreStable j) s).f *
          (forLoop m (arnoldiMoreStable j) s).V m site) = _
      rw [hz, h1]
      funext site
      simp
    · show setEntry (forLoop m (arnoldiMoreStable j) s).H m (j + 1)
        ((forLoop m (arnoldiMoreStable j) s).H m (j + 1) +
          dot ((forLoop m (arnoldiMoreStable j) s).V m)
            (forLoop m (arnoldiMoreStable j) s).f) = _
      rw [hz, h2]
      funext a b
      unfold setEntry
      by_cases h3 : a = m ∧ b = j + 1
      · obtain ⟨rfl, rfl⟩ := h3
        simp
      · rw [if_neg h3]

/-- Entries of `H` after one turn of the outer loop, for an orthonormal basis: column `j+1`
holds the projections of the new `w`, entry `(j+1, j)` holds `beta`. -/
theorem arnoldiIterate_H (sqrt : K → K) (op : (Fin d → K) → (Fin d → K))
    (ev : Event) (j : Nat) (s : Arnoldi K d)
    (hb : sqrt (squaredNorm s.f) ≠ 0)
    (hsq : sqrt (squaredNorm s.f) * sqrt (squaredNorm s.f) = squaredNorm s.f)
    (hre : star (sqrt (squaredNorm s.f)) = sqrt (squaredNorm s.f))
    (hV : ∀ a b, a ≤ j → b ≤ j → dot (s.V a) (s.V b) = if a = b then 1 else 0)
    (hf : ∀ a, a ≤ j → dot (s.V a) s.f = 0) (a b : Nat) :
    (arnoldiIterate sqrt op ev j s).H a b =
      if a < j + 2 ∧ b = j + 1 then
        dot (setField s.V (j + 1) (fun site => s.f site / sqrt (squaredNorm s.f)) a)
          (op (fun site => s.f site / sqrt (squaredNorm s.f)))
      else setEntry s.H (j + 1) j (sqrt (squaredNorm s.f)) a b := by
  have hV1 := (arnoldiIterate_orthonormal sqrt op ev j s hb hsq hre hV hf).1
  rw [arnoldiIterate_V] at hV1
  have hgs : ∀ a', a' ≤ j + 1 →
      dot ((forLoop (j + 2) (arnoldiGramSchmidt j)
        { V := setField s.V (j + 1) (fun site => s.f site / sqrt (squaredNorm s.f))
          H := setEntry s.H (j + 1) j (sqrt (squaredNorm s.f))
          w := op (fun site => s.f site / sqrt (squaredNorm s.f))
          f := op (fun site => s.f site / sqrt (squaredNorm s.f))
          log := s.log ++ [Event.squaredNorm, ev] }).V a')
        (forLoop (j + 2) (arnoldiGramSchmidt j)
        { V := setField s.V (j + 1) (fun site => s.f site / sqrt (squaredNorm s.f))
          H := setEntry s.H (j + 1) j (sqrt (squaredNorm s.f))
          w := op (fun site => s.f site / sqrt (squaredNorm s.f))
          f := op (fun site => s.f site / sqrt (squaredNorm s.f))
          log := s.log ++ [Event.squaredNorm, ev] }).f = 0 := by
    intro a' ha'
    rw [gramSchmidt_loop_V]
    have h := gramSchmidt_loop_dot j (j + 2) (le_refl _)
      { V := setField s.V (j + 1) (fun site => s.f site / sqrt (squaredNorm s.f))
        H := setEntry s.H (j + 1) j (sqrt (squaredNorm s.f))
        w := op (fun site => s.f site / sqrt (squaredNorm s.f))
        f := op (fun site => s.f site / sqrt (squaredNorm s.f))
        log := s.log ++ [Event.squaredNorm, ev] } hV1 (fun _ _ => rfl) a' ha'
    rw [h, if_pos (by omega)]
  have h := (moreStable_loop_fixed j (j + 2) (le_refl _) _ hgs).2
  unfold arnoldiIterate
  rw [h, gramSchmidt_loop_H]

end ProjectedEntries

/-! ## Unfolding the abstract Arnoldi process -/

section ArnoldiUnfold
variable {K : Type} [Field K] [StarRing K] {d : Nat}

theorem arnoldiAt_zero (sqrt : K → K) (op : (Fin d → K) → (Fin d → K)) (ev : Event)
    (log0 : List Event) (v0 : Fin d → K) :
    arnoldiAt sqrt op ev log0 v0 0 = arnoldiStart op ev log0 v0 := rfl

theorem arnoldiAt_succ (sqrt : K → K) (op : (Fin d → K) → (Fin d → K)) (ev : Event)
    (log0 : List Event) (v0 : Fin d → K) (k : Nat) :
    arnoldiAt sqrt op ev log0 v0 (k + 1) =
      arnoldiIterate sqrt op ev k (arnoldiAt sqrt op ev log0 v0 k) := rfl

theorem arnoldiStart_V (op : (Fin d → K) → (Fin d → K)) (ev : Event)
    (log0 : List Event) (v0 : Fin d → K) :
    (arnoldiStart op ev log0 v0).V = setField (fun _ _ => 0) 0 v0 := rfl

theorem arnoldiStart_H (op : (Fin d → K) → (Fin d → K)) (ev : Event)
    (log0 : List Event) (v0 : Fin d → K) :
    (arnoldiStart op ev log0 v0).H = setEntry (fun _ _ => 0) 0 0 (dot v0 (op v0)) := rfl

theorem arnoldiStart_f (op : (Fin d → K) → (Fin d → K)) (ev : Event)
    (log0 : List Event) (v0 : Fin d → K) :
    (arnoldiStart op ev log0 v0).f = fun site => op v0 site - dot v0 (op v0) * v0 site := rfl

end ArnoldiUnfold


/-! ## The log of collaborator calls -/

section Trace

variable {K : Type} [Field K] [StarRing K] {d : Nat}

theorem gramSchmidt_loop_log (j m : Nat) (s : Arnoldi K d) :
    (forLoop m (arnoldiGramSchmidt j) s).log = s.log ++ List.replicate m Event.dot := by
  induction m with
  | zero => simp [forLoop]
  | succ m ih =>
    rw [forLoop_succ]
    show (forLoop m (arnoldiGramSchmidt j) s).log ++ [Event.dot] = _
    rw [ih, List.replicate_succ', List.append_assoc]

theorem moreStable_loop_log (j m : Nat) (s : Arnoldi K d) :
    (forLoop m (arnoldiMoreStable j) s).log = s.log ++ List.replicate m Event.dot := by
  induction m with
  | zero => simp [forLoop]
  | succ m ih =>
    rw [forLoop_succ]
    show (forLoop m (arnoldiMoreStable j) s).log ++ [Event.dot] = _
    rw [ih, List.replicate_succ', List.append_assoc]

/-- The log of the Arnoldi process depends only on the number of turns. -/
theorem arnoldiAt_log (sqrt : K → K) (op : (Fin d → K) → (Fin d → K)) (ev : Event)
    (log0 : List Event) (v0 : Fin d → K) (k : Nat) :
    (arnoldiAt sqrt op ev log0 v0 k).log = log0 ++ arnoldiTrace ev k := by
  induction k with
  | zero => rfl
  | succ k ih =>
    rw [arnoldiAt_succ]
    unfold arnoldiIterate
    rw [moreStable_loop_log, gramSchmidt_loop_log]
    show ((arnoldiAt sqrt op ev log0 v0 k).log ++ [Event.squaredNorm, ev] ++ _) ++ _ = _
    rw [ih]
    simp [arnoldiTrace, List.append_assoc]

theorem count_multiplyAdd_arnoldiTrace (k : Nat) :
    (arnoldiTrace Event.multiplyAdd k).count Event.multiplyAdd = k + 1 := by
  induction k with
  | zero => simp [arnoldiTrace]
  | succ k ih =>
    simp [arnoldiTrace, List.count_append, List.count_replicate, ih]

theorem count_solve_arnoldiTrace (k : Nat) :
    (arnoldiTrace Event.solve k).count Event.solve = k + 1 := by
  induction k with
  | zero => simp [arnoldiTrace]
  | succ k ih =>
    simp [arnoldiTrace, List.count_append, List.count_replicate, ih]

end Trace

/-! ## Evaluation of the concrete examples -/

section DemoEvaluation

theorem rat_sqrt_one : Rat.sqrt 1 = 1 := by
  have h := Rat.sqrt_eq 1
  rw [mul_one, abs_one] at h
  exact h

theorem demo_squaredNorm_e0 : squaredNorm (Demo.e0 : Fin 2 → GaussRat) = 1 := by
  simp [squaredNorm, Demo.e0, Fin.sum_univ_two, GaussRat.ext_iff]

theorem demo_max_start_f :
    (maximumEigenvalues.krylovAt (Demo.collaborators Demo.swap2 Demo.swap2)
      EigevaluesMode.LargestReal Demo.e0 0).f = fun site => if site = 1 then 1 else 0 := by
  funext site
  fin_cases site <;>
  simp [maximumEigenvalues.krylovAt, forLoop, maximumEigenvalues.start,
    maximumEigenvalues.apply, rotateVector, multiplyAdd, Demo.collaborators, Demo.swap2,
    Demo.e0, dot, setField, setEntry, Fin.sum_univ_two, GaussRat.ext_iff]

theorem demo_min_start_f (bicg : BiConjugateGradient ℚ) (log0 : List Event) :
    (minimumEigenvalues.krylovAt (Demo.collaborators Demo.swap2 Demo.swap2) bicg log0
      Demo.e0 0).f = fun site => if site = 1 then 1 else 0 := by
  funext site
  fin_cases site <;>
  simp [minimumEigenvalues.krylovAt, forLoop, minimumEigenvalues.start,
    Demo.collaborators, Demo.swap2,
    Demo.e0, dot, setField, setEntry, Fin.sum_univ_two, GaussRat.ext_iff]

theorem demo_beta_one :
    GaussRat.sqrt (squaredNorm (fun site : Fin 2 => if site = 1 then (1 : GaussRat) else 0)) = 1 := by
  simp [squaredNorm, Fin.sum_univ_two, GaussRat.ext_iff, rat_sqrt_one]

end DemoEvaluation

section DemoMin

theorem demo_squaredNorm_v345 : squaredNorm Demo.v345 = 1 := by
  simp [squaredNorm, Demo.v345, Fin.sum_univ_two, GaussRat.ext_iff]
  norm_num

theorem demo_diag_start_f (log0 : List Event) :
    (arnoldiAt GaussRat.sqrt (Demo.diagonal 1 (1 / 2)) Event.solve log0 Demo.v345 0).f =
      fun site => if site = 0 then ⟨24 / 125, 0⟩ else ⟨-18 / 125, 0⟩ := by
  funext site
  fin_cases site <;>
  simp [arnoldiAt, forLoop, arnoldiStart, Demo.diagonal, Demo.v345, dot, Fin.sum_univ_two,
    GaussRat.ext_iff] <;> norm_num

theorem demo_diag_beta :
    GaussRat.sqrt (squaredNorm (fun site : Fin 2 =>
      if site = 0 then (⟨24 / 125, 0⟩ : GaussRat) else ⟨-18 / 125, 0⟩)) = ⟨6 / 25, 0⟩ := by
  have h : Rat.sqrt (36 / 625) = 6 / 25 := by
    have h1 := GaussRat.rat_sqrt_sq (6 / 25) (by norm_num)
    norm_num at h1
    exact h1
  simp [squaredNorm, Fin.sum_univ_two, GaussRat.ext_iff]
  norm_num
  exact h
end DemoMin

section DemoMinH

theorem demo_diag_v1 :
    (fun site : Fin 2 => (if site = 0 then (⟨24 / 125, 0⟩ : GaussRat) else ⟨-18 / 125, 0⟩) /
      (⟨6 / 25, 0⟩ : GaussRat)) = fun site => if site = 0 then ⟨4 / 5, 0⟩ else ⟨-3 / 5, 0⟩ := by
  funext site
  fin_cases site <;> simp [GaussRat.ext_iff, div_eq_mul_inv] <;> norm_num

theorem demo_diag_w1 :
    Demo.diagonal 1 (1 / 2) (fun site => if site = 0 then ⟨4 / 5, 0⟩ else ⟨-3 / 5, 0⟩) =
      fun site => if site = 0 then ⟨4 / 5, 0⟩ else ⟨-3 / 10, 0⟩ := by
  funext site
  fin_cases site <;> simp [Demo.diagonal, GaussRat.ext_iff] <;> norm_num

theorem demo_diag_alpha :
    dot Demo.v345 (Demo.diagonal 1 (1 / 2) Demo.v345) = ⟨17 / 25, 0⟩ := by
  simp [Demo.diagonal, Demo.v345, dot, Fin.sum_univ_two, GaussRat.ext_iff]
  norm_num

theorem demo_diag_H (log0 : List Event) (a b : Nat) :
    (arnoldiAt GaussRat.sqrt (Demo.diagonal 1 (1 / 2)) Event.solve log0 Demo.v345 1).H a b =
      if a < 2 ∧ b = 1 then
        dot (setField (setField (fun _ _ => 0) 0 Demo.v345) 1
            (fun site => if site = 0 then ⟨4 / 5, 0⟩ else ⟨-3 / 5, 0⟩) a)
          (fun site => if site = 0 then ⟨4 / 5, 0⟩ else ⟨-3 / 10, 0⟩)
      else setEntry (setEntry (fun _ _ => 0) 0 0 ⟨17 / 25, 0⟩) 1 0 ⟨6 / 25, 0⟩ a b := by
  have horth := arnoldiAt_orthonormal GaussRat.sqrt (Demo.diagonal 1 (1 / 2)) Event.solve log0
    Demo.v345 demo_squaredNorm_v345 0 (fun j hj => absurd hj (Nat.not_lt_zero j))
  have hb : GaussRat.sqrt (squaredNorm
      (arnoldiAt GaussRat.sqrt (Demo.diagonal 1 (1 / 2)) Event.solve log0 Demo.v345 0).f) =
      ⟨6 / 25, 0⟩ := by
    rw [demo_diag_start_f, demo_diag_beta]
  have hsn : squaredNorm
      (arnoldiAt GaussRat.sqrt (Demo.diagonal 1 (1 / 2)) Event.solve log0 Demo.v345 0).f =
      ⟨36 / 625, 0⟩ := by
    rw [demo_diag_start_f]
    simp [squaredNorm, Fin.sum_univ_two, GaussRat.ext_iff]
    norm_num
  have hH := arnoldiIterate_H GaussRat.sqrt (Demo.diagonal 1 (1 / 2)) Event.solve 0
    (arnoldiAt GaussRat.sqrt (Demo.diagonal 1 (1 / 2)) Event.solve log0 Demo.v345 0)
    (by rw [hb]; simp [GaussRat.ext_iff])
    (by rw [hb, hsn]; simp [GaussRat.ext_iff]; norm_num)
    (by rw [hb]; simp [GaussRat.ext_iff])
    horth.1 horth.2 a b
  rw [arnoldiAt_succ, hH, hb, demo_diag_start_f, demo_diag_v1, demo_diag_w1, arnoldiAt_zero,
    arnoldiStart_V, arnoldiStart_H, demo_diag_alpha]

theorem demo_descending_dense (steps : Nat) (H : Nat → Nat → GaussRat) :
    Demo.descendingCollaborators.ComplexEigenSolver steps H =
      { eigenvalues := fun i => [1, (⟨1 / 2, 0⟩ : GaussRat)].getD i 0
        eigenvectors := fun j i => ([[3, 4], [4, -3]].getD i []).getD j 0 } := rfl

theorem demo_diag_H_entries (log0 : List Event) :
    (arnoldiAt GaussRat.sqrt (Demo.diagonal 1 (1 / 2)) Event.solve log0 Demo.v345 1).H 0 0 =
      ⟨17 / 25, 0⟩ ∧
    (arnoldiAt GaussRat.sqrt (Demo.diagonal 1 (1 / 2)) Event.solve log0 Demo.v345 1).H 0 1 =
      ⟨6 / 25, 0⟩ ∧
    (arnoldiAt GaussRat.sqrt (Demo.diagonal 1 (1 / 2)) Event.solve log0 Demo.v345 1).H 1 0 =
      ⟨6 / 25, 0⟩ ∧
    (arnoldiAt GaussRat.sqrt (Demo.diagonal 1 (1 / 2)) Event.solve log0 Demo.v345 1).H 1 1 =
      ⟨41 / 50, 0⟩ := by
  refine ⟨?_, ?_, ?_, ?_⟩
  · rw [demo_diag_H]
    simp [setEntry]
  · rw [demo_diag_H]
    simp [setField, dot, Demo.v345, Fin.sum_univ_two, GaussRat.ext_iff]
    norm_num
  · rw [demo_diag_H]
    simp [setEntry]
  · rw [demo_diag_H]
    simp [setField, dot, Fin.sum_univ_two, GaussRat.ext_iff]
    norm_num

end DemoMinH

/-! ## The mode map on eigenvalues -/

section ModeMapGeneral

variable {R K : Type} [Field K] [StarRing K] {d : Nat}

/-- For a linear operator `A` and `I * I = -1`: when `ritz` is an eigenvalue of the iterated
operator `v ↦ A(m v) + 5 v` for the vector `x`, the operator `A` has for `x` the eigenvalue
`m * (ritz - 5)` in the two real modes and `-(m * (ritz - 5))` in the two imaginary
modes. -/
theorem stored_eigenvalue_by_mode (c : Collaborators R K d) (backend : Backend)
    (mode : EigevaluesMode) (ritz : K) (x : Fin d → K) (hI : c.I * c.I = -1)
    (hlin : ∀ (a : K) (v : Fin d → K),
      c.multiply (fun site => a * v site) = fun site => a * c.multiply v site)
    (hB : maximumEigenvalues.apply c mode x = fun site => ritz * x site) :
    c.multiply x = fun site =>
      (if mode = EigevaluesMode.LargestReal ∨ mode = EigevaluesMode.SmallestReal then
        maximumEigenvalues.stored c backend mode ritz
      else -maximumEigenvalues.stored c backend mode ritz) * x site := by
  have hst : maximumEigenvalues.stored c backend mode ritz =
      EigevaluesMap c.I mode * (ritz - 5) := by
    cases backend <;> rfl
  have hrot : ∀ m : EigevaluesMode, m ≠ EigevaluesMode.LargestReal →
      maximumEigenvalues.apply c m x =
        fun site => EigevaluesMap c.I m * c.multiply x site + 5 * x site := by
    intro m hm
    unfold maximumEigenvalues.apply rotateVector multiplyAdd
    rw [if_pos hm]
    show (fun site => c.multiply (fun site => EigevaluesMap c.I m * x site) site + 5 * x site) = _
    rw [hlin]
  funext site
  rw [hst]
  cases mode
  · have h := congrFun hB site
    simp only [maximumEigenvalues.apply, rotateVector, multiplyAdd, EigevaluesMap] at h ⊢
    simp only [ne_eq, not_true_eq_false, if_false, true_or, if_true] at h ⊢
    linear_combination h
  · rw [hrot _ (by decide)] at hB
    have h := congrFun hB site
    simp only [EigevaluesMap, or_true, if_true] at h ⊢
    linear_combination -h
  · rw [hrot _ (by decide)] at hB
    have h := congrFun hB site
    have hne : ¬ (EigevaluesMode.LargestImaginary = EigevaluesMode.LargestReal ∨
        EigevaluesMode.LargestImaginary = EigevaluesMode.SmallestReal) := by decide
    simp only [EigevaluesMap, hne, if_false] at h ⊢
    linear_combination (-c.I) * h + (c.multiply x site) * hI
  · rw [hrot _ (by decide)] at hB
    have h := congrFun hB site
    have hne : ¬ (EigevaluesMode.SmallestImaginary = EigevaluesMode.LargestReal ∨
        EigevaluesMode.SmallestImaginary = EigevaluesMode.SmallestReal) := by decide
    simp only [EigevaluesMap, hne, if_false] at h ⊢
    linear_combination (c.I) * h + (c.multiply x site) * hI

end ModeMapGeneral

/-! ## Truncation, reversal and pairing of the returned sequences -/

section Truncation

variable {R K : Type} [Field K] [StarRing K] {d : Nat}

theorem length_take_reverse_map {α : Type} (g : Nat → α) (steps m : Nat) (hm : m ≤ steps) :
    ((((List.range steps).map g).reverse).take m).length = m := by
  simp
  exact hm

/-- C1: for every `n ≥ 1` and every `extraSteps` with `steps = n + extraSteps ≥ 2` not
overflowing `unsigned int`, both `maximumEigenvalues` and `minimumEigenvalues` return and
leave the output eigenvalue sequence and the output eigenvector sequence with exactly `n`
elements each, whatever the two sequences held on entry. -/
theorem truncation_invariant (self : DiracEigenSolver R) (c : Collaborators R K d)
    (backend : Backend) (eigenvalues : List K) (eigenvectors : List (Fin d → K)) (n : Nat)
    (mode : EigevaluesMode) (v0 : Fin d → K) (hn : 1 ≤ n)
    (hsteps : 2 ≤ n + self.extra_steps) (hov : n + self.extra_steps < UINT_RANGE) :
    (∃ r, maximumEigenvalues self c backend eigenvalues eigenvectors n mode v0 = some r ∧
        r.eigenvalues.length = n ∧ r.eigenvectors.length = n) ∧
    (∃ r, minimumEigenvalues self c backend eigenvalues eigenvectors n v0 = some r ∧
        r.eigenvalues.length = n ∧ r.eigenvectors.length = n) := by
  have hmod : (self.extra_steps + n) % UINT_RANGE = self.extra_steps + n :=
    Nat.mod_eq_of_lt (by omega)
  have hsub : self.extra_steps + n - self.extra_steps = n := by omega
  constructor
  · refine ⟨_, maximumEigenvalues_closed self c backend eigenvalues eigenvectors n mode v0
      (self.extra_steps + n) hmod (by omega) (by omega), ?_, ?_⟩
    · rw [length_take_reverse_map _ _ _ (by omega), hsub]
    · rw [length_take_reverse_map _ _ _ (by omega), hsub]
  · refine ⟨_, minimumEigenvalues_closed self c backend eigenvalues eigenvectors n v0
      (self.extra_steps + n) hmod (by omega) (by omega), ?_, ?_⟩
    · rw [length_take_reverse_map _ _ _ (by omega), hsub]
    · rw [length_take_reverse_map _ _ _ (by omega), hsub]

/-- C1 at a concrete call: `n = 2`, `extra_steps = 3`, the swap operator on two components,
output sequences that hold seven and zero elements on entry. -/
theorem truncation_invariant_witness :
    (1 ≤ 2 ∧ 2 ≤ 2 + (Demo.solver 3).extra_steps ∧
      2 + (Demo.solver 3).extra_steps < UINT_RANGE) ∧
    ((∃ r, maximumEigenvalues (Demo.solver 3) (Demo.collaborators Demo.swap2 Demo.swap2)
          Backend.EIGEN [1, 2, 3, 4, 5, 6, 7] [] 2 EigevaluesMode.SmallestReal Demo.e0 = some r ∧
        r.eigenvalues.length = 2 ∧ r.eigenvectors.length = 2) ∧
    (∃ r, minimumEigenvalues (Demo.solver 3) (Demo.collaborators Demo.swap2 Demo.swap2)
          Backend.EIGEN [1, 2, 3, 4, 5, 6, 7] [] 2 Demo.e0 = some r ∧
        r.eigenvalues.length = 2 ∧ r.eigenvectors.length = 2)) :=
  ⟨⟨by decide, by decide, by decide⟩,
    truncation_invariant (Demo.solver 3) (Demo.collaborators Demo.swap2 Demo.swap2)
      Backend.EIGEN [1, 2, 3, 4, 5, 6, 7] [] 2 EigevaluesMode.SmallestReal Demo.e0
      (by decide) (by decide) (by decide)⟩

end Truncation

/-! ## The mode map -/

section ModeMap

/-- C2 at the failing input: for the identity operator on one component and mode
`LargestImaginary`, `5 + i` is an eigenvalue of the iterated operator with eigenvector
`e0`, the value stored for it is `i * ((5 + i) - 5) = -1`, and `-1` is not an eigenvalue of
the identity for `e0`; the whole call returns the eigenvalue `-1` and reports the
convergence value `2`. -/
theorem rotation_not_undone_imaginary :
    maximumEigenvalues.apply (Demo.collaborators Demo.identity1 Demo.identity1)
        EigevaluesMode.LargestImaginary Demo.e0 =
      (fun site => (5 + GaussRat.I) * Demo.e0 site) ∧
    (Demo.e0 : Fin 1 → GaussRat) ≠ (fun _ => 0) ∧
    maximumEigenvalues.stored (Demo.collaborators Demo.identity1 Demo.identity1)
        Backend.EIGEN EigevaluesMode.LargestImaginary (5 + GaussRat.I) = -1 ∧
    Demo.identity1 Demo.e0 ≠ (fun site => (-1) * Demo.e0 site) ∧
    (maximumEigenvalues (Demo.solver 0) (Demo.collaborators Demo.identity1 Demo.identity1)
        Backend.EIGEN [] [] 1 EigevaluesMode.LargestImaginary Demo.e0).map
      (fun r => (r.eigenvalues, r.diffnorm)) = some ([-1], 2) := by
  refine ⟨?_, ?_, ?_, ?_, ?_⟩
  · funext site
    have hs : site = 0 := Subsingleton.elim _ _
    subst hs
    simp [maximumEigenvalues.apply, rotateVector, multiplyAdd, EigevaluesMap,
      Demo.collaborators, Demo.identity1, Demo.e0, GaussRat.ext_iff]
  · intro h
    have := congrFun h 0
    simp [Demo.e0, GaussRat.ext_iff] at this
  · simp [maximumEigenvalues.stored, EigevaluesMap, Demo.collaborators, GaussRat.ext_iff]
  · intro h
    have := congrFun h 0
    simp [Demo.e0, Demo.identity1, GaussRat.ext_iff] at this
    norm_num at this
  · rw [maximumEigenvalues_closed _ _ _ _ _ _ _ _ 1 (by decide) (by decide) (by decide)]
    simp [maximumEigenvalues.stored, EigevaluesMap, Demo.collaborators, GaussRat.ext_iff,
      Demo.solver, maximumEigenvalues.dense, Demo.diagonalEig, maximumEigenvalues.krylov,
      maximumEigenvalues.krylovAt, forLoop, maximumEigenvalues.start, setEntry, setField, dot,
      maximumEigenvalues.apply, rotateVector, multiplyAdd, Demo.identity1, Demo.e0,
      List.range_succ, differenceNorm, squaredNorm, ritzVector]
    rw [GaussRat.rat_sqrt_sq _ (by norm_num)]
    norm_num

end ModeMap

/-! ## Pairing of the returned eigenvalues and eigenvectors -/

section Pairing

variable {R K : Type} [Field K] [StarRing K] {d : Nat}

/-- C3: for every `k < n`, the `k`-th pair returned by `maximumEigenvalues` and by
`minimumEigenvalues` is built from dense-solve index `steps - 1 - k`: the `k`-th eigenvalue
is the value stored for Ritz value number `steps - 1 - k` and the `k`-th eigenvector is the
Ritz vector reconstructed from column `steps - 1 - k`. -/
theorem returned_pair_index (self : DiracEigenSolver R) (c : Collaborators R K d)
    (backend : Backend) (eigenvalues : List K) (eigenvectors : List (Fin d → K)) (n : Nat)
    (mode : EigevaluesMode) (v0 : Fin d → K) (k : Nat) (hk : k < n)
    (hov : n + self.extra_steps < UINT_RANGE) :
    (∃ r, maximumEigenvalues self c backend eigenvalues eigenvectors n mode v0 = some r ∧
      r.eigenvalues[k]? = some (maximumEigenvalues.stored c backend mode
        ((maximumEigenvalues.dense c backend (self.extra_steps + n)
          (maximumEigenvalues.krylov c mode v0 (self.extra_steps + n)).H).eigenvalues
            (self.extra_steps + n - 1 - k))) ∧
      r.eigenvectors[k]? = some (ritzVector (self.extra_steps + n)
        (maximumEigenvalues.dense c backend (self.extra_steps + n)
          (maximumEigenvalues.krylov c mode v0 (self.extra_steps + n)).H).eigenvectors
        (maximumEigenvalues.krylov c mode v0 (self.extra_steps + n)).V
        (self.extra_steps + n - 1 - k))) ∧
    (∃ r, minimumEigenvalues self c backend eigenvalues eigenvectors n v0 = some r ∧
      r.eigenvalues[k]? = some (minimumEigenvalues.stored backend
        ((minimumEigenvalues.dense c backend (self.extra_steps + n)
          (minimumEigenvalues.krylov c (minimumEigenvalues.prepare self c).1
            (minimumEigenvalues.prepare self c).2 v0 (self.extra_steps + n)).H).eigenvalues
            (self.extra_steps + n - 1 - k))) ∧
      r.eigenvectors[k]? = some (ritzVector (self.extra_steps + n)
        (minimumEigenvalues.dense c backend (self.extra_steps + n)
          (minimumEigenvalues.krylov c (minimumEigenvalues.prepare self c).1
            (minimumEigenvalues.prepare self c).2 v0 (self.extra_steps + n)).H).eigenvectors
        (minimumEigenvalues.krylov c (minimumEigenvalues.prepare self c).1
          (minimumEigenvalues.prepare self c).2 v0 (self.extra_steps + n)).V
        (self.extra_steps + n - 1 - k))) := by
  have hmod : (self.extra_steps + n) % UINT_RANGE = self.extra_steps + n :=
    Nat.mod_eq_of_lt (by omega)
  have hsub : self.extra_steps + n - self.extra_steps = n := by omega
  constructor
  · refine ⟨_, maximumEigenvalues_closed self c backend eigenvalues eigenvectors n mode v0
      (self.extra_steps + n) hmod (by omega) (by omega), ?_, ?_⟩
    · rw [hsub]
      exact getElem?_take_reverse_map _ _ _ _ (by omega) hk
    · rw [hsub]
      exact getElem?_take_reverse_map _ _ _ _ (by omega) hk
  · refine ⟨_, minimumEigenvalues_closed self c backend eigenvalues eigenvectors n v0
      (self.extra_steps + n) hmod (by omega) (by omega), ?_, ?_⟩
    · rw [hsub]
      exact getElem?_take_reverse_map _ _ _ _ (by omega) hk
    · rw [hsub]
      exact getElem?_take_reverse_map _ _ _ _ (by omega) hk

/-- C3 at a concrete call: `k = 1`, `n = 2`, `extra_steps = 3` (so `steps = 5` and the pair
comes from dense-solve index `3`), the swap operator on two components. -/
theorem returned_pair_index_witness :
    (1 < 2 ∧ 2 + (Demo.solver 3).extra_steps < UINT_RANGE) ∧
    ((∃ r, maximumEigenvalues (Demo.solver 3) (Demo.collaborators Demo.swap2 Demo.swap2)
        Backend.EIGEN [] [] 2 EigevaluesMode.LargestReal Demo.e0 = some r ∧
      r.eigenvalues[1]? = some (maximumEigenvalues.stored
        (Demo.collaborators Demo.swap2 Demo.swap2) Backend.EIGEN EigevaluesMode.LargestReal
        ((maximumEigenvalues.dense (Demo.collaborators Demo.swap2 Demo.swap2) Backend.EIGEN 5
          (maximumEigenvalues.krylov (Demo.collaborators Demo.swap2 Demo.swap2)
            EigevaluesMode.LargestReal Demo.e0 5).H).eigenvalues 3)) ∧
      r.eigenvectors[1]? = some (ritzVector 5
        (maximumEigenvalues.dense (Demo.collaborators Demo.swap2 Demo.swap2) Backend.EIGEN 5
          (maximumEigenvalues.krylov (Demo.collaborators Demo.swap2 Demo.swap2)
            EigevaluesMode.LargestReal Demo.e0 5).H).eigenvectors
        (maximumEigenvalues.krylov (Demo.collaborators Demo.swap2 Demo.swap2)
          EigevaluesMode.LargestReal Demo.e0 5).V 3)) ∧
    (∃ r, minimumEigenvalues (Demo.solver 3) (Demo.collaborators Demo.swap2 Demo.swap2)
        Backend.EIGEN [] [] 2 Demo.e0 = some r ∧
      r.eigenvalues[1]? = some (minimumEigenvalues.stored Backend.EIGEN
        ((minimumEigenvalues.dense (Demo.collaborators Demo.swap2 Demo.swap2) Backend.EIGEN 5
          (minimumEigenvalues.krylov (Demo.collaborators Demo.swap2 Demo.swap2)
            (minimumEigenvalues.prepare (Demo.solver 3)
              (Demo.collaborators Demo.swap2 Demo.swap2)).1
            (minimumEigenvalues.prepare (Demo.solver 3)
              (Demo.collaborators Demo.swap2 Demo.swap2)).2 Demo.e0 5).H).eigenvalues 3)) ∧
      r.eigenvectors[1]? = some (ritzVector 5
        (minimumEigenvalues.dense (Demo.collaborators Demo.swap2 Demo.swap2) Backend.EIGEN 5
          (minimumEigenvalues.krylov (Demo.collaborators Demo.swap2 Demo.swap2)
            (minimumEigenvalues.prepare (Demo.solver 3)
              (Demo.collaborators Demo.swap2 Demo.swap2)).1
            (minimumEigenvalues.prepare (Demo.solver 3)
              (Demo.collaborators Demo.swap2 Demo.swap2)).2 Demo.e0 5).H).eigenvectors
        (minimumEigenvalues.krylov (Demo.collaborators Demo.swap2 Demo.swap2)
          (minimumEigenvalues.prepare (Demo.solver 3)
            (Demo.collaborators Demo.swap2 Demo.swap2)).1
          (minimumEigenvalues.prepare (Demo.solver 3)
            (Demo.collaborators Demo.swap2 Demo.swap2)).2 Demo.e0 5).V 3))) :=
  ⟨⟨by decide, by decide⟩,
    returned_pair_index (Demo.solver 3) (Demo.collaborators Demo.swap2 Demo.swap2)
      Backend.EIGEN [] [] 2 EigevaluesMode.LargestReal Demo.e0 1 (by decide) (by decide)⟩

end Pairing

/-! ## The two dense back ends of `minimumEigenvalues` -/

section BackEnds

/-- C4 at the failing input: for the Ritz value `1/2` the `EIGEN` variant stores `2` and the
`ARMADILLO` variant stores `1/2`; for the operator `2 * identity` on one component, `n = 1`
and `extra_steps = 0`, `minimumEigenvalues` returns the eigenvalue `2` under `EIGEN` and
`1/2` under `ARMADILLO`. -/
theorem armadillo_stores_ritz_value :
    minimumEigenvalues.stored Backend.EIGEN (1 / 2 : GaussRat) = 2 ∧
    minimumEigenvalues.stored Backend.ARMADILLO (1 / 2 : GaussRat) = 1 / 2 ∧
    (minimumEigenvalues (Demo.solver 0)
        (Demo.collaborators (Demo.scale (d := 1) 2) (Demo.scale (1 / 2)))
        Backend.EIGEN [] [] 1 Demo.e0).map (fun r => r.eigenvalues) = some [2] ∧
    (minimumEigenvalues (Demo.solver 0)
        (Demo.collaborators (Demo.scale (d := 1) 2) (Demo.scale (1 / 2)))
        Backend.ARMADILLO [] [] 1 Demo.e0).map (fun r => r.eigenvalues) = some [1 / 2] := by
  refine ⟨?_, ?_, ?_, ?_⟩
  · simp [minimumEigenvalues.stored]
  · simp [minimumEigenvalues.stored]
  · rw [minimumEigenvalues_closed _ _ _ _ _ _ _ 1 (by decide) (by decide) (by decide)]
    simp [minimumEigenvalues.stored, Demo.collaborators, Demo.solver,
      minimumEigenvalues.dense, Demo.diagonalEig, minimumEigenvalues.krylov,
      minimumEigenvalues.krylovAt, forLoop, minimumEigenvalues.start, setEntry, setField, dot,
      Demo.scale, Demo.e0, List.range_succ, minimumEigenvalues.prepare]
  · rw [minimumEigenvalues_closed _ _ _ _ _ _ _ 1 (by decide) (by decide) (by decide)]
    simp [minimumEigenvalues.stored, Demo.collaborators, Demo.solver,
      minimumEigenvalues.dense, Demo.diagonalEig, minimumEigenvalues.krylov,
      minimumEigenvalues.krylovAt, forLoop, minimumEigenvalues.start, setEntry, setField, dot,
      Demo.scale, Demo.e0, List.range_succ, minimumEigenvalues.prepare]

end BackEnds

/-! ## Structure of the projected matrix -/

section Hessenberg

variable {R K : Type} [Field K] [StarRing K] {d : Nat}

/-- C8: for every `steps`, every operator and every start vector, the projected matrix `H`
that `maximumEigenvalues` and `minimumEigenvalues` hand to the dense eigendecomposition
is upper-Hessenberg: `H[i][j] = 0` exactly for all `i > j + 1`. -/
theorem projected_matrix_hessenberg (self : DiracEigenSolver R) (c : Collaborators R K d)
    (mode : EigevaluesMode) (v0 : Fin d → K) (steps i j : Nat) (hij : j + 1 < i) :
    (maximumEigenvalues.krylov c mode v0 steps).H i j = 0 ∧
    (minimumEigenvalues.krylov c (minimumEigenvalues.prepare self c).1
      (minimumEigenvalues.prepare self c).2 v0 steps).H i j = 0 := by
  constructor
  · unfold maximumEigenvalues.krylov
    rw [max_krylovAt_eq]
    exact arnoldiAt_hessenberg _ _ _ _ _ _ i j (Or.inl hij)
  · unfold minimumEigenvalues.krylov
    rw [min_krylovAt_eq]
    exact arnoldiAt_hessenberg _ _ _ _ _ _ i j (Or.inl hij)

/-- C8 at a concrete entry: `steps = 3`, the swap operator on two components, entry
`H[2][0]`. -/
theorem projected_matrix_hessenberg_witness :
    0 + 1 < 2 ∧
    ((maximumEigenvalues.krylov (Demo.collaborators Demo.swap2 Demo.swap2)
        EigevaluesMode.LargestReal Demo.e0 3).H 2 0 = 0 ∧
    (minimumEigenvalues.krylov (Demo.collaborators Demo.swap2 Demo.swap2)
      (minimumEigenvalues.prepare (Demo.solver 1)
        (Demo.collaborators Demo.swap2 Demo.swap2)).1
      (minimumEigenvalues.prepare (Demo.solver 1)
        (Demo.collaborators Demo.swap2 Demo.swap2)).2 Demo.e0 3).H 2 0 = 0) :=
  ⟨by decide,
    projected_matrix_hessenberg (Demo.solver 1) (Demo.collaborators Demo.swap2 Demo.swap2)
      EigevaluesMode.LargestReal Demo.e0 3 2 0 (by decide)⟩

end Hessenberg

/-! ## Orthonormality of the Krylov basis -/

section KrylovBasis

variable {R K : Type} [Field K] [StarRing K] {d : Nat}

/-- C7: in exact arithmetic (the square root of each residual's squared norm is a
self-conjugate scalar whose square is that squared norm), for a normalised start vector
`V[0]` and provided every residual norm `beta` met during construction is non-zero, the
completed Krylov basis of `maximumEigenvalues` and of `minimumEigenvalues` is orthonormal:
`<V[i], V[j]>` is `0` for `i ≠ j` and `1` for `i = j`, for all `i, j` below `steps`. -/
theorem krylov_basis_orthonormal (self : DiracEigenSolver R) (c : Collaborators R K d)
    (mode : EigevaluesMode) (v0 : Fin d → K) (steps : Nat) (hv0 : squaredNorm v0 = 1) :
    ((∀ j, j < steps - 1 →
        c.sqrt (squaredNorm (maximumEigenvalues.krylovAt c mode v0 j).f) ≠ 0 ∧
        c.sqrt (squaredNorm (maximumEigenvalues.krylovAt c mode v0 j).f) *
          c.sqrt (squaredNorm (maximumEigenvalues.krylovAt c mode v0 j).f) =
            squaredNorm (maximumEigenvalues.krylovAt c mode v0 j).f ∧
        star (c.sqrt (squaredNorm (maximumEigenvalues.krylovAt c mode v0 j).f)) =
          c.sqrt (squaredNorm (maximumEigenvalues.krylovAt c mode v0 j).f)) →
      ∀ a b, a < steps → b < steps →
        dot ((maximumEigenvalues.krylov c mode v0 steps).V a)
          ((maximumEigenvalues.krylov c mode v0 steps).V b) = if a = b then 1 else 0) ∧
    ((∀ j, j < steps - 1 →
        c.sqrt (squaredNorm (minimumEigenvalues.krylovAt c (minimumEigenvalues.prepare self c).1
          (minimumEigenvalues.prepare self c).2 v0 j).f) ≠ 0 ∧
        c.sqrt (squaredNorm (minimumEigenvalues.krylovAt c (minimumEigenvalues.prepare self c).1
          (minimumEigenvalues.prepare self c).2 v0 j).f) *
          c.sqrt (squaredNorm (minimumEigenvalues.krylovAt c
            (minimumEigenvalues.prepare self c).1
            (minimumEigenvalues.prepare self c).2 v0 j).f) =
            squaredNorm (minimumEigenvalues.krylovAt c (minimumEigenvalues.prepare self c).1
              (minimumEigenvalues.prepare self c).2 v0 j).f ∧
        star (c.sqrt (squaredNorm (minimumEigenvalues.krylovAt c
          (minimumEigenvalues.prepare self c).1
          (minimumEigenvalues.prepare self c).2 v0 j).f)) =
          c.sqrt (squaredNorm (minimumEigenvalues.krylovAt c
            (minimumEigenvalues.prepare self c).1
            (minimumEigenvalues.prepare self c).2 v0 j).f)) →
      ∀ a b, a < steps → b < steps →
        dot ((minimumEigenvalues.krylov c (minimumEigenvalues.prepare self c).1
            (minimumEigenvalues.prepare self c).2 v0 steps).V a)
          ((minimumEigenvalues.krylov c (minimumEigenvalues.prepare self c).1
            (minimumEigenvalues.prepare self c).2 v0 steps).V b) = if a = b then 1 else 0) := by
  constructor
  · intro hbeta a b ha hb
    unfold maximumEigenvalues.krylov
    rw [max_krylovAt_eq]
    refine (arnoldiAt_orthonormal _ _ _ _ v0 hv0 (steps - 1) ?_).1 a b (by omega) (by omega)
    intro j hj
    have h := hbeta j hj
    rw [max_krylovAt_eq] at h
    exact h
  · intro hbeta a b ha hb
    unfold minimumEigenvalues.krylov
    rw [min_krylovAt_eq]
    refine (arnoldiAt_orthonormal _ _ _ _ v0 hv0 (steps - 1) ?_).1 a b (by omega) (by omega)
    intro j hj
    have h := hbeta j hj
    rw [min_krylovAt_eq] at h
    exact h

/-- C7 at a concrete call: `steps = 2`, the swap operator on two components, start vector
`(1, 0)`; the only residual met has norm `1`. -/
theorem krylov_basis_orthonormal_witness :
    squaredNorm (Demo.e0 : Fin 2 → GaussRat) = 1 ∧
    (∀ a b, a < 2 → b < 2 →
      dot ((maximumEigenvalues.krylov (Demo.collaborators Demo.swap2 Demo.swap2)
          EigevaluesMode.LargestReal Demo.e0 2).V a)
        ((maximumEigenvalues.krylov (Demo.collaborators Demo.swap2 Demo.swap2)
          EigevaluesMode.LargestReal Demo.e0 2).V b) = if a = b then 1 else 0) ∧
    (∀ a b, a < 2 → b < 2 →
      dot ((minimumEigenvalues.krylov (Demo.collaborators Demo.swap2 Demo.swap2)
          (minimumEigenvalues.prepare (Demo.solver 1)
            (Demo.collaborators Demo.swap2 Demo.swap2)).1
          (minimumEigenvalues.prepare (Demo.solver 1)
            (Demo.collaborators Demo.swap2 Demo.swap2)).2 Demo.e0 2).V a)
        ((minimumEigenvalues.krylov (Demo.collaborators Demo.swap2 Demo.swap2)
          (minimumEigenvalues.prepare (Demo.solver 1)
            (Demo.collaborators Demo.swap2 Demo.swap2)).1
          (minimumEigenvalues.prepare (Demo.solver 1)
            (Demo.collaborators Demo.swap2 Demo.swap2)).2 Demo.e0 2).V b) =
        if a = b then 1 else 0) := by
  have h := krylov_basis_orthonormal (Demo.solver 1)
    (Demo.collaborators Demo.swap2 Demo.swap2) EigevaluesMode.LargestReal Demo.e0 2
    demo_squaredNorm_e0
  refine ⟨demo_squaredNorm_e0, h.1 ?_, h.2 ?_⟩
  · intro j hj
    obtain rfl : j = 0 := by omega
    rw [demo_max_start_f]
    show GaussRat.sqrt _ ≠ 0 ∧ GaussRat.sqrt _ * GaussRat.sqrt _ = _ ∧
      star (GaussRat.sqrt _) = GaussRat.sqrt _
    rw [demo_beta_one]
    simp [squaredNorm, Fin.sum_univ_two, GaussRat.ext_iff]
  · intro j hj
    obtain rfl : j = 0 := by omega
    rw [demo_min_start_f]
    show GaussRat.sqrt _ ≠ 0 ∧ GaussRat.sqrt _ * GaussRat.sqrt _ = _ ∧
      star (GaussRat.sqrt _) = GaussRat.sqrt _
    rw [demo_beta_one]
    simp [squaredNorm, Fin.sum_univ_two, GaussRat.ext_iff]

end KrylovBasis

/-! ## Ordering of the returned eigenvalues -/

section Ordering

variable {R K : Type} [Field K] [StarRing K] {d : Nat}

/-- C6: when the dense eigendecomposition lists the Ritz values in non-decreasing magnitude,
`maximumEigenvalues` returns `n` pairs, the `k`-th built from Ritz index `steps - 1 - k`;
their Ritz values are in non-increasing magnitude (largest first) and each is at least as
large in magnitude as every Ritz value whose pair is discarded. -/
theorem maximum_returns_largest {M : Type} [Preorder M] (mag : K → M)
    (self : DiracEigenSolver R) (c : Collaborators R K d) (backend : Backend)
    (eigenvalues : List K) (eigenvectors : List (Fin d → K)) (n : Nat)
    (mode : EigevaluesMode) (v0 : Fin d → K) (hn : 1 ≤ n)
    (hov : n + self.extra_steps < UINT_RANGE)
    (hsorted : ∀ i j, i ≤ j → j < self.extra_steps + n →
      mag ((maximumEigenvalues.dense c backend (self.extra_steps + n)
        (maximumEigenvalues.krylov c mode v0 (self.extra_steps + n)).H).eigenvalues i) ≤
      mag ((maximumEigenvalues.dense c backend (self.extra_steps + n)
        (maximumEigenvalues.krylov c mode v0 (self.extra_steps + n)).H).eigenvalues j)) :
    ∃ r, maximumEigenvalues self c backend eigenvalues eigenvectors n mode v0 = some r ∧
      r.eigenvalues.length = n ∧ r.eigenvectors.length = n ∧
      (∀ k, k < n →
        r.eigenvalues[k]? = some (maximumEigenvalues.stored c backend mode
          ((maximumEigenvalues.dense c backend (self.extra_steps + n)
            (maximumEigenvalues.krylov c mode v0 (self.extra_steps + n)).H).eigenvalues
              (self.extra_steps + n - 1 - k))) ∧
        r.eigenvectors[k]? = some (ritzVector (self.extra_steps + n)
          (maximumEigenvalues.dense c backend (self.extra_steps + n)
            (maximumEigenvalues.krylov c mode v0 (self.extra_steps + n)).H).eigenvectors
          (maximumEigenvalues.krylov c mode v0 (self.extra_steps + n)).V
          (self.extra_steps + n - 1 - k))) ∧
      (∀ k k', k ≤ k' → k' < n →
        mag ((maximumEigenvalues.dense c backend (self.extra_steps + n)
          (maximumEigenvalues.krylov c mode v0 (self.extra_steps + n)).H).eigenvalues
            (self.extra_steps + n - 1 - k')) ≤
        mag ((maximumEigenvalues.dense c backend (self.extra_steps + n)
          (maximumEigenvalues.krylov c mode v0 (self.extra_steps + n)).H).eigenvalues
            (self.extra_steps + n - 1 - k))) ∧
      (∀ i k, i < self.extra_steps → k < n →
        mag ((maximumEigenvalues.dense c backend (self.extra_steps + n)
          (maximumEigenvalues.krylov c mode v0 (self.extra_steps + n)).H).eigenvalues i) ≤
        mag ((maximumEigenvalues.dense c backend (self.extra_steps + n)
          (maximumEigenvalues.krylov c mode v0 (self.extra_steps + n)).H).eigenvalues
            (self.extra_steps + n - 1 - k))) := by
  have hmod : (self.extra_steps + n) % UINT_RANGE = self.extra_steps + n :=
    Nat.mod_eq_of_lt (by omega)
  have hsub : self.extra_steps + n - self.extra_steps = n := by omega
  refine ⟨_, maximumEigenvalues_closed self c backend eigenvalues eigenvectors n mode v0
    (self.extra_steps + n) hmod (by omega) (by omega), ?_, ?_, ?_, ?_, ?_⟩
  · rw [length_take_reverse_map _ _ _ (by omega), hsub]
  · rw [length_take_reverse_map _ _ _ (by omega), hsub]
  · intro k hk
    constructor
    · rw [hsub]
      exact getElem?_take_reverse_map _ _ _ _ (by omega) hk
    · rw [hsub]
      exact getElem?_take_reverse_map _ _ _ _ (by omega) hk
  · intro k k' hkk hk'
    exact hsorted _ _ (by omega) (by omega)
  · intro i k hi hk
    exact hsorted _ _ (by omega) (by omega)

/-- C5, amended: when the candidate values (the values stored for the Ritz values, in
dense-solve order) are listed in non-increasing magnitude, `minimumEigenvalues` returns `n`
eigenvalues, the `k`-th being candidate number `steps - 1 - k`; they are in non-decreasing
magnitude and each is at most as large in magnitude as every discarded candidate. -/
theorem minimum_returns_smallest_of_descending {M : Type} [Preorder M] (mag : K → M)
    (self : DiracEigenSolver R) (c : Collaborators R K d) (backend : Backend)
    (eigenvalues : List K) (eigenvectors : List (Fin d → K)) (n : Nat)
    (v0 : Fin d → K) (hn : 1 ≤ n) (hov : n + self.extra_steps < UINT_RANGE)
    (hsorted : ∀ i j, i ≤ j → j < self.extra_steps + n →
      mag (minimumEigenvalues.stored backend
        ((minimumEigenvalues.dense c backend (self.extra_steps + n)
          (minimumEigenvalues.krylov c (minimumEigenvalues.prepare self c).1
            (minimumEigenvalues.prepare self c).2 v0 (self.extra_steps + n)).H).eigenvalues j)) ≤
      mag (minimumEigenvalues.stored backend
        ((minimumEigenvalues.dense c backend (self.extra_steps + n)
          (minimumEigenvalues.krylov c (minimumEigenvalues.prepare self c).1
            (minimumEigenvalues.prepare self c).2 v0 (self.extra_steps + n)).H).eigenvalues i))) :
    ∃ r, minimumEigenvalues self c backend eigenvalues eigenvectors n v0 = some r ∧
      r.eigenvalues.length = n ∧
      (∀ k, k < n →
        r.eigenvalues[k]? = some (minimumEigenvalues.stored backend
          ((minimumEigenvalues.dense c backend (self.extra_steps + n)
            (minimumEigenvalues.krylov c (minimumEigenvalues.prepare self c).1
              (minimumEigenvalues.prepare self c).2 v0 (self.extra_steps + n)).H).eigenvalues
              (self.extra_steps + n - 1 - k)))) ∧
      (∀ k k', k ≤ k' → k' < n →
        mag (minimumEigenvalues.stored backend
          ((minimumEigenvalues.dense c backend (self.extra_steps + n)
            (minimumEigenvalues.krylov c (minimumEigenvalues.prepare self c).1
              (minimumEigenvalues.prepare self c).2 v0 (self.extra_steps + n)).H).eigenvalues
              (self.extra_steps + n - 1 - k))) ≤
        mag (minimumEigenvalues.stored backend
          ((minimumEigenvalues.dense c backend (self.extra_steps + n)
            (minimumEigenvalues.krylov c (minimumEigenvalues.prepare self c).1
              (minimumEigenvalues.prepare self c).2 v0 (self.extra_steps + n)).H).eigenvalues
              (self.extra_steps + n - 1 - k')))) ∧
      (∀ i k, i < self.extra_steps → k < n →
        mag (minimumEigenvalues.stored backend
          ((minimumEigenvalues.dense c backend (self.extra_steps + n)
            (minimumEigenvalues.krylov c (minimumEigenvalues.prepare self c).1
              (minimumEigenvalues.prepare self c).2 v0 (self.extra_steps + n)).H).eigenvalues
              (self.extra_steps + n - 1 - k))) ≤
        mag (minimumEigenvalues.stored backend
          ((minimumEigenvalues.dense c backend (self.extra_steps + n)
            (minimumEigenvalues.krylov c (minimumEigenvalues.prepare self c).1
              (minimumEigenvalues.prepare self c).2 v0 (self.extra_steps + n)).H).eigenvalues
              i))) := by
  have hmod : (self.extra_steps + n) % UINT_RANGE = self.extra_steps + n :=
    Nat.mod_eq_of_lt (by omega)
  have hsub : self.extra_steps + n - self.extra_steps = n := by omega
  refine ⟨_, minimumEigenvalues_closed self c backend eigenvalues eigenvectors n v0
    (self.extra_steps + n) hmod (by omega) (by omega), ?_, ?_, ?_, ?_⟩
  · rw [length_take_reverse_map _ _ _ (by omega), hsub]
  · intro k hk
    rw [hsub]
    exact getElem?_take_reverse_map _ _ _ _ (by omega) hk
  · intro k k' hkk hk'
    exact hsorted _ _ (by omega) (by omega)
  · intro i k hi hk
    exact hsorted _ _ (by omega) (by omega)

end Ordering

section OrderingExamples

/-- C6 at a concrete call: the swap operator on two components, `n = 1`, `extra_steps = 1`,
a dense solver listing the Ritz values `4, 6`; the call returns the eigenvalue
`6 - 5 = 1`. -/
theorem maximum_returns_largest_witness :
    (1 ≤ 1 ∧ 1 + (Demo.solver 1).extra_steps < UINT_RANGE ∧
      ∀ i j, i ≤ j → j < (Demo.solver 1).extra_steps + 1 →
        GaussRat.normSq ((maximumEigenvalues.dense Demo.swapCollaborators Backend.EIGEN
          ((Demo.solver 1).extra_steps + 1)
          (maximumEigenvalues.krylov Demo.swapCollaborators EigevaluesMode.LargestReal Demo.e0
            ((Demo.solver 1).extra_steps + 1)).H).eigenvalues i) ≤
        GaussRat.normSq ((maximumEigenvalues.dense Demo.swapCollaborators Backend.EIGEN
          ((Demo.solver 1).extra_steps + 1)
          (maximumEigenvalues.krylov Demo.swapCollaborators EigevaluesMode.LargestReal Demo.e0
            ((Demo.solver 1).extra_steps + 1)).H).eigenvalues j)) ∧
    ∃ r, maximumEigenvalues (Demo.solver 1) Demo.swapCollaborators Backend.EIGEN [] [] 1
        EigevaluesMode.LargestReal Demo.e0 = some r ∧ r.eigenvalues = [1] := by
  have hs : ∀ i j, i ≤ j → j < (Demo.solver 1).extra_steps + 1 →
        GaussRat.normSq ((maximumEigenvalues.dense Demo.swapCollaborators Backend.EIGEN
          ((Demo.solver 1).extra_steps + 1)
          (maximumEigenvalues.krylov Demo.swapCollaborators EigevaluesMode.LargestReal Demo.e0
            ((Demo.solver 1).extra_steps + 1)).H).eigenvalues i) ≤
        GaussRat.normSq ((maximumEigenvalues.dense Demo.swapCollaborators Backend.EIGEN
          ((Demo.solver 1).extra_steps + 1)
          (maximumEigenvalues.krylov Demo.swapCollaborators EigevaluesMode.LargestReal Demo.e0
            ((Demo.solver 1).extra_steps + 1)).H).eigenvalues j) := by
    intro i j hij hj
    have hj2 : j < 2 := hj
    interval_cases j <;> interval_cases i <;>
      simp [maximumEigenvalues.dense, Demo.swapCollaborators, Demo.withDense, Demo.listedEig,
        GaussRat.normSq] <;> norm_num
  refine ⟨⟨by decide, by decide, hs⟩, ?_⟩
  obtain ⟨r, h1, h2, _, h4, _⟩ := maximum_returns_largest GaussRat.normSq (Demo.solver 1)
    Demo.swapCollaborators Backend.EIGEN [] [] 1 EigevaluesMode.LargestReal Demo.e0
    (by decide) (by decide) hs
  refine ⟨r, h1, ?_⟩
  have h5 := (h4 0 (by decide)).1
  have h6 : r.eigenvalues[0]? = some 1 := by
    rw [h5]
    simp [maximumEigenvalues.stored, maximumEigenvalues.dense, Demo.swapCollaborators,
      Demo.withDense, Demo.listedEig, Demo.solver, EigevaluesMap, GaussRat.ext_iff]
    norm_num
  match hr : r.eigenvalues, h2, h6 with
  | [x], _, h6 =>
    simp at h6
    rw [h6]

end OrderingExamples

section MinimumOrderingExamples

/-- C5, amended, at a concrete call: the operator `diag(1, 2)`, `n = 1`, `extra_steps = 1`,
a dense solver listing the Ritz values `1/2, 1` (candidates `2, 1`); the call returns the
eigenvalue `1`. -/
theorem minimum_returns_smallest_of_descending_witness :
    (1 ≤ 1 ∧ 1 + (Demo.solver 1).extra_steps < UINT_RANGE) ∧
    ∃ r, minimumEigenvalues (Demo.solver 1) Demo.ascendingCollaborators Backend.EIGEN [] [] 1
        Demo.v345 = some r ∧ r.eigenvalues = [1] := by
  have hs : ∀ i j, i ≤ j → j < (Demo.solver 1).extra_steps + 1 →
      GaussRat.normSq (minimumEigenvalues.stored Backend.EIGEN
        ((minimumEigenvalues.dense Demo.ascendingCollaborators Backend.EIGEN
          ((Demo.solver 1).extra_steps + 1)
          (minimumEigenvalues.krylov Demo.ascendingCollaborators
            (minimumEigenvalues.prepare (Demo.solver 1) Demo.ascendingCollaborators).1
            (minimumEigenvalues.prepare (Demo.solver 1) Demo.ascendingCollaborators).2
            Demo.v345 ((Demo.solver 1).extra_steps + 1)).H).eigenvalues j)) ≤
      GaussRat.normSq (minimumEigenvalues.stored Backend.EIGEN
        ((minimumEigenvalues.dense Demo.ascendingCollaborators Backend.EIGEN
          ((Demo.solver 1).extra_steps + 1)
          (minimumEigenvalues.krylov Demo.ascendingCollaborators
            (minimumEigenvalues.prepare (Demo.solver 1) Demo.ascendingCollaborators).1
            (minimumEigenvalues.prepare (Demo.solver 1) Demo.ascendingCollaborators).2
            Demo.v345 ((Demo.solver 1).extra_steps + 1)).H).eigenvalues i)) := by
    intro i j hij hj
    have hj2 : j < 2 := hj
    interval_cases j <;> interval_cases i <;>
      simp [minimumEigenvalues.dense, minimumEigenvalues.stored, Demo.ascendingCollaborators,
        Demo.withDense, Demo.listedEig, GaussRat.normSq] <;> norm_num
  refine ⟨⟨by decide, by decide⟩, ?_⟩
  obtain ⟨r, h1, h2, h4, _⟩ := minimum_returns_smallest_of_descending GaussRat.normSq
    (Demo.solver 1) Demo.ascendingCollaborators Backend.EIGEN [] [] 1 Demo.v345
    (by decide) (by decide) hs
  refine ⟨r, h1, ?_⟩
  have h6 : r.eigenvalues[0]? = some 1 := by
    rw [h4 0 (by decide)]
    simp [minimumEigenvalues.stored, minimumEigenvalues.dense, Demo.ascendingCollaborators,
      Demo.withDense, Demo.listedEig, Demo.solver, GaussRat.ext_iff]
  match hr : r.eigenvalues, h2, h6 with
  | [x], _, h6 =>
    simp at h6
    rw [h6]

/-- C5 fails at a concrete call: the operator `diag(1, 2)`, `n = 1`, `extra_steps = 1` and
a dense solver that lists the exact eigenpairs of the projected matrix with the Ritz value
`1` before `1/2`.  The candidates are `1, 2`; the call returns `2` although the candidate
`1` is smaller in magnitude. -/
theorem minimum_returns_smallest_counterexample :
    (∀ a i, a < 2 → i < 2 →
      (minimumEigenvalues.krylov Demo.descendingCollaborators
          (minimumEigenvalues.prepare (Demo.solver 1) Demo.descendingCollaborators).1
          (minimumEigenvalues.prepare (Demo.solver 1) Demo.descendingCollaborators).2
          Demo.v345 2).H a 0 *
        (Demo.descendingCollaborators.ComplexEigenSolver 2
          (minimumEigenvalues.krylov Demo.descendingCollaborators
            (minimumEigenvalues.prepare (Demo.solver 1) Demo.descendingCollaborators).1
            (minimumEigenvalues.prepare (Demo.solver 1) Demo.descendingCollaborators).2
            Demo.v345 2).H).eigenvectors 0 i +
      (minimumEigenvalues.krylov Demo.descendingCollaborators
          (minimumEigenvalues.prepare (Demo.solver 1) Demo.descendingCollaborators).1
          (minimumEigenvalues.prepare (Demo.solver 1) Demo.descendingCollaborators).2
          Demo.v345 2).H a 1 *
        (Demo.descendingCollaborators.ComplexEigenSolver 2
          (minimumEigenvalues.krylov Demo.descendingCollaborators
            (minimumEigenvalues.prepare (Demo.solver 1) Demo.descendingCollaborators).1
            (minimumEigenvalues.prepare (Demo.solver 1) Demo.descendingCollaborators).2
            Demo.v345 2).H).eigenvectors 1 i =
      (Demo.descendingCollaborators.ComplexEigenSolver 2
          (minimumEigenvalues.krylov Demo.descendingCollaborators
            (minimumEigenvalues.prepare (Demo.solver 1) Demo.descendingCollaborators).1
            (minimumEigenvalues.prepare (Demo.solver 1) Demo.descendingCollaborators).2
            Demo.v345 2).H).eigenvalues i *
        (Demo.descendingCollaborators.ComplexEigenSolver 2
          (minimumEigenvalues.krylov Demo.descendingCollaborators
            (minimumEigenvalues.prepare (Demo.solver 1) Demo.descendingCollaborators).1
            (minimumEigenvalues.prepare (Demo.solver 1) Demo.descendingCollaborators).2
            Demo.v345 2).H).eigenvectors a i) ∧
    (minimumEigenvalues (Demo.solver 1) Demo.descendingCollaborators Backend.EIGEN [] [] 1
        Demo.v345).map (fun r => r.eigenvalues) = some [2] ∧
    minimumEigenvalues.stored Backend.EIGEN
      ((minimumEigenvalues.dense Demo.descendingCollaborators Backend.EIGEN 2
        (minimumEigenvalues.krylov Demo.descendingCollaborators
          (minimumEigenvalues.prepare (Demo.solver 1) Demo.descendingCollaborators).1
          (minimumEigenvalues.prepare (Demo.solver 1) Demo.descendingCollaborators).2
          Demo.v345 2).H).eigenvalues 0) = 1 ∧
    mincomparison GaussRat.normSq (1 : GaussRat) 2 = true := by
  refine ⟨?_, ?_, ?_, ?_⟩
  · intro a i ha hi
    unfold minimumEigenvalues.krylov
    rw [min_krylovAt_eq]
    have hop : Demo.descendingCollaborators.solve
        (minimumEigenvalues.prepare (Demo.solver 1) Demo.descendingCollaborators).1 =
        Demo.diagonal 1 (1 / 2) := rfl
    have hsq : Demo.descendingCollaborators.sqrt = GaussRat.sqrt := rfl
    rw [hop, hsq]
    simp only [demo_descending_dense]
    obtain ⟨h00, h01, h10, h11⟩ := demo_diag_H_entries
      (minimumEigenvalues.prepare (Demo.solver 1) Demo.descendingCollaborators).2
    have h21 : 2 - 1 = 1 := rfl
    rw [h21]
    interval_cases a <;> interval_cases i <;> simp only [h00, h01, h10, h11] <;>
      simp [GaussRat.ext_iff] <;> norm_num
  · rw [minimumEigenvalues_closed _ _ _ _ _ _ _ 2 (by decide) (by decide) (by decide)]
    simp [minimumEigenvalues.stored, minimumEigenvalues.dense, Demo.descendingCollaborators,
      Demo.withDense, Demo.listedEig, Demo.solver, List.range_succ, GaussRat.ext_iff]
  · simp [minimumEigenvalues.stored, minimumEigenvalues.dense, Demo.descendingCollaborators,
      Demo.withDense, Demo.listedEig]
  · simp [mincomparison, GaussRat.normSq]
    norm_num

end MinimumOrderingExamples

/-! ## Calls with `n = 0` -/

section Entry

variable {R K : Type} [Field K] [StarRing K] {d : Nat}

theorem max_krylov_log (c : Collaborators R K d) (mode : EigevaluesMode) (v0 : Fin d → K)
    (steps : Nat) :
    (maximumEigenvalues.krylov c mode v0 steps).log =
      arnoldiTrace Event.multiplyAdd (steps - 1) := by
  unfold maximumEigenvalues.krylov
  rw [max_krylovAt_eq, arnoldiAt_log]
  rfl

theorem min_krylov_log (c : Collaborators R K d) (bicg : BiConjugateGradient R)
    (log0 : List Event) (v0 : Fin d → K) (steps : Nat) :
    (minimumEigenvalues.krylov c bicg log0 v0 steps).log =
      log0 ++ arnoldiTrace Event.solve (steps - 1) := by
  unfold minimumEigenvalues.krylov
  rw [min_krylovAt_eq, arnoldiAt_log]

theorem prepare_log_count_solve (self : DiracEigenSolver R) (c : Collaborators R K d) :
    (minimumEigenvalues.prepare self c).2.count Event.solve = 0 := by
  unfold minimumEigenvalues.prepare
  cases self.biConjugateGradient <;> simp

/-- C9, amended: with `n = 0` and `1 ≤ extra_steps < 2^32` neither function rejects the
call: it runs the Krylov construction with `steps = extra_steps` (the log holds exactly
`extra_steps` operator applications, respectively solves) and returns empty eigenvalue and
eigenvector sequences. -/
theorem zero_count_not_rejected (self : DiracEigenSolver R) (c : Collaborators R K d)
    (backend : Backend) (eigenvalues : List K) (eigenvectors : List (Fin d → K))
    (mode : EigevaluesMode) (v0 : Fin d → K) (h1 : 1 ≤ self.extra_steps)
    (h2 : self.extra_steps < UINT_RANGE) :
    (∃ r, maximumEigenvalues self c backend eigenvalues eigenvectors 0 mode v0 = some r ∧
      r.eigenvalues = [] ∧ r.eigenvectors = [] ∧
      r.log = arnoldiTrace Event.multiplyAdd (self.extra_steps - 1) ++
        [Event.multiply, Event.differenceNorm] ∧
      r.log.count Event.multiplyAdd = self.extra_steps) ∧
    (∃ r, minimumEigenvalues self c backend eigenvalues eigenvectors 0 v0 = some r ∧
      r.eigenvalues = [] ∧ r.eigenvectors = [] ∧
      r.log = (minimumEigenvalues.prepare self c).2 ++
        arnoldiTrace Event.solve (self.extra_steps - 1) ++
        [Event.multiply, Event.differenceNorm] ∧
      r.log.count Event.solve = self.extra_steps) := by
  have hmod : (self.extra_steps + 0) % UINT_RANGE = self.extra_steps :=
    Nat.mod_eq_of_lt (by omega)
  constructor
  · refine ⟨_, maximumEigenvalues_closed self c backend eigenvalues eigenvectors 0 mode v0
      self.extra_steps hmod (by omega) (le_refl _), ?_, ?_, ?_, ?_⟩
    · simp
    · simp
    · rw [max_krylov_log]
    · rw [max_krylov_log, List.count_append, count_multiplyAdd_arnoldiTrace]
      simp
      omega
  · refine ⟨_, minimumEigenvalues_closed self c backend eigenvalues eigenvectors 0 v0
      self.extra_steps hmod (by omega) (le_refl _), ?_, ?_, ?_, ?_⟩
    · simp
    · simp
    · rw [min_krylov_log]
    · rw [min_krylov_log, List.count_append, List.count_append, count_solve_arnoldiTrace,
        prepare_log_count_solve]
      simp
      omega

/-- C9, amended, at a concrete call: the solver as constructed (`extra_steps = 250`) and
`n = 0`. -/
theorem zero_count_not_rejected_witness :
    (1 ≤ (Demo.solver 250).extra_steps ∧ (Demo.solver 250).extra_steps < UINT_RANGE) ∧
    ((∃ r, maximumEigenvalues (Demo.solver 250) (Demo.collaborators Demo.swap2 Demo.swap2)
        Backend.EIGEN [] [] 0 EigevaluesMode.LargestReal Demo.e0 = some r ∧
      r.eigenvalues = [] ∧ r.eigenvectors = [] ∧
      r.log = arnoldiTrace Event.multiplyAdd ((Demo.solver 250).extra_steps - 1) ++
        [Event.multiply, Event.differenceNorm] ∧
      r.log.count Event.multiplyAdd = (Demo.solver 250).extra_steps) ∧
    (∃ r, minimumEigenvalues (Demo.solver 250) (Demo.collaborators Demo.swap2 Demo.swap2)
        Backend.EIGEN [] [] 0 Demo.e0 = some r ∧
      r.eigenvalues = [] ∧ r.eigenvectors = [] ∧
      r.log = (minimumEigenvalues.prepare (Demo.solver 250)
          (Demo.collaborators Demo.swap2 Demo.swap2)).2 ++
        arnoldiTrace Event.solve ((Demo.solver 250).extra_steps - 1) ++
        [Event.multiply, Event.differenceNorm] ∧
      r.log.count Event.solve = (Demo.solver 250).extra_steps)) :=
  ⟨⟨by decide, by decide⟩,
    zero_count_not_rejected (Demo.solver 250) (Demo.collaborators Demo.swap2 Demo.swap2)
      Backend.EIGEN [] [] EigevaluesMode.LargestReal Demo.e0 (by decide) (by decide)⟩

/-- C9 fails at a concrete call: with `n = 0` and `extra_steps = 1` both functions return
(they do not reject the call), after applying the operator, respectively the solver, to
`V[0]`. -/
theorem zero_count_counterexample :
    (maximumEigenvalues (Demo.solver 1) (Demo.collaborators Demo.identity1 Demo.identity1)
        Backend.EIGEN [] [] 0 EigevaluesMode.LargestReal Demo.e0).map
      (fun r => (r.eigenvalues, r.log)) =
        some ([], [Event.multiplyAdd, Event.dot, Event.multiply, Event.differenceNorm]) ∧
    (minimumEigenvalues (Demo.solver 1) (Demo.collaborators Demo.identity1 Demo.identity1)
        Backend.EIGEN [] [] 0 Demo.e0).map (fun r => (r.eigenvalues, r.log)) =
        some ([], [Event.newBiConjugateGradient, Event.setPrecision, Event.solve, Event.dot,
          Event.multiply, Event.differenceNorm]) := by
  constructor
  · rw [maximumEigenvalues_closed _ _ _ _ _ _ _ _ 1 (by decide) (by decide) (by decide),
      max_krylov_log]
    simp [Demo.solver, arnoldiTrace]
  · rw [minimumEigenvalues_closed _ _ _ _ _ _ _ 1 (by decide) (by decide) (by decide),
      min_krylov_log]
    simp [Demo.solver, arnoldiTrace, minimumEigenvalues.prepare]

end Entry

/-! ## A vanishing residual norm -/

section Breakdown

variable {R K : Type} [Field K] [StarRing K] {d : Nat}

/-- A basis vector is not written again once its turn of the loop is over. -/
theorem arnoldiAt_V_stable (sqrt : K → K) (op : (Fin d → K) → (Fin d → K)) (ev : Event)
    (log0 : List Event) (v0 : Fin d → K) (k m a : Nat) (ha : a ≤ k) :
    (arnoldiAt sqrt op ev log0 v0 (k + m)).V a = (arnoldiAt sqrt op ev log0 v0 k).V a := by
  induction m with
  | zero => rfl
  | succ m ih =>
    rw [← Nat.add_assoc, arnoldiAt_succ, arnoldiIterate_V,
      setField_other _ _ _ _ (by omega), ih]

/-- The vector `V[j+1]` of the completed basis is the residual of turn `j` divided by its
norm, whatever that norm is. -/
theorem arnoldiAt_V_succ (sqrt : K → K) (op : (Fin d → K) → (Fin d → K)) (ev : Event)
    (log0 : List Event) (v0 : Fin d → K) (k j : Nat) (hj : j < k) :
    (arnoldiAt sqrt op ev log0 v0 k).V (j + 1) =
      fun site => (arnoldiAt sqrt op ev log0 v0 j).f site /
        sqrt (squaredNorm (arnoldiAt sqrt op ev log0 v0 j).f) := by
  obtain ⟨m, rfl⟩ : ∃ m, k = (j + 1) + m := ⟨k - (j + 1), by omega⟩
  rw [arnoldiAt_V_stable _ _ _ _ _ _ _ _ (le_refl _), arnoldiAt_succ, arnoldiIterate_V,
    setField_same]

/-- C10, amended: the residual norm is not tested.  For `n ≥ 1` and `steps = n + extra_steps`
below `2^32`, both functions return, their log of collaborator calls is the full trace of
`steps - 1` turns of the basis-extension loop, and for every `j < steps - 1` the vector
`V[j+1]` of the basis is `f / beta` with `beta = sqrt(||f||^2)`, whatever `beta` is. -/
theorem residual_norm_not_tested (self : DiracEigenSolver R) (c : Collaborators R K d)
    (backend : Backend) (eigenvalues : List K) (eigenvectors : List (Fin d → K)) (n : Nat)
    (mode : EigevaluesMode) (v0 : Fin d → K) (hn : 1 ≤ n)
    (hov : n + self.extra_steps < UINT_RANGE) :
    ((∃ r, maximumEigenvalues self c backend eigenvalues eigenvectors n mode v0 = some r ∧
        r.log = arnoldiTrace Event.multiplyAdd (self.extra_steps + n - 1) ++
          [Event.multiply, Event.differenceNorm]) ∧
      ∀ j, j < self.extra_steps + n - 1 →
        (maximumEigenvalues.krylov c mode v0 (self.extra_steps + n)).V (j + 1) =
          fun site => (maximumEigenvalues.krylovAt c mode v0 j).f site /
            c.sqrt (squaredNorm (maximumEigenvalues.krylovAt c mode v0 j).f)) ∧
    ((∃ r, minimumEigenvalues self c backend eigenvalues eigenvectors n v0 = some r ∧
        r.log = (minimumEigenvalues.prepare self c).2 ++
          arnoldiTrace Event.solve (self.extra_steps + n - 1) ++
          [Event.multiply, Event.differenceNorm]) ∧
      ∀ j, j < self.extra_steps + n - 1 →
        (minimumEigenvalues.krylov c (minimumEigenvalues.prepare self c).1
          (minimumEigenvalues.prepare self c).2 v0 (self.extra_steps + n)).V (j + 1) =
          fun site => (minimumEigenvalues.krylovAt c (minimumEigenvalues.prepare self c).1
              (minimumEigenvalues.prepare self c).2 v0 j).f site /
            c.sqrt (squaredNorm (minimumEigenvalues.krylovAt c
              (minimumEigenvalues.prepare self c).1
              (minimumEigenvalues.prepare self c).2 v0 j).f)) := by
  have hmod : (self.extra_steps + n) % UINT_RANGE = self.extra_steps + n :=
    Nat.mod_eq_of_lt (by omega)
  refine ⟨⟨⟨_, maximumEigenvalues_closed self c backend eigenvalues eigenvectors n mode v0
      (self.extra_steps + n) hmod (by omega) (by omega), ?_⟩, ?_⟩,
    ⟨⟨_, minimumEigenvalues_closed self c backend eigenvalues eigenvectors n v0
      (self.extra_steps + n) hmod (by omega) (by omega), ?_⟩, ?_⟩⟩
  · rw [max_krylov_log]
  · intro j hj
    unfold maximumEigenvalues.krylov
    rw [max_krylovAt_eq, max_krylovAt_eq]
    exact arnoldiAt_V_succ _ _ _ _ _ _ j hj
  · rw [min_krylov_log]
  · intro j hj
    unfold minimumEigenvalues.krylov
    rw [min_krylovAt_eq, min_krylovAt_eq]
    exact arnoldiAt_V_succ _ _ _ _ _ _ j hj

end Breakdown

section BreakdownExamples

theorem rat_sqrt_zero : Rat.sqrt 0 = 0 := by
  have h := Rat.sqrt_eq 0
  rw [mul_zero, abs_zero] at h
  exact h

theorem demo_identity_start_f :
    (maximumEigenvalues.krylovAt (Demo.collaborators Demo.identity1 Demo.identity1)
      EigevaluesMode.LargestReal Demo.e0 0).f = fun _ => 0 := by
  funext site
  have hs : site = 0 := Subsingleton.elim _ _
  subst hs
  simp [maximumEigenvalues.krylovAt, forLoop, maximumEigenvalues.start,
    maximumEigenvalues.apply, rotateVector, multiplyAdd, Demo.collaborators, Demo.identity1,
    Demo.e0, dot, setField, GaussRat.ext_iff]

/-- C10 at a concrete call: `n = 1`, `extra_steps = 1`, the swap operator on two
components. -/
theorem residual_norm_not_tested_witness :
    (1 ≤ 1 ∧ 1 + (Demo.solver 1).extra_steps < UINT_RANGE) ∧
    (((∃ r, maximumEigenvalues (Demo.solver 1) (Demo.collaborators Demo.swap2 Demo.swap2)
          Backend.EIGEN [] [] 1 EigevaluesMode.LargestReal Demo.e0 = some r ∧
        r.log = arnoldiTrace Event.multiplyAdd ((Demo.solver 1).extra_steps + 1 - 1) ++
          [Event.multiply, Event.differenceNorm]) ∧
      ∀ j, j < (Demo.solver 1).extra_steps + 1 - 1 →
        (maximumEigenvalues.krylov (Demo.collaborators Demo.swap2 Demo.swap2)
          EigevaluesMode.LargestReal Demo.e0 ((Demo.solver 1).extra_steps + 1)).V (j + 1) =
          fun site => (maximumEigenvalues.krylovAt (Demo.collaborators Demo.swap2 Demo.swap2)
              EigevaluesMode.LargestReal Demo.e0 j).f site /
            (Demo.collaborators Demo.swap2 Demo.swap2).sqrt (squaredNorm
              (maximumEigenvalues.krylovAt (Demo.collaborators Demo.swap2 Demo.swap2)
                EigevaluesMode.LargestReal Demo.e0 j).f)) ∧
    ((∃ r, minimumEigenvalues (Demo.solver 1) (Demo.collaborators Demo.swap2 Demo.swap2)
          Backend.EIGEN [] [] 1 Demo.e0 = some r ∧
        r.log = (minimumEigenvalues.prepare (Demo.solver 1)
            (Demo.collaborators Demo.swap2 Demo.swap2)).2 ++
          arnoldiTrace Event.solve ((Demo.solver 1).extra_steps + 1 - 1) ++
          [Event.multiply, Event.differenceNorm]) ∧
      ∀ j, j < (Demo.solver 1).extra_steps + 1 - 1 →
        (minimumEigenvalues.krylov (Demo.collaborators Demo.swap2 Demo.swap2)
          (minimumEigenvalues.prepare (Demo.solver 1)
            (Demo.collaborators Demo.swap2 Demo.swap2)).1
          (minimumEigenvalues.prepare (Demo.solver 1)
            (Demo.collaborators Demo.swap2 Demo.swap2)).2 Demo.e0
          ((Demo.solver 1).extra_steps + 1)).V (j + 1) =
          fun site => (minimumEigenvalues.krylovAt (Demo.collaborators Demo.swap2 Demo.swap2)
              (minimumEigenvalues.prepare (Demo.solver 1)
                (Demo.collaborators Demo.swap2 Demo.swap2)).1
              (minimumEigenvalues.prepare (Demo.solver 1)
                (Demo.collaborators Demo.swap2 Demo.swap2)).2 Demo.e0 j).f site /
            (Demo.collaborators Demo.swap2 Demo.swap2).sqrt (squaredNorm
              (minimumEigenvalues.krylovAt (Demo.collaborators Demo.swap2 Demo.swap2)
                (minimumEigenvalues.prepare (Demo.solver 1)
                  (Demo.collaborators Demo.swap2 Demo.swap2)).1
                (minimumEigenvalues.prepare (Demo.solver 1)
                  (Demo.collaborators Demo.swap2 Demo.swap2)).2 Demo.e0 j).f))) :=
  ⟨⟨by decide, by decide⟩,
    residual_norm_not_tested (Demo.solver 1) (Demo.collaborators Demo.swap2 Demo.swap2)
      Backend.EIGEN [] [] 1 EigevaluesMode.LargestReal Demo.e0 (by decide) (by decide)⟩

/-- C10 fails at a concrete call: for the identity operator on one component, `n = 2` and
`extra_steps = 0`, the residual norm `beta` of step `0` is zero, yet the call returns two
eigenvalues and its log shows the whole turn `0` of the loop after the squared norm. -/
theorem residual_norm_counterexample :
    (Demo.collaborators Demo.identity1 Demo.identity1).sqrt
      (squaredNorm (maximumEigenvalues.krylovAt
        (Demo.collaborators Demo.identity1 Demo.identity1)
        EigevaluesMode.LargestReal Demo.e0 0).f) = 0 ∧
    (maximumEigenvalues (Demo.solver 0) (Demo.collaborators Demo.identity1 Demo.identity1)
        Backend.EIGEN [] [] 2 EigevaluesMode.LargestReal Demo.e0).map
      (fun r => (r.eigenvalues.length, r.log)) =
        some (2, [Event.multiplyAdd, Event.dot, Event.squaredNorm, Event.multiplyAdd,
          Event.dot, Event.dot, Event.dot, Event.dot, Event.multiply,
          Event.differenceNorm]) := by
  constructor
  · rw [demo_identity_start_f]
    simp [Demo.collaborators, squaredNorm, GaussRat.ext_iff, rat_sqrt_zero]
  · rw [maximumEigenvalues_closed _ _ _ _ _ _ _ _ 2 (by decide) (by decide) (by decide),
      max_krylov_log]
    simp [Demo.solver, arnoldiTrace]

end BreakdownExamples

/-! ## Configuration of the solver object -/

section Configuration

variable {R : Type}

/-- C14: a freshly constructed `DiracEigenSolver` has precision `0.00001` and `extraSteps`
`250` (and no embedded solver): `getPrecision` and `getExtraSteps` return them before any
setter is called; over the rationals the precision is `1 / 100000`. -/
theorem constructed_defaults :
    (∀ (R : Type) [OfScientific R],
      (DiracEigenSolver.construct : DiracEigenSolver R).getPrecision = 0.00001 ∧
      (DiracEigenSolver.construct : DiracEigenSolver R).getExtraSteps = 250) ∧
    (DiracEigenSolver.construct : DiracEigenSolver ℚ).getPrecision = 1 / 100000 := by
  refine ⟨fun R _ => ⟨rfl, rfl⟩, ?_⟩
  show (0.00001 : ℚ) = 1 / 100000
  norm_num

/-- C15: `getPrecision` right after `setPrecision(p)` returns `p`, `getExtraSteps` right
after `setExtraSteps(k)` returns `k`, and setting the same value twice leaves the same
state as setting it once. -/
theorem setters_read_back (self : DiracEigenSolver R) (p : R) (k : Nat) :
    (self.setPrecision p).getPrecision = p ∧
    (self.setExtraSteps k).getExtraSteps = k ∧
    (self.setPrecision p).setPrecision p = self.setPrecision p ∧
    (self.setExtraSteps k).setExtraSteps k = self.setExtraSteps k :=
  ⟨rfl, rfl, rfl, rfl⟩

end Configuration

/-! ## The embedded linear solver -/

section EmbeddedSolver

variable {R K : Type} [Field K] [StarRing K] {d : Nat}

theorem mem_arnoldiTrace (ev e : Event) (k : Nat) (h : e ∈ arnoldiTrace ev k) :
    e = ev ∨ e = Event.dot ∨ e = Event.squaredNorm := by
  induction k with
  | zero =>
    simp [arnoldiTrace] at h
    rcases h with h | h
    · exact Or.inl h
    · exact Or.inr (Or.inl h)
  | succ k ih =>
    simp only [arnoldiTrace, List.mem_append, List.mem_replicate, List.mem_cons,
      List.mem_singleton, List.not_mem_nil, or_false] at h
    rcases h with ((h | h | h) | h) | h
    · exact ih h
    · exact Or.inr (Or.inr h)
    · exact Or.inl h
    · exact Or.inr (Or.inl h.2)
    · exact Or.inr (Or.inl h.2)

theorem prepare_fst (self : DiracEigenSolver R) (c : Collaborators R K d) :
    (minimumEigenvalues.prepare self c).1 =
      match self.biConjugateGradient with
      | none => { c.newBiCG with precision := self.epsilon }
      | some bicg => { bicg with precision := self.epsilon } := by
  unfold minimumEigenvalues.prepare
  cases self.biConjugateGradient <;> rfl

theorem prepare_snd (self : DiracEigenSolver R) (c : Collaborators R K d) :
    (minimumEigenvalues.prepare self c).2 =
      (match self.biConjugateGradient with
        | none => [Event.newBiConjugateGradient]
        | some _ => []) ++ [Event.setPrecision] := by
  unfold minimumEigenvalues.prepare
  cases self.biConjugateGradient <;> rfl

theorem count_new_arnoldiTrace (ev : Event) (hev : ev ≠ Event.newBiConjugateGradient)
    (k : Nat) : (arnoldiTrace ev k).count Event.newBiConjugateGradient = 0 := by
  rw [List.count_eq_zero]
  intro h
  rcases mem_arnoldiTrace _ _ _ h with h | h | h
  · exact hev h.symm
  · cases h
  · cases h

/-- What a `maximumEigenvalues` call leaves in the object and in the log. -/
theorem maximumEigenvalues_self_log (self : DiracEigenSolver R) (c : Collaborators R K d)
    (backend : Backend) (eigenvalues : List K) (eigenvectors : List (Fin d → K)) (n : Nat)
    (mode : EigevaluesMode) (v0 : Fin d → K) (hpos : 1 ≤ self.extra_steps + n)
    (hov : self.extra_steps + n < UINT_RANGE) :
    ∃ r, maximumEigenvalues self c backend eigenvalues eigenvectors n mode v0 = some r ∧
      r.self = self ∧
      r.log = arnoldiTrace Event.multiplyAdd (self.extra_steps + n - 1) ++
        [Event.multiply, Event.differenceNorm] := by
  have hmod : (self.extra_steps + n) % UINT_RANGE = self.extra_steps + n :=
    Nat.mod_eq_of_lt hov
  refine ⟨_, maximumEigenvalues_closed self c backend eigenvalues eigenvectors n mode v0
    (self.extra_steps + n) hmod (by omega) (by omega), rfl, ?_⟩
  rw [max_krylov_log]

/-- What a `minimumEigenvalues` call leaves in the object and in the log. -/
theorem minimumEigenvalues_self_log (self : DiracEigenSolver R) (c : Collaborators R K d)
    (backend : Backend) (eigenvalues : List K) (eigenvectors : List (Fin d → K)) (n : Nat)
    (v0 : Fin d → K) (hpos : 1 ≤ self.extra_steps + n)
    (hov : self.extra_steps + n < UINT_RANGE) :
    ∃ r, minimumEigenvalues self c backend eigenvalues eigenvectors n v0 = some r ∧
      r.self = { self with biConjugateGradient := some (minimumEigenvalues.prepare self c).1 } ∧
      r.log = (minimumEigenvalues.prepare self c).2 ++
        arnoldiTrace Event.solve (self.extra_steps + n - 1) ++
        [Event.multiply, Event.differenceNorm] := by
  have hmod : (self.extra_steps + n) % UINT_RANGE = self.extra_steps + n :=
    Nat.mod_eq_of_lt hov
  refine ⟨_, minimumEigenvalues_closed self c backend eigenvalues eigenvectors n v0
    (self.extra_steps + n) hmod (by omega) (by omega), rfl, ?_⟩
  rw [min_krylov_log]

theorem head_arnoldiTrace (ev : Event) (k : Nat) : (arnoldiTrace ev k).head? = some ev := by
  induction k with
  | zero => rfl
  | succ k ih =>
    have h : arnoldiTrace ev (k + 1) = arnoldiTrace ev k ++ ([Event.squaredNorm, ev] ++
        List.replicate (k + 2) Event.dot ++ List.replicate (k + 2) Event.dot) := by
      simp [arnoldiTrace, List.append_assoc]
    rw [h, List.head?_append_of_ne_nil]
    · exact ih
    · intro h0
      rw [h0] at ih
      cases ih

/-- C13: the embedded linear solver is absent after construction; a `minimumEigenvalues`
call creates it only when it is absent (one creation event, none when it exists: the
existing instance is kept), sets its precision to the current `epsilon` before the first
solve, and leaves it in the object; `maximumEigenvalues` leaves the object as it is and
logs neither a creation nor a `setPrecision`. -/
theorem embedded_solver_lifecycle [OfScientific R] (self : DiracEigenSolver R)
    (c : Collaborators R K d) (backend : Backend) (eigenvalues : List K)
    (eigenvectors : List (Fin d → K)) (n : Nat) (mode : EigevaluesMode) (v0 : Fin d → K)
    (hpos : 1 ≤ self.extra_steps + n) (hov : self.extra_steps + n < UINT_RANGE) :
    (DiracEigenSolver.construct : DiracEigenSolver R).biConjugateGradient = none ∧
    (∃ r, minimumEigenvalues self c backend eigenvalues eigenvectors n v0 = some r ∧
      (self.biConjugateGradient = none →
        r.self.biConjugateGradient = some { c.newBiCG with precision := self.epsilon } ∧
        r.log.count Event.newBiConjugateGradient = 1) ∧
      (∀ bicg, self.biConjugateGradient = some bicg →
        r.self.biConjugateGradient = some { bicg with precision := self.epsilon } ∧
        r.log.count Event.newBiConjugateGradient = 0) ∧
      r.self.biConjugateGradient = some (minimumEigenvalues.prepare self c).1 ∧
      (minimumEigenvalues.prepare self c).1.precision = self.epsilon ∧
      r.log = (match self.biConjugateGradient with
          | none => [Event.newBiConjugateGradient]
          | some _ => []) ++ [Event.setPrecision] ++
        arnoldiTrace Event.solve (self.extra_steps + n - 1) ++
        [Event.multiply, Event.differenceNorm] ∧
      (arnoldiTrace Event.solve (self.extra_steps + n - 1)).head? = some Event.solve ∧
      ∃ r2, minimumEigenvalues r.self c backend eigenvalues eigenvectors n v0 = some r2 ∧
        r2.log.count Event.newBiConjugateGradient = 0 ∧
        r2.self.biConjugateGradient = r.self.biConjugateGradient) ∧
    (∃ r, maximumEigenvalues self c backend eigenvalues eigenvectors n mode v0 = some r ∧
      r.self = self ∧ Event.newBiConjugateGradient ∉ r.log ∧ Event.setPrecision ∉ r.log) := by
  have hcount : ∀ (s : DiracEigenSolver R) (k : Nat),
      ((minimumEigenvalues.prepare s c).2 ++ arnoldiTrace Event.solve k ++
        [Event.multiply, Event.differenceNorm]).count Event.newBiConjugateGradient =
      match s.biConjugateGradient with
      | none => 1
      | some _ => 0 := by
    intro s k
    rw [List.count_append, List.count_append, count_new_arnoldiTrace _ (by decide),
      prepare_snd]
    cases s.biConjugateGradient <;> simp
  obtain ⟨r, hr, hself, hlog⟩ := minimumEigenvalues_self_log self c backend eigenvalues
    eigenvectors n v0 hpos hov
  obtain ⟨rm, hrm, hmself, hmlog⟩ := maximumEigenvalues_self_log self c backend eigenvalues
    eigenvectors n mode v0 hpos hov
  have hes : r.self.extra_steps = self.extra_steps := by rw [hself]
  obtain ⟨r2, hr2, hself2, hlog2⟩ := minimumEigenvalues_self_log r.self c backend eigenvalues
    eigenvectors n v0 (by rw [hes]; exact hpos) (by rw [hes]; exact hov)
  have hb : r.self.biConjugateGradient = some (minimumEigenvalues.prepare self c).1 := by
    rw [hself]
  refine ⟨rfl, ⟨r, hr, ?_, ?_, hb, ?_, ?_, head_arnoldiTrace _ _, r2, hr2, ?_, ?_⟩,
    ⟨rm, hrm, hmself, ?_, ?_⟩⟩
  · intro hnone
    refine ⟨?_, ?_⟩
    · rw [hb, prepare_fst, hnone]
    · rw [hlog, hcount, hnone]
  · intro bicg hsome
    refine ⟨?_, ?_⟩
    · rw [hb, prepare_fst, hsome]
    · rw [hlog, hcount, hsome]
  · rw [prepare_fst]
    cases self.biConjugateGradient <;> rfl
  · rw [hlog, prepare_snd]
  · rw [hlog2, hcount, hb]
  · rw [hself2, hb]
    show some (minimumEigenvalues.prepare r.self c).1 = _
    rw [prepare_fst, hb, prepare_fst, hself]
    cases self.biConjugateGradient <;> rfl
  · rw [hmlog]
    intro h
    rcases List.mem_append.mp h with h | h
    · rcases mem_arnoldiTrace _ _ _ h with h | h | h <;> cases h
    · simp at h
  · rw [hmlog]
    intro h
    rcases List.mem_append.mp h with h | h
    · rcases mem_arnoldiTrace _ _ _ h with h | h | h <;> cases h
    · simp at h

end EmbeddedSolver

section EmbeddedSolverExample

/-- C13 at a concrete object: the solver as constructed with `extra_steps = 1`, `n = 1`,
the swap operator on two components.  The first `minimumEigenvalues` call creates the
embedded solver once and gives it the precision `1/100000`; a second call creates
nothing. -/
theorem embedded_solver_lifecycle_witness :
    (1 ≤ (Demo.solver 1).extra_steps + 1 ∧ (Demo.solver 1).extra_steps + 1 < UINT_RANGE) ∧
    (DiracEigenSolver.construct : DiracEigenSolver ℚ).biConjugateGradient = none ∧
    (∃ r, minimumEigenvalues (Demo.solver 1) (Demo.collaborators Demo.swap2 Demo.swap2)
        Backend.EIGEN [] [] 1 Demo.e0 = some r ∧
      r.self.biConjugateGradient = some { precision := 1 / 100000 } ∧
      r.log.count Event.newBiConjugateGradient = 1 ∧
      ∃ r2, minimumEigenvalues r.self (Demo.collaborators Demo.swap2 Demo.swap2)
          Backend.EIGEN [] [] 1 Demo.e0 = some r2 ∧
        r2.log.count Event.newBiConjugateGradient = 0 ∧
        r2.self.biConjugateGradient = r.self.biConjugateGradient) ∧
    (∃ r, maximumEigenvalues (Demo.solver 1) (Demo.collaborators Demo.swap2 Demo.swap2)
        Backend.EIGEN [] [] 1 EigevaluesMode.LargestReal Demo.e0 = some r ∧
      r.self = Demo.solver 1) := by
  obtain ⟨h0, ⟨r, hr, h1, _, _, _, _, _, r2, hr2, h2, h3⟩, ⟨rm, hrm, h4, _, _⟩⟩ :=
    embedded_solver_lifecycle (Demo.solver 1) (Demo.collaborators Demo.swap2 Demo.swap2)
      Backend.EIGEN [] [] 1 EigevaluesMode.LargestReal Demo.e0 (by decide) (by decide)
  exact ⟨⟨by decide, by decide⟩, h0, ⟨r, hr, (h1 rfl).1, (h1 rfl).2, r2, hr2, h2, h3⟩,
    ⟨rm, hrm, h4⟩⟩

end EmbeddedSolverExample

/-! ## Length of the returned sequences -/

section ReturnedLength

variable {R K : Type} [Field K] [StarRing K] {d : Nat}

theorem storeEigenvalues_max_length (c : Collaborators R K d) (backend : Backend)
    (mode : EigevaluesMode) (steps : Nat) (ritz : Nat → K) (eigenvalues : List K) :
    (maximumEigenvalues.storeEigenvalues c backend mode steps ritz eigenvalues).length =
      steps := by
  rw [storeEigenvalues_max_eq_map]
  simp

theorem reconstruct_length (steps : Nat) (eigvec : Nat → Nat → K) (V : Nat → Fin d → K)
    (eigenvectors : List (Fin d → K)) :
    (reconstruct steps eigvec V eigenvectors).length = steps := by
  rw [reconstruct_eq_map]
  simp

/-- C16, amended: for `n ≥ 1` and `steps = n + extra_steps` below `2^32`,
`maximumEigenvalues` computes `steps` eigenvalues and `steps` eigenvectors and returns the
first `n` of each after the reversal: both returned sequences have length
`n = steps - extra_steps`, which is `steps` exactly when `extra_steps = 0`. -/
theorem maximum_returned_length (self : DiracEigenSolver R) (c : Collaborators R K d)
    (backend : Backend) (eigenvalues : List K) (eigenvectors : List (Fin d → K)) (n : Nat)
    (mode : EigevaluesMode) (v0 : Fin d → K) (hn : 1 ≤ n)
    (hov : n + self.extra_steps < UINT_RANGE) :
    (maximumEigenvalues.storeEigenvalues c backend mode (self.extra_steps + n)
      (maximumEigenvalues.dense c backend (self.extra_steps + n)
        (maximumEigenvalues.krylov c mode v0 (self.extra_steps + n)).H).eigenvalues
      eigenvalues).length = self.extra_steps + n ∧
    (reconstruct (self.extra_steps + n)
      (maximumEigenvalues.dense c backend (self.extra_steps + n)
        (maximumEigenvalues.krylov c mode v0 (self.extra_steps + n)).H).eigenvectors
      (maximumEigenvalues.krylov c mode v0 (self.extra_steps + n)).V
      eigenvectors).length = self.extra_steps + n ∧
    ∃ r, maximumEigenvalues self c backend eigenvalues eigenvectors n mode v0 = some r ∧
      r.eigenvalues.length = self.extra_steps + n - self.extra_steps ∧
      r.eigenvectors.length = self.extra_steps + n - self.extra_steps ∧
      (r.eigenvalues.length = self.extra_steps + n ↔ self.extra_steps = 0) ∧
      (r.eigenvectors.length = self.extra_steps + n ↔ self.extra_steps = 0) := by
  have hmod : (self.extra_steps + n) % UINT_RANGE = self.extra_steps + n :=
    Nat.mod_eq_of_lt (by omega)
  refine ⟨storeEigenvalues_max_length _ _ _ _ _ _, reconstruct_length _ _ _ _,
    _, maximumEigenvalues_closed self c backend eigenvalues eigenvectors n mode v0
      (self.extra_steps + n) hmod (by omega) (by omega), ?_, ?_, ?_, ?_⟩
  · exact length_take_reverse_map _ _ _ (by omega)
  · exact length_take_reverse_map _ _ _ (by omega)
  · show ((((List.range _).map _).reverse).take _).length = _ ↔ _
    rw [length_take_reverse_map _ _ _ (by omega)]
    omega
  · show ((((List.range _).map _).reverse).take _).length = _ ↔ _
    rw [length_take_reverse_map _ _ _ (by omega)]
    omega

/-- C16, amended, at a concrete call: `n = 1`, `extra_steps = 250`. -/
theorem maximum_returned_length_witness :
    (1 ≤ 1 ∧ 1 + (Demo.solver 250).extra_steps < UINT_RANGE) ∧
    ∃ r, maximumEigenvalues (Demo.solver 250) (Demo.collaborators Demo.swap2 Demo.swap2)
        Backend.EIGEN [] [] 1 EigevaluesMode.LargestReal Demo.e0 = some r ∧
      r.eigenvalues.length = 1 ∧ r.eigenvectors.length = 1 := by
  obtain ⟨_, _, r, hr, h1, h2, _, _⟩ := maximum_returned_length (Demo.solver 250)
    (Demo.collaborators Demo.swap2 Demo.swap2) Backend.EIGEN [] [] 1
    EigevaluesMode.LargestReal Demo.e0 (by decide) (by decide)
  exact ⟨⟨by decide, by decide⟩, r, hr, h1, h2⟩

/-- C16 fails at a concrete call: with `n = 1` and `extra_steps = 1` (`steps = 2`) the call
returns one eigenvalue and one eigenvector, not two. -/
theorem maximum_returned_length_counterexample :
    (maximumEigenvalues (Demo.solver 1) (Demo.collaborators Demo.swap2 Demo.swap2)
        Backend.EIGEN [] [] 1 EigevaluesMode.LargestReal Demo.e0).map
      (fun r => (r.eigenvalues.length, r.eigenvectors.length)) = some (1, 1) ∧
    (Demo.solver 1).extra_steps + 1 = 2 := by
  constructor
  · rw [maximumEigenvalues_closed _ _ _ _ _ _ _ _ 2 (by decide) (by decide) (by decide)]
    simp [Demo.solver]
  · rfl

end ReturnedLength

/-! ## Control flow -/

section ControlFlow

variable {R K : Type} [Field K] [StarRing K] {d : Nat}

theorem filter_prepare_log (self : DiracEigenSolver R) (c : Collaborators R K d) :
    (minimumEigenvalues.prepare self c).2.filter Event.isCollective = [] := by
  rw [prepare_snd]
  cases self.biConjugateGradient <;> rfl

/-- C17: for two runs with the same `n` and the same `extra_steps` (whatever the operators,
the other collaborators, the back ends, the modes, the start vectors, the entry contents
of the outputs and the rest of the two solver objects), the sequences of operator
applications, solves and collective reductions are equal, for `maximumEigenvalues` and for
`minimumEigenvalues`; the basis construction holds exactly `steps` operator applications,
respectively solves. -/
theorem control_flow_depends_on_counts (self1 self2 : DiracEigenSolver R)
    (c1 c2 : Collaborators R K d) (backend1 backend2 : Backend)
    (eigenvalues1 eigenvalues2 : List K) (eigenvectors1 eigenvectors2 : List (Fin d → K))
    (n : Nat) (mode1 mode2 : EigevaluesMode) (v1 v2 : Fin d → K)
    (hextra : self1.extra_steps = self2.extra_steps) (hpos : 1 ≤ self1.extra_steps + n)
    (hov : self1.extra_steps + n < UINT_RANGE) :
    (∃ r1 r2,
      maximumEigenvalues self1 c1 backend1 eigenvalues1 eigenvectors1 n mode1 v1 = some r1 ∧
      maximumEigenvalues self2 c2 backend2 eigenvalues2 eigenvectors2 n mode2 v2 = some r2 ∧
      r1.log.filter Event.isCollective = r2.log.filter Event.isCollective ∧
      (maximumEigenvalues.krylov c1 mode1 v1 (self1.extra_steps + n)).log.count
        Event.multiplyAdd = self1.extra_steps + n) ∧
    (∃ r1 r2,
      minimumEigenvalues self1 c1 backend1 eigenvalues1 eigenvectors1 n v1 = some r1 ∧
      minimumEigenvalues self2 c2 backend2 eigenvalues2 eigenvectors2 n v2 = some r2 ∧
      r1.log.filter Event.isCollective = r2.log.filter Event.isCollective ∧
      (minimumEigenvalues.krylov c1 (minimumEigenvalues.prepare self1 c1).1
        (minimumEigenvalues.prepare self1 c1).2 v1 (self1.extra_steps + n)).log.count
        Event.solve = self1.extra_steps + n) := by
  constructor
  · obtain ⟨r1, h1, _, hl1⟩ := maximumEigenvalues_self_log self1 c1 backend1 eigenvalues1
      eigenvectors1 n mode1 v1 hpos hov
    obtain ⟨r2, h2, _, hl2⟩ := maximumEigenvalues_self_log self2 c2 backend2 eigenvalues2
      eigenvectors2 n mode2 v2 (by rw [← hextra]; exact hpos) (by rw [← hextra]; exact hov)
    refine ⟨r1, r2, h1, h2, ?_, ?_⟩
    · rw [hl1, hl2, hextra]
    · rw [max_krylov_log, count_multiplyAdd_arnoldiTrace]
      omega
  · obtain ⟨r1, h1, _, hl1⟩ := minimumEigenvalues_self_log self1 c1 backend1 eigenvalues1
      eigenvectors1 n v1 hpos hov
    obtain ⟨r2, h2, _, hl2⟩ := minimumEigenvalues_self_log self2 c2 backend2 eigenvalues2
      eigenvectors2 n v2 (by rw [← hextra]; exact hpos) (by rw [← hextra]; exact hov)
    refine ⟨r1, r2, h1, h2, ?_, ?_⟩
    · rw [hl1, hl2, hextra]
      simp only [List.filter_append, filter_prepare_log]
    · rw [min_krylov_log, List.count_append, count_solve_arnoldiTrace,
        prepare_log_count_solve]
      omega

/-- C17 at two concrete runs with `n = 1` and `extra_steps = 1`: the swap operator from
`(1, 0)` in mode `LargestReal` with a fresh solver object, against `diag(1, 2)` from
`(3/5, 4/5)` in mode `SmallestImaginary` with a solver object that already holds an embedded
solver. -/
theorem control_flow_depends_on_counts_witness :
    ((Demo.solver 1).extra_steps =
        ({ Demo.solver 1 with biConjugateGradient := some { precision := 1 } } :
          DiracEigenSolver ℚ).extra_steps ∧
      1 ≤ (Demo.solver 1).extra_steps + 1 ∧ (Demo.solver 1).extra_steps + 1 < UINT_RANGE) ∧
    (∃ r1 r2,
      maximumEigenvalues (Demo.solver 1) (Demo.collaborators Demo.swap2 Demo.swap2)
        Backend.EIGEN [] [] 1 EigevaluesMode.LargestReal Demo.e0 = some r1 ∧
      maximumEigenvalues { Demo.solver 1 with biConjugateGradient := some { precision := 1 } }
        Demo.descendingCollaborators Backend.ARMADILLO [1] [] 1
        EigevaluesMode.SmallestImaginary Demo.v345 = some r2 ∧
      r1.log.filter Event.isCollective = r2.log.filter Event.isCollective) ∧
    (∃ r1 r2,
      minimumEigenvalues (Demo.solver 1) (Demo.collaborators Demo.swap2 Demo.swap2)
        Backend.EIGEN [] [] 1 Demo.e0 = some r1 ∧
      minimumEigenvalues { Demo.solver 1 with biConjugateGradient := some { precision := 1 } }
        Demo.descendingCollaborators Backend.ARMADILLO [1] [] 1 Demo.v345 = some r2 ∧
      r1.log.filter Event.isCollective = r2.log.filter Event.isCollective) := by
  obtain ⟨⟨r1, r2, h1, h2, h3, _⟩, ⟨r3, r4, h4, h5, h6, _⟩⟩ :=
    control_flow_depends_on_counts (Demo.solver 1)
      { Demo.solver 1 with biConjugateGradient := some { precision := 1 } }
      (Demo.collaborators Demo.swap2 Demo.swap2) Demo.descendingCollaborators
      Backend.EIGEN Backend.ARMADILLO [] [1] [] [] 1 EigevaluesMode.LargestReal
      EigevaluesMode.SmallestImaginary Demo.e0 Demo.v345 rfl (by decide) (by decide)
  exact ⟨⟨rfl, by decide, by decide⟩, ⟨r1, r2, h1, h2, h3⟩, ⟨r3, r4, h4, h5, h6⟩⟩

end ControlFlow

/-! ## One Krylov construction for both solvers -/

section SameConstruction

variable {R K : Type} [Field K] [StarRing K] {d : Nat}

theorem gramSchmidt_loop_congr (j m : Nat) (s s' : Arnoldi K d)
    (h : s.V = s'.V ∧ s.H = s'.H ∧ s.w = s'.w ∧ s.f = s'.f) :
    (forLoop m (arnoldiGramSchmidt j) s).V = (forLoop m (arnoldiGramSchmidt j) s').V ∧
    (forLoop m (arnoldiGramSchmidt j) s).H = (forLoop m (arnoldiGramSchmidt j) s').H ∧
    (forLoop m (arnoldiGramSchmidt j) s).w = (forLoop m (arnoldiGramSchmidt j) s').w ∧
    (forLoop m (arnoldiGramSchmidt j) s).f = (forLoop m (arnoldiGramSchmidt j) s').f := by
  induction m with
  | zero => exact h
  | succ m ih =>
    obtain ⟨hV, hH, hw, hf⟩ := ih
    rw [forLoop_succ, forLoop_succ]
    simp only [arnoldiGramSchmidt, hV, hH, hw, hf]
    exact ⟨trivial, trivial, trivial, trivial⟩

theorem moreStable_loop_congr (j m : Nat) (s s' : Arnoldi K d)
    (h : s.V = s'.V ∧ s.H = s'.H ∧ s.w = s'.w ∧ s.f = s'.f) :
    (forLoop m (arnoldiMoreStable j) s).V = (forLoop m (arnoldiMoreStable j) s').V ∧
    (forLoop m (arnoldiMoreStable j) s).H = (forLoop m (arnoldiMoreStable j) s').H ∧
    (forLoop m (arnoldiMoreStable j) s).w = (forLoop m (arnoldiMoreStable j) s').w ∧
    (forLoop m (arnoldiMoreStable j) s).f = (forLoop m (arnoldiMoreStable j) s').f := by
  induction m with
  | zero => exact h
  | succ m ih =>
    obtain ⟨hV, hH, hw, hf⟩ := ih
    rw [forLoop_succ, forLoop_succ]
    simp only [arnoldiMoreStable, hV, hH, hw, hf]
    exact ⟨trivial, trivial, trivial, trivial⟩

/-- The basis, the projected matrix and the two work vectors of the abstract Arnoldi process
depend on the square root, the operator and the start vector only, not on the log. -/
theorem arnoldiAt_congr (sqrt sqrt' : K → K) (op op' : (Fin d → K) → (Fin d → K))
    (ev ev' : Event) (log0 log0' : List Event) (v0 : Fin d → K)
    (hsqrt : ∀ x, sqrt x = sqrt' x) (hop : ∀ v, op v = op' v) (k : Nat) :
    (arnoldiAt sqrt op ev log0 v0 k).V = (arnoldiAt sqrt' op' ev' log0' v0 k).V ∧
    (arnoldiAt sqrt op ev log0 v0 k).H = (arnoldiAt sqrt' op' ev' log0' v0 k).H ∧
    (arnoldiAt sqrt op ev log0 v0 k).w = (arnoldiAt sqrt' op' ev' log0' v0 k).w ∧
    (arnoldiAt sqrt op ev log0 v0 k).f = (arnoldiAt sqrt' op' ev' log0' v0 k).f := by
  have hs : sqrt = sqrt' := funext hsqrt
  have ho : op = op' := funext hop
  subst hs
  subst ho
  induction k with
  | zero => exact ⟨rfl, rfl, rfl, rfl⟩
  | succ k ih =>
    obtain ⟨hV, hH, hw, hf⟩ := ih
    rw [arnoldiAt_succ, arnoldiAt_succ]
    unfold arnoldiIterate
    apply moreStable_loop_congr
    apply gramSchmidt_loop_congr
    simp only [hV, hH, hf]
    exact ⟨trivial, trivial, trivial, trivial⟩

theorem apply_eq_rotate_shift (c : Collaborators R K d) (mode : EigevaluesMode)
    (v : Fin d → K) :
    maximumEigenvalues.apply c mode v =
      fun site => c.multiply (fun s => EigevaluesMap c.I mode * v s) site + 5 * v site := by
  unfold maximumEigenvalues.apply rotateVector multiplyAdd
  cases mode
  · simp [EigevaluesMap]
  · rfl
  · rfl
  · rfl

/-- C19: the Krylov constructions of `maximumEigenvalues` and `minimumEigenvalues` are one
function of the operator application: when the application of the one
(`v ↦ A(modeMap * v) + 5 * v`) and the application of the other (`v ↦ solve(A, v)`, no
rotation, no shift) agree, and the square roots agree, both build the same `V`, the same
`H` and the same work vectors from the same start vector, after every number of turns. -/
theorem krylov_constructions_agree (c c' : Collaborators R K d) (mode : EigevaluesMode)
    (bicg : BiConjugateGradient R) (log0 : List Event) (v0 : Fin d → K)
    (hsqrt : ∀ x, c.sqrt x = c'.sqrt x)
    (hop : ∀ v, (fun site => c.multiply (fun s => EigevaluesMap c.I mode * v s) site +
      5 * v site) = c'.solve bicg v) :
    (∀ v, maximumEigenvalues.apply c mode v =
      fun site => c.multiply (fun s => EigevaluesMap c.I mode * v s) site + 5 * v site) ∧
    (∀ k,
      (maximumEigenvalues.krylovAt c mode v0 k).V =
        (minimumEigenvalues.krylovAt c' bicg log0 v0 k).V ∧
      (maximumEigenvalues.krylovAt c mode v0 k).H =
        (minimumEigenvalues.krylovAt c' bicg log0 v0 k).H ∧
      (maximumEigenvalues.krylovAt c mode v0 k).w =
        (minimumEigenvalues.krylovAt c' bicg log0 v0 k).w ∧
      (maximumEigenvalues.krylovAt c mode v0 k).f =
        (minimumEigenvalues.krylovAt c' bicg log0 v0 k).f) ∧
    (∀ steps,
      (maximumEigenvalues.krylov c mode v0 steps).V =
        (minimumEigenvalues.krylov c' bicg log0 v0 steps).V ∧
      (maximumEigenvalues.krylov c mode v0 steps).H =
        (minimumEigenvalues.krylov c' bicg log0 v0 steps).H) := by
  have hk : ∀ k,
      (maximumEigenvalues.krylovAt c mode v0 k).V =
        (minimumEigenvalues.krylovAt c' bicg log0 v0 k).V ∧
      (maximumEigenvalues.krylovAt c mode v0 k).H =
        (minimumEigenvalues.krylovAt c' bicg log0 v0 k).H ∧
      (maximumEigenvalues.krylovAt c mode v0 k).w =
        (minimumEigenvalues.krylovAt c' bicg log0 v0 k).w ∧
      (maximumEigenvalues.krylovAt c mode v0 k).f =
        (minimumEigenvalues.krylovAt c' bicg log0 v0 k).f := by
    intro k
    rw [max_krylovAt_eq, min_krylovAt_eq]
    exact arnoldiAt_congr _ _ _ _ _ _ _ _ v0 hsqrt
      (fun v => (apply_eq_rotate_shift c mode v).trans (hop v)) k
  exact ⟨apply_eq_rotate_shift c mode, hk, fun steps => ⟨(hk (steps - 1)).1, (hk (steps - 1)).2.1⟩⟩

end SameConstruction

section SameConstructionExample

/-- C19 at concrete collaborators: the swap operator in mode `LargestReal` for
`maximumEigenvalues`, and for `minimumEigenvalues` a solver whose solution is
`swap2 v + 5 v`; after `steps = 3` both hold the same `V` and the same `H`. -/
theorem krylov_constructions_agree_witness :
    ((∀ x, (Demo.collaborators Demo.swap2 Demo.swap2).sqrt x =
        (Demo.collaborators Demo.swap2 Demo.shiftedSwap2).sqrt x) ∧
      ∀ v, (fun site => (Demo.collaborators Demo.swap2 Demo.swap2).multiply
          (fun s => EigevaluesMap (Demo.collaborators Demo.swap2 Demo.swap2).I
            EigevaluesMode.LargestReal * v s) site + 5 * v site) =
        (Demo.collaborators Demo.swap2 Demo.shiftedSwap2).solve { precision := 0 } v) ∧
    (maximumEigenvalues.krylov (Demo.collaborators Demo.swap2 Demo.swap2)
        EigevaluesMode.LargestReal Demo.e0 3).V =
      (minimumEigenvalues.krylov (Demo.collaborators Demo.swap2 Demo.shiftedSwap2)
        { precision := 0 } [Event.setPrecision] Demo.e0 3).V ∧
    (maximumEigenvalues.krylov (Demo.collaborators Demo.swap2 Demo.swap2)
        EigevaluesMode.LargestReal Demo.e0 3).H =
      (minimumEigenvalues.krylov (Demo.collaborators Demo.swap2 Demo.shiftedSwap2)
        { precision := 0 } [Event.setPrecision] Demo.e0 3).H := by
  have hop : ∀ v, (fun site => (Demo.collaborators Demo.swap2 Demo.swap2).multiply
      (fun s => EigevaluesMap (Demo.collaborators Demo.swap2 Demo.swap2).I
        EigevaluesMode.LargestReal * v s) site + 5 * v site) =
      (Demo.collaborators Demo.swap2 Demo.shiftedSwap2).solve { precision := 0 } v := by
    intro v
    funext site
    simp [Demo.collaborators, Demo.shiftedSwap2, Demo.swap2, EigevaluesMap]
  have h := (krylov_constructions_agree (Demo.collaborators Demo.swap2 Demo.swap2)
    (Demo.collaborators Demo.swap2 Demo.shiftedSwap2) EigevaluesMode.LargestReal
    { precision := 0 } [Event.setPrecision] Demo.e0 (fun _ => rfl) hop).2.2 3
  exact ⟨⟨fun _ => rfl, hop⟩, h.1, h.2⟩

end SameConstructionExample

/-! ## The convergence check -/

section ConvergenceCheck

variable {R K : Type} [Field K] [StarRing K] {d : Nat}

/-- Removing the convergence check from `maximumEigenvalues` leaves the two returned
sequences as they are, for every input. -/
theorem maximumEigenvalues_sequences (self : DiracEigenSolver R) (c : Collaborators R K d)
    (backend : Backend) (eigenvalues : List K) (eigenvectors : List (Fin d → K)) (n : Nat)
    (mode : EigevaluesMode) (v0 : Fin d → K) :
    (maximumEigenvalues self c backend eigenvalues eigenvectors n mode v0).map
        (fun r => (r.eigenvalues, r.eigenvectors)) =
      maximumEigenvalues.withoutCheck self c backend eigenvalues eigenvectors n mode v0 := by
  unfold maximumEigenvalues maximumEigenvalues.withoutCheck
  by_cases h0 : (self.extra_steps + n) % UINT_RANGE = 0
  · simp only [h0, if_true, Option.map_none']
  · simp only [h0, if_false]
    split <;> rfl

/-- C12: for `n ≥ 1` and `steps` below `2^32`, the value `maximumEigenvalues` reports is the
norm of `A x - lambda x`, with `A` the operator itself (`multiply`, no rotation, no shift)
and `(lambda, x)` the pair returned at index `0`; and the check is diagnostic only: the
two returned sequences are those of the method without the check. -/
theorem convergence_check_diagnostic (self : DiracEigenSolver R) (c : Collaborators R K d)
    (backend : Backend) (eigenvalues : List K) (eigenvectors : List (Fin d → K)) (n : Nat)
    (mode : EigevaluesMode) (v0 : Fin d → K) (hn : 1 ≤ n)
    (hov : n + self.extra_steps < UINT_RANGE) :
    (∃ r lam x, maximumEigenvalues self c backend eigenvalues eigenvectors n mode v0 = some r ∧
      r.eigenvalues[0]? = some lam ∧ r.eigenvectors[0]? = some x ∧
      r.diffnorm = differenceNorm c.sqrt (c.multiply x) (fun site => lam * x site)) ∧
    (maximumEigenvalues self c backend eigenvalues eigenvectors n mode v0).map
        (fun r => (r.eigenvalues, r.eigenvectors)) =
      maximumEigenvalues.withoutCheck self c backend eigenvalues eigenvectors n mode v0 := by
  have hmod : (self.extra_steps + n) % UINT_RANGE = self.extra_steps + n :=
    Nat.mod_eq_of_lt (by omega)
  refine ⟨⟨_,
    maximumEigenvalues.stored c backend mode
      ((maximumEigenvalues.dense c backend (self.extra_steps + n)
        (maximumEigenvalues.krylov c mode v0 (self.extra_steps + n)).H).eigenvalues
          (self.extra_steps + n - 1)),
    ritzVector (self.extra_steps + n)
      (maximumEigenvalues.dense c backend (self.extra_steps + n)
        (maximumEigenvalues.krylov c mode v0 (self.extra_steps + n)).H).eigenvectors
      (maximumEigenvalues.krylov c mode v0 (self.extra_steps + n)).V
      (self.extra_steps + n - 1),
    maximumEigenvalues_closed self c backend eigenvalues eigenvectors n mode v0
      (self.extra_steps + n) hmod (by omega) (by omega), ?_, ?_, ?_⟩,
    maximumEigenvalues_sequences self c backend eigenvalues eigenvectors n mode v0⟩
  · exact getElem?_take_reverse_map _ _ _ 0 (by omega) (by omega)
  · exact getElem?_take_reverse_map _ _ _ 0 (by omega) (by omega)
  · rfl

end ConvergenceCheck

section ConvergenceCheckExample

/-- C12 at a concrete call: the swap operator on two components, `n = 1`,
`extra_steps = 1`. -/
theorem convergence_check_diagnostic_witness :
    (1 ≤ 1 ∧ 1 + (Demo.solver 1).extra_steps < UINT_RANGE) ∧
    (∃ r lam x, maximumEigenvalues (Demo.solver 1) Demo.swapCollaborators Backend.EIGEN [] []
        1 EigevaluesMode.LargestReal Demo.e0 = some r ∧
      r.eigenvalues[0]? = some lam ∧ r.eigenvectors[0]? = some x ∧
      r.diffnorm = differenceNorm Demo.swapCollaborators.sqrt
        (Demo.swapCollaborators.multiply x) (fun site => lam * x site)) ∧
    (maximumEigenvalues (Demo.solver 1) Demo.swapCollaborators Backend.EIGEN [] [] 1
        EigevaluesMode.LargestReal Demo.e0).map (fun r => (r.eigenvalues, r.eigenvectors)) =
      maximumEigenvalues.withoutCheck (Demo.solver 1) Demo.swapCollaborators Backend.EIGEN
        [] [] 1 EigevaluesMode.LargestReal Demo.e0 :=
  ⟨⟨by decide, by decide⟩,
    convergence_check_diagnostic (Demo.solver 1) Demo.swapCollaborators Backend.EIGEN [] [] 1
      EigevaluesMode.LargestReal Demo.e0 (by decide) (by decide)⟩

end ConvergenceCheckExample

/-! ## The residual and the two Gram-Schmidt passes -/

section Residual

variable {R K : Type} [Field K] [StarRing K] {d : Nat}

/-- The residual after `m` turns of the first Gram-Schmidt loop. -/
theorem gramSchmidt_loop_f (j m : Nat) (s : Arnoldi K d) (site : Fin d) :
    (forLoop m (arnoldiGramSchmidt j) s).f site =
      s.f site - ∑ i in Finset.range m, dot (s.V i) s.w * s.V i site := by
  induction m with
  | zero => simp [forLoop]
  | succ m ih =>
    rw [forLoop_succ]
    show (forLoop m (arnoldiGramSchmidt j) s).f site -
      dot ((forLoop m (arnoldiGramSchmidt j) s).V m) (forLoop m (arnoldiGramSchmidt j) s).w *
        (forLoop m (arnoldiGramSchmidt j) s).V m site = _
    rw [ih, gramSchmidt_loop_V, gramSchmidt_loop_w, Finset.sum_range_succ]
    ring

theorem sum_setEntry_add (H : Nat → Nat → K) (N m c : Nat) (p : K) (g : Nat → K)
    (hm : m < N) :
    ∑ i in Finset.range N, setEntry H m c (H m c + p) i c * g i =
      ∑ i in Finset.range N, H i c * g i + p * g m := by
  have h : ∀ i, setEntry H m c (H m c + p) i c * g i =
      H i c * g i + (if i = m then p * g m else 0) := by
    intro i
    unfold setEntry
    by_cases hi : i = m
    · subst hi
      simp
      ring
    · simp [hi]
  simp only [h]
  rw [Finset.sum_add_distrib, Finset.sum_ite_eq' (Finset.range N) m (fun _ => p * g m)]
  simp [hm]

/-- The second Gram-Schmidt loop moves what it subtracts from `f` into column `j+1` of
`H`. -/
theorem moreStable_loop_balance (j m : Nat) (hm : m ≤ j + 2) (s : Arnoldi K d)
    (site : Fin d) :
    (forLoop m (arnoldiMoreStable j) s).f site +
        ∑ i in Finset.range (j + 2),
          (forLoop m (arnoldiMoreStable j) s).H i (j + 1) * s.V i site =
      s.f site + ∑ i in Finset.range (j + 2), s.H i (j + 1) * s.V i site := by
  induction m with
  | zero => rfl
  | succ m ih =>
    rw [forLoop_succ]
    show ((forLoop m (arnoldiMoreStable j) s).f site -
      dot ((forLoop m (arnoldiMoreStable j) s).V m) (forLoop m (arnoldiMoreStable j) s).f *
        (forLoop m (arnoldiMoreStable j) s).V m site) +
      ∑ i in Finset.range (j + 2),
        setEntry (forLoop m (arnoldiMoreStable j) s).H m (j + 1)
          ((forLoop m (arnoldiMoreStable j) s).H m (j + 1) +
            dot ((forLoop m (arnoldiMoreStable j) s).V m)
              (forLoop m (arnoldiMoreStable j) s).f) i (j + 1) * s.V i site = _
    rw [sum_setEntry_add _ _ _ _ _ (fun i => s.V i site) (by omega), moreStable_loop_V,
      ← ih (by omega)]
    ring

/-- Entries of `H` after `m` turns of the second Gram-Schmidt loop. -/
theorem moreStable_loop_H (j m : Nat) (s : Arnoldi K d) (a b : Nat) :
    (forLoop m (arnoldiMoreStable j) s).H a b =
      if a < m ∧ b = j + 1 then
        s.H a b + dot (s.V a) (forLoop a (arnoldiMoreStable j) s).f
      else s.H a b := by
  induction m with
  | zero => simp [forLoop]
  | succ m ih =>
    rw [forLoop_succ]
    show setEntry (forLoop m (arnoldiMoreStable j) s).H m (j + 1)
      ((forLoop m (arnoldiMoreStable j) s).H m (j + 1) +
        dot ((forLoop m (arnoldiMoreStable j) s).V m) (forLoop m (arnoldiMoreStable j) s).f)
      a b = _
    rw [moreStable_loop_V]
    unfold setEntry
    by_cases h1 : a = m ∧ b = j + 1
    · obtain ⟨rfl, rfl⟩ := h1
      rw [if_pos ⟨rfl, rfl⟩, if_pos ⟨Nat.lt_succ_self _, rfl⟩, ih]
      simp
    · rw [if_neg h1, ih]
      by_cases h2 : a < m ∧ b = j + 1
      · have h3 : a < m + 1 ∧ b = j + 1 := ⟨by omega, h2.2⟩
        rw [if_pos h2, if_pos h3]
      · have h3 : ¬ (a < m + 1 ∧ b = j + 1) := by
          rintro ⟨h4, h5⟩
          rcases Nat.lt_succ_iff_lt_or_eq.mp h4 with h6 | h6
          · exact h2 ⟨h6, h5⟩
          · exact h1 ⟨h6, h5⟩
        rw [if_neg h2, if_neg h3]

/-- After both Gram-Schmidt loops of turn `j`, `w = f + Σ H(i,j+1) V[i]`, for every state
the turn starts from. -/
theorem arnoldiIterate_relation (sqrt : K → K) (op : (Fin d → K) → (Fin d → K))
    (ev : Event) (j : Nat) (s : Arnoldi K d) (site : Fin d) :
    (arnoldiIterate sqrt op ev j s).f site +
        ∑ i in Finset.range (j + 2),
          (arnoldiIterate sqrt op ev j s).H i (j + 1) *
            (arnoldiIterate sqrt op ev j s).V i site =
      (arnoldiIterate sqrt op ev j s).w site := by
  have hV : (arnoldiIterate sqrt op ev j s).V =
      setField s.V (j + 1) (fun site => s.f site / sqrt (squaredNorm s.f)) :=
    arnoldiIterate_V sqrt op ev j s
  have hw : (arnoldiIterate sqrt op ev j s).w =
      op (fun site => s.f site / sqrt (squaredNorm s.f)) := by
    unfold arnoldiIterate
    rw [moreStable_loop_w, gramSchmidt_loop_w]
  rw [hV, hw]
  unfold arnoldiIterate
  have h := moreStable_loop_balance j (j + 2) (le_refl _)
    (forLoop (j + 2) (arnoldiGramSchmidt j)
      { V := setField s.V (j + 1) (fun site => s.f site / sqrt (squaredNorm s.f))
        H := setEntry s.H (j + 1) j (sqrt (squaredNorm s.f))
        w := op (fun site => s.f site / sqrt (squaredNorm s.f))
        f := op (fun site => s.f site / sqrt (squaredNorm s.f))
        log := s.log ++ [Event.squaredNorm, ev] }) site
  rw [gramSchmidt_loop_V] at h
  rw [h, gramSchmidt_loop_f]
  have h2 : ∀ i, i ∈ Finset.range (j + 2) →
      (forLoop (j + 2) (arnoldiGramSchmidt j)
        { V := setField s.V (j + 1) (fun site => s.f site / sqrt (squaredNorm s.f))
          H := setEntry s.H (j + 1) j (sqrt (squaredNorm s.f))
          w := op (fun site => s.f site / sqrt (squaredNorm s.f))
          f := op (fun site => s.f site / sqrt (squaredNorm s.f))
          log := s.log ++ [Event.squaredNorm, ev] }).H i (j + 1) *
        setField s.V (j + 1) (fun site => s.f site / sqrt (squaredNorm s.f)) i site =
      dot (setField s.V (j + 1) (fun site => s.f site / sqrt (squaredNorm s.f)) i)
          (op (fun site => s.f site / sqrt (squaredNorm s.f))) *
        setField s.V (j + 1) (fun site => s.f site / sqrt (squaredNorm s.f)) i site := by
    intro i hi
    rw [gramSchmidt_loop_H, if_pos ⟨Finset.mem_range.mp hi, rfl⟩]
  rw [Finset.sum_congr rfl h2]
  ring

end Residual

section ResidualClaim

variable {R K : Type} [Field K] [StarRing K] {d : Nat}

theorem max_extend_eq (c : Collaborators R K d) (mode : EigevaluesMode) (j : Nat)
    (s : Arnoldi K d) :
    maximumEigenvalues.extend c mode j s =
      { V := setField s.V (j + 1) (fun site => s.f site / c.sqrt (squaredNorm s.f))
        H := setEntry s.H (j + 1) j (c.sqrt (squaredNorm s.f))
        w := maximumEigenvalues.apply c mode (fun site => s.f site / c.sqrt (squaredNorm s.f))
        f := maximumEigenvalues.apply c mode (fun site => s.f site / c.sqrt (squaredNorm s.f))
        log := s.log ++ [Event.squaredNorm, Event.multiplyAdd] } := by
  simp only [maximumEigenvalues.extend, setField_same]

theorem max_secondPassAt_eq (c : Collaborators R K d) (mode : EigevaluesMode) (j i : Nat)
    (s : Arnoldi K d) :
    maximumEigenvalues.secondPassAt c mode j i s =
      forLoop i (arnoldiMoreStable j) (forLoop (j + 2) (arnoldiGramSchmidt j)
        (maximumEigenvalues.extend c mode j s)) := rfl

theorem max_iterate_eq_secondPass (c : Collaborators R K d) (mode : EigevaluesMode) (j : Nat)
    (s : Arnoldi K d) :
    maximumEigenvalues.iterate c mode j s =
      maximumEigenvalues.secondPassAt c mode j (j + 2) s := rfl

/-- C20: after the start step `f = w - H[0][0] V[0]` with `H[0][0] = <V[0], w>`; after both
Gram-Schmidt passes of turn `j`, from every state (every operator, every basis),
`f = w - Σ_{i ≤ j+1} H[i][j+1] V[i]` with
`H[i][j+1] = <V[i], w> + <V[i], f_i>`, `f_i` being the running residual when the second
pass reaches index `i`. -/
theorem residual_after_both_passes (c : Collaborators R K d) (mode : EigevaluesMode)
    (v0 : Fin d → K) (j : Nat) (s : Arnoldi K d) :
    ((maximumEigenvalues.start c mode v0).H 0 0 =
        dot ((maximumEigenvalues.start c mode v0).V 0) (maximumEigenvalues.start c mode v0).w ∧
      ∀ site, (maximumEigenvalues.start c mode v0).f site =
        (maximumEigenvalues.start c mode v0).w site -
          (maximumEigenvalues.start c mode v0).H 0 0 *
            (maximumEigenvalues.start c mode v0).V 0 site) ∧
    (∀ site, (maximumEigenvalues.iterate c mode j s).f site =
      (maximumEigenvalues.iterate c mode j s).w site -
        ∑ i in Finset.range (j + 2),
          (maximumEigenvalues.iterate c mode j s).H i (j + 1) *
            (maximumEigenvalues.iterate c mode j s).V i site) ∧
    (∀ i, i < j + 2 →
      (maximumEigenvalues.iterate c mode j s).H i (j + 1) =
        dot ((maximumEigenvalues.iterate c mode j s).V i)
            (maximumEigenvalues.iterate c mode j s).w +
          dot ((maximumEigenvalues.iterate c mode j s).V i)
            (maximumEigenvalues.secondPassAt c mode j i s).f) ∧
    maximumEigenvalues.iterate c mode j s =
      maximumEigenvalues.secondPassAt c mode j (j + 2) s := by
  refine ⟨⟨?_, ?_⟩, ?_, ?_, rfl⟩
  · simp [maximumEigenvalues.start, setEntry]
  · intro site
    simp [maximumEigenvalues.start, setEntry]
  · intro site
    rw [max_iterate_eq, ← arnoldiIterate_relation]
    ring
  · intro i hi
    rw [max_iterate_eq_secondPass, max_secondPassAt_eq, max_secondPassAt_eq,
      moreStable_loop_H, if_pos ⟨hi, rfl⟩, gramSchmidt_loop_H, if_pos ⟨hi, rfl⟩,
      moreStable_loop_V, moreStable_loop_w, gramSchmidt_loop_V, gramSchmidt_loop_w]

end ResidualClaim

/-! ## The Arnoldi relation -/

section ArnoldiRelation

variable {K : Type} [Field K] [StarRing K] {d : Nat}

theorem dot_add_right (a f g : Fin d → K) :
    dot a (fun site => f site + g site) = dot a f + dot a g := by
  unfold dot
  rw [← Finset.sum_add_distrib]
  apply Finset.sum_congr rfl
  intro site _
  ring

theorem dot_sum_mul_right (a : Fin d → K) (N : Nat) (c : Nat → K) (V : Nat → Fin d → K) :
    dot a (fun site => ∑ i in Finset.range N, c i * V i site) =
      ∑ i in Finset.range N, c i * dot a (V i) := by
  unfold dot
  simp only [Finset.mul_sum]
  rw [Finset.sum_comm]
  apply Finset.sum_congr rfl
  intro i _
  apply Finset.sum_congr rfl
  intro site _
  ring

theorem arnoldiIterate_w (sqrt : K → K) (op : (Fin d → K) → (Fin d → K)) (ev : Event)
    (j : Nat) (s : Arnoldi K d) :
    (arnoldiIterate sqrt op ev j s).w =
      op ((arnoldiIterate sqrt op ev j s).V (j + 1)) := by
  rw [arnoldiIterate_V, setField_same]
  unfold arnoldiIterate
  rw [moreStable_loop_w, gramSchmidt_loop_w]

/-- Entries of `H` outside column `j+1` after turn `j`: only `H(j+1,j)` is written. -/
theorem arnoldiIterate_H_other (sqrt : K → K) (op : (Fin d → K) → (Fin d → K)) (ev : Event)
    (j : Nat) (s : Arnoldi K d) (a b : Nat) (hb : b ≠ j + 1) :
    (arnoldiIterate sqrt op ev j s).H a b =
      setEntry s.H (j + 1) j (sqrt (squaredNorm s.f)) a b := by
  unfold arnoldiIterate
  rw [moreStable_loop_H, if_neg (fun h => hb h.2), gramSchmidt_loop_H,
    if_neg (fun h => hb h.2)]

/-- The last column: `op V[k] = f + Σ_{i ≤ k} H(i,k) V[i]` after `k` turns. -/
theorem arnoldiAt_relation_last (sqrt : K → K) (op : (Fin d → K) → (Fin d → K)) (ev : Event)
    (log0 : List Event) (v0 : Fin d → K) (k : Nat) (site : Fin d) :
    op ((arnoldiAt sqrt op ev log0 v0 k).V k) site =
      (arnoldiAt sqrt op ev log0 v0 k).f site +
        ∑ i in Finset.range (k + 1),
          (arnoldiAt sqrt op ev log0 v0 k).H i k * (arnoldiAt sqrt op ev log0 v0 k).V i site := by
  cases k with
  | zero =>
    rw [arnoldiAt_zero, arnoldiStart_V, arnoldiStart_H, arnoldiStart_f, setField_same]
    simp [setEntry, setField]
  | succ k =>
    rw [arnoldiAt_succ, arnoldiIterate_relation, arnoldiIterate_w]

/-- The Arnoldi relation: `op V[b] = Σ_{i ≤ b+1} H(i,b) V[i]` for every `b < k` after `k`
turns, when the residual norms met are non-zero. -/
theorem arnoldiAt_relation (sqrt : K → K) (op : (Fin d → K) → (Fin d → K)) (ev : Event)
    (log0 : List Event) (v0 : Fin d → K) (k : Nat)
    (hbeta : ∀ j, j < k → sqrt (squaredNorm (arnoldiAt sqrt op ev log0 v0 j).f) ≠ 0)
    (b : Nat) (hb : b < k) (site : Fin d) :
    op ((arnoldiAt sqrt op ev log0 v0 k).V b) site =
      ∑ i in Finset.range (b + 2),
        (arnoldiAt sqrt op ev log0 v0 k).H i b * (arnoldiAt sqrt op ev log0 v0 k).V i site := by
  induction k with
  | zero => omega
  | succ k ih =>
    have hVk : ∀ a, a ≤ k → (arnoldiAt sqrt op ev log0 v0 (k + 1)).V a =
        (arnoldiAt sqrt op ev log0 v0 k).V a := by
      intro a ha
      rw [arnoldiAt_succ, arnoldiIterate_V, setField_other _ _ _ _ (by omega)]
    have hH : ∀ a c, c ≤ k → (arnoldiAt sqrt op ev log0 v0 (k + 1)).H a c =
        setEntry (arnoldiAt sqrt op ev log0 v0 k).H (k + 1) k
          (sqrt (squaredNorm (arnoldiAt sqrt op ev log0 v0 k).f)) a c := by
      intro a c hc
      rw [arnoldiAt_succ, arnoldiIterate_H_other _ _ _ _ _ _ _ (by omega)]
    rcases Nat.lt_succ_iff_lt_or_eq.mp hb with hlt | heq
    · rw [hVk b (by omega), ih (fun j hj => hbeta j (by omega)) hlt]
      apply Finset.sum_congr rfl
      intro i hi
      have hi2 : i < b + 2 := Finset.mem_range.mp hi
      rw [hVk i (by omega), hH i b (by omega)]
      unfold setEntry
      rw [if_neg (by omega)]
    · subst heq
      rw [hVk b (le_refl _)]
      have hlast : (arnoldiAt sqrt op ev log0 v0 (b + 1)).H (b + 1) b *
          (arnoldiAt sqrt op ev log0 v0 (b + 1)).V (b + 1) site =
          (arnoldiAt sqrt op ev log0 v0 b).f site := by
        rw [hH (b + 1) b (le_refl _), arnoldiAt_succ, arnoldiIterate_V, setField_same]
        unfold setEntry
        rw [if_pos ⟨rfl, rfl⟩]
        field_simp [hbeta b (by omega)]
      rw [Finset.sum_range_succ, hlast, arnoldiAt_relation_last sqrt op ev log0 v0 b site,
        add_comm]
      congr 1
      apply Finset.sum_congr rfl
      intro i hi
      have hi2 : i < b + 1 := Finset.mem_range.mp hi
      rw [hVk i (by omega), hH i b (le_refl _)]
      unfold setEntry
      rw [if_neg (by omega)]

end ArnoldiRelation

/-! ## The projected matrix as a restriction of the operator -/

section Projected

variable {K : Type} [Field K] [StarRing K] {d : Nat}

theorem sum_mul_delta (N a : Nat) (c : Nat → K) (g : Nat → K)
    (hg : ∀ i, i < N → g i = if a = i then 1 else 0) :
    ∑ i in Finset.range N, c i * g i = if a < N then c a else 0 := by
  have h : ∀ i, i ∈ Finset.range N → c i * g i = if a = i then c i else 0 := by
    intro i hi
    rw [hg i (Finset.mem_range.mp hi)]
    by_cases hai : a = i
    · simp [hai]
    · simp [hai]
  rw [Finset.sum_congr rfl h, Finset.sum_ite_eq]
  simp

/-- The projected matrix is the operator restricted to the basis: after `k` turns,
`H(a,b) = <V[a], op V[b]>` for all `a, b ≤ k`, for a normalised start vector and non-zero
residual norms with an exact square root. -/
theorem arnoldiAt_projected (sqrt : K → K) (op : (Fin d → K) → (Fin d → K)) (ev : Event)
    (log0 : List Event) (v0 : Fin d → K) (hv0 : dot v0 v0 = 1) (k : Nat)
    (hbeta : ∀ j, j < k →
      sqrt (squaredNorm (arnoldiAt sqrt op ev log0 v0 j).f) ≠ 0 ∧
      sqrt (squaredNorm (arnoldiAt sqrt op ev log0 v0 j).f) *
        sqrt (squaredNorm (arnoldiAt sqrt op ev log0 v0 j).f) =
          squaredNorm (arnoldiAt sqrt op ev log0 v0 j).f ∧
      star (sqrt (squaredNorm (arnoldiAt sqrt op ev log0 v0 j).f)) =
        sqrt (squaredNorm (arnoldiAt sqrt op ev log0 v0 j).f))
    (a b : Nat) (ha : a ≤ k) (hb : b ≤ k) :
    (arnoldiAt sqrt op ev log0 v0 k).H a b =
      dot ((arnoldiAt sqrt op ev log0 v0 k).V a)
        (op ((arnoldiAt sqrt op ev log0 v0 k).V b)) := by
  obtain ⟨hV, hf⟩ := arnoldiAt_orthonormal sqrt op ev log0 v0 hv0 k hbeta
  rcases Nat.lt_or_eq_of_le hb with hlt | heq
  · have hop : op ((arnoldiAt sqrt op ev log0 v0 k).V b) = fun site =>
        ∑ i in Finset.range (b + 2), (arnoldiAt sqrt op ev log0 v0 k).H i b *
          (arnoldiAt sqrt op ev log0 v0 k).V i site :=
      funext (arnoldiAt_relation sqrt op ev log0 v0 k (fun j hj => (hbeta j hj).1) b hlt)
    rw [hop, dot_sum_mul_right,
      sum_mul_delta (b + 2) a _ _ (fun i hi => hV a i ha (by omega))]
    by_cases hab : a < b + 2
    · rw [if_pos hab]
    · rw [if_neg hab]
      exact arnoldiAt_hessenberg sqrt op ev log0 v0 k a b (Or.inl (by omega))
  · subst heq
    have hop : op ((arnoldiAt sqrt op ev log0 v0 b).V b) = fun site =>
        (arnoldiAt sqrt op ev log0 v0 b).f site +
          ∑ i in Finset.range (b + 1), (arnoldiAt sqrt op ev log0 v0 b).H i b *
            (arnoldiAt sqrt op ev log0 v0 b).V i site :=
      funext (arnoldiAt_relation_last sqrt op ev log0 v0 b)
    rw [hop, dot_add_right, hf a ha, dot_sum_mul_right,
      sum_mul_delta (b + 1) a _ _ (fun i hi => hV a i ha (by omega)),
      if_pos (by omega), zero_add]

end Projected

section SecondPass

variable {R K : Type} [Field K] [StarRing K] {d : Nat}

/-- With an orthonormal basis and a non-zero residual norm, the running residual of the
second Gram-Schmidt loop is orthogonal to every basis vector at every index the loop
reaches, so the loop adds zero to every entry of `H`. -/
theorem arnoldiIterate_second_pass_zero (sqrt : K → K) (op : (Fin d → K) → (Fin d → K))
    (ev : Event) (j : Nat) (s : Arnoldi K d)
    (hb : sqrt (squaredNorm s.f) ≠ 0)
    (hsq : sqrt (squaredNorm s.f) * sqrt (squaredNorm s.f) = squaredNorm s.f)
    (hre : star (sqrt (squaredNorm s.f)) = sqrt (squaredNorm s.f))
    (hV : ∀ a b, a ≤ j → b ≤ j → dot (s.V a) (s.V b) = if a = b then 1 else 0)
    (hf : ∀ a, a ≤ j → dot (s.V a) s.f = 0) (m : Nat) (hm : m ≤ j + 2) (a : Nat)
    (ha : a ≤ j + 1) :
    dot ((forLoop m (arnoldiMoreStable j) (forLoop (j + 2) (arnoldiGramSchmidt j)
        { V := setField s.V (j + 1) (fun site => s.f site / sqrt (squaredNorm s.f))
          H := setEntry s.H (j + 1) j (sqrt (squaredNorm s.f))
          w := op (fun site => s.f site / sqrt (squaredNorm s.f))
          f := op (fun site => s.f site / sqrt (squaredNorm s.f))
          log := s.log ++ [Event.squaredNorm, ev] })).V a)
      (forLoop m (arnoldiMoreStable j) (forLoop (j + 2) (arnoldiGramSchmidt j)
        { V := setField s.V (j + 1) (fun site => s.f site / sqrt (squaredNorm s.f))
          H := setEntry s.H (j + 1) j (sqrt (squaredNorm s.f))
          w := op (fun site => s.f site / sqrt (squaredNorm s.f))
          f := op (fun site => s.f site / sqrt (squaredNorm s.f))
          log := s.log ++ [Event.squaredNorm, ev] })).f = 0 := by
  have hV1 := (arnoldiIterate_orthonormal sqrt op ev j s hb hsq hre hV hf).1
  rw [arnoldiIterate_V] at hV1
  rw [moreStable_loop_V]
  refine moreStable_loop_dot j m hm _ ?_ a ha
  intro a' ha'
  rw [gramSchmidt_loop_V]
  have h := gramSchmidt_loop_dot j (j + 2) (le_refl _)
    { V := setField s.V (j + 1) (fun site => s.f site / sqrt (squaredNorm s.f))
      H := setEntry s.H (j + 1) j (sqrt (squaredNorm s.f))
      w := op (fun site => s.f site / sqrt (squaredNorm s.f))
      f := op (fun site => s.f site / sqrt (squaredNorm s.f))
      log := s.log ++ [Event.squaredNorm, ev] } hV1 (fun _ _ => rfl) a' ha'
  rw [h, if_pos (by omega)]

theorem max_second_pass_zero (c : Collaborators R K d) (mode : EigevaluesMode)
    (v0 : Fin d → K) (hv0 : squaredNorm v0 = 1) (k : Nat)
    (hbeta : ∀ j, j < k →
      c.sqrt (squaredNorm (maximumEigenvalues.krylovAt c mode v0 j).f) ≠ 0 ∧
      c.sqrt (squaredNorm (maximumEigenvalues.krylovAt c mode v0 j).f) *
        c.sqrt (squaredNorm (maximumEigenvalues.krylovAt c mode v0 j).f) =
          squaredNorm (maximumEigenvalues.krylovAt c mode v0 j).f ∧
      star (c.sqrt (squaredNorm (maximumEigenvalues.krylovAt c mode v0 j).f)) =
        c.sqrt (squaredNorm (maximumEigenvalues.krylovAt c mode v0 j).f))
    (j : Nat) (hj : j < k) (i : Nat) (hi : i < j + 2) :
    dot ((maximumEigenvalues.secondPassAt c mode j i
        (maximumEigenvalues.krylovAt c mode v0 j)).V i)
      (maximumEigenvalues.secondPassAt c mode j i
        (maximumEigenvalues.krylovAt c mode v0 j)).f = 0 := by
  have hb : ∀ j', j' < k →
      c.sqrt (squaredNorm (arnoldiAt c.sqrt (maximumEigenvalues.apply c mode)
        Event.multiplyAdd [] v0 j').f) ≠ 0 ∧
      c.sqrt (squaredNorm (arnoldiAt c.sqrt (maximumEigenvalues.apply c mode)
        Event.multiplyAdd [] v0 j').f) *
        c.sqrt (squaredNorm (arnoldiAt c.sqrt (maximumEigenvalues.apply c mode)
          Event.multiplyAdd [] v0 j').f) =
          squaredNorm (arnoldiAt c.sqrt (maximumEigenvalues.apply c mode)
            Event.multiplyAdd [] v0 j').f ∧
      star (c.sqrt (squaredNorm (arnoldiAt c.sqrt (maximumEigenvalues.apply c mode)
        Event.multiplyAdd [] v0 j').f)) =
        c.sqrt (squaredNorm (arnoldiAt c.sqrt (maximumEigenvalues.apply c mode)
          Event.multiplyAdd [] v0 j').f) := by
    intro j' hj'
    have h := hbeta j' hj'
    rw [max_krylovAt_eq] at h
    exact h
  obtain ⟨hV, hf⟩ := arnoldiAt_orthonormal c.sqrt (maximumEigenvalues.apply c mode)
    Event.multiplyAdd [] v0 (by rw [← squaredNorm_eq_dot]; exact hv0) j
    (fun j' hj' => hb j' (by omega))
  obtain ⟨h1, h2, h3⟩ := hb j hj
  rw [max_secondPassAt_eq, max_extend_eq, max_krylovAt_eq]
  exact arnoldiIterate_second_pass_zero c.sqrt (maximumEigenvalues.apply c mode)
    Event.multiplyAdd j _ h1 h2 h3 hV hf i (by omega) i (by omega)

end SecondPass

section ProjectedClaim

variable {R K : Type} [Field K] [StarRing K] {d : Nat}

/-- C18: in exact arithmetic (the square root of each residual's squared norm is a
self-conjugate scalar whose square is that squared norm), for a normalised `V[0]` and
non-zero `beta` at every step, the projected matrix is the iterated operator `B` restricted
to the Krylov basis: `H[i][j] = <V[i], B V[j]>` for all `i, j < steps`, with
`B v = A(m v) + 5 v` in `maximumEigenvalues` and `B v = solve(A, v)` in
`minimumEigenvalues`; linearity of `B` is not needed. In particular the second Gram-Schmidt
pass of `maximumEigenvalues` then adds zero to every entry: the running residual is
orthogonal to `V[i]` when the pass reaches index `i`. -/
theorem projected_matrix_is_restriction (self : DiracEigenSolver R) (c : Collaborators R K d)
    (mode : EigevaluesMode) (v0 : Fin d → K) (steps : Nat) (hv0 : squaredNorm v0 = 1) :
    ((∀ j, j < steps - 1 →
        c.sqrt (squaredNorm (maximumEigenvalues.krylovAt c mode v0 j).f) ≠ 0 ∧
        c.sqrt (squaredNorm (maximumEigenvalues.krylovAt c mode v0 j).f) *
          c.sqrt (squaredNorm (maximumEigenvalues.krylovAt c mode v0 j).f) =
            squaredNorm (maximumEigenvalues.krylovAt c mode v0 j).f ∧
        star (c.sqrt (squaredNorm (maximumEigenvalues.krylovAt c mode v0 j).f)) =
          c.sqrt (squaredNorm (maximumEigenvalues.krylovAt c mode v0 j).f)) →
      (∀ a b, a < steps → b < steps →
        (maximumEigenvalues.krylov c mode v0 steps).H a b =
          dot ((maximumEigenvalues.krylov c mode v0 steps).V a)
            (maximumEigenvalues.apply c mode
              ((maximumEigenvalues.krylov c mode v0 steps).V b))) ∧
      ∀ j, j < steps - 1 → ∀ i, i < j + 2 →
        dot ((maximumEigenvalues.secondPassAt c mode j i
            (maximumEigenvalues.krylovAt c mode v0 j)).V i)
          (maximumEigenvalues.secondPassAt c mode j i
            (maximumEigenvalues.krylovAt c mode v0 j)).f = 0) ∧
    ((∀ j, j < steps - 1 →
        c.sqrt (squaredNorm (minimumEigenvalues.krylovAt c (minimumEigenvalues.prepare self c).1
          (minimumEigenvalues.prepare self c).2 v0 j).f) ≠ 0 ∧
        c.sqrt (squaredNorm (minimumEigenvalues.krylovAt c (minimumEigenvalues.prepare self c).1
          (minimumEigenvalues.prepare self c).2 v0 j).f) *
          c.sqrt (squaredNorm (minimumEigenvalues.krylovAt c
            (minimumEigenvalues.prepare self c).1
            (minimumEigenvalues.prepare self c).2 v0 j).f) =
            squaredNorm (minimumEigenvalues.krylovAt c (minimumEigenvalues.prepare self c).1
              (minimumEigenvalues.prepare self c).2 v0 j).f ∧
        star (c.sqrt (squaredNorm (minimumEigenvalues.krylovAt c
          (minimumEigenvalues.prepare self c).1
          (minimumEigenvalues.prepare self c).2 v0 j).f)) =
          c.sqrt (squaredNorm (minimumEigenvalues.krylovAt c
            (minimumEigenvalues.prepare self c).1
            (minimumEigenvalues.prepare self c).2 v0 j).f)) →
      ∀ a b, a < steps → b < steps →
        (minimumEigenvalues.krylov c (minimumEigenvalues.prepare self c).1
            (minimumEigenvalues.prepare self c).2 v0 steps).H a b =
          dot ((minimumEigenvalues.krylov c (minimumEigenvalues.prepare self c).1
              (minimumEigenvalues.prepare self c).2 v0 steps).V a)
            (c.solve (minimumEigenvalues.prepare self c).1
              ((minimumEigenvalues.krylov c (minimumEigenvalues.prepare self c).1
                (minimumEigenvalues.prepare self c).2 v0 steps).V b))) := by
  constructor
  · intro hbeta
    refine ⟨?_, fun j hj i hi => max_second_pass_zero c mode v0 hv0 (steps - 1) hbeta j hj i hi⟩
    intro a b ha hb
    unfold maximumEigenvalues.krylov
    rw [max_krylovAt_eq]
    refine arnoldiAt_projected _ _ _ _ v0 hv0 (steps - 1) ?_ a b (by omega) (by omega)
    intro j hj
    have h := hbeta j hj
    rw [max_krylovAt_eq] at h
    exact h
  · intro hbeta a b ha hb
    unfold minimumEigenvalues.krylov
    rw [min_krylovAt_eq]
    refine arnoldiAt_projected _ _ _ _ v0 hv0 (steps - 1) ?_ a b (by omega) (by omega)
    intro j hj
    have h := hbeta j hj
    rw [min_krylovAt_eq] at h
    exact h

end ProjectedClaim

section ProjectedExample

/-- C18 at a concrete call: `steps = 2`, the swap operator on two components, start vector
`(1, 0)`; the only residual met has norm `1`. -/
theorem projected_matrix_is_restriction_witness :
    squaredNorm (Demo.e0 : Fin 2 → GaussRat) = 1 ∧
    ((∀ a b, a < 2 → b < 2 →
      (maximumEigenvalues.krylov (Demo.collaborators Demo.swap2 Demo.swap2)
          EigevaluesMode.LargestReal Demo.e0 2).H a b =
        dot ((maximumEigenvalues.krylov (Demo.collaborators Demo.swap2 Demo.swap2)
            EigevaluesMode.LargestReal Demo.e0 2).V a)
          (maximumEigenvalues.apply (Demo.collaborators Demo.swap2 Demo.swap2)
            EigevaluesMode.LargestReal
            ((maximumEigenvalues.krylov (Demo.collaborators Demo.swap2 Demo.swap2)
              EigevaluesMode.LargestReal Demo.e0 2).V b))) ∧
      ∀ j, j < 2 - 1 → ∀ i, i < j + 2 →
        dot ((maximumEigenvalues.secondPassAt (Demo.collaborators Demo.swap2 Demo.swap2)
            EigevaluesMode.LargestReal j i
            (maximumEigenvalues.krylovAt (Demo.collaborators Demo.swap2 Demo.swap2)
              EigevaluesMode.LargestReal Demo.e0 j)).V i)
          (maximumEigenvalues.secondPassAt (Demo.collaborators Demo.swap2 Demo.swap2)
            EigevaluesMode.LargestReal j i
            (maximumEigenvalues.krylovAt (Demo.collaborators Demo.swap2 Demo.swap2)
              EigevaluesMode.LargestReal Demo.e0 j)).f = 0) ∧
    (∀ a b, a < 2 → b < 2 →
      (minimumEigenvalues.krylov (Demo.collaborators Demo.swap2 Demo.swap2)
          (minimumEigenvalues.prepare (Demo.solver 1)
            (Demo.collaborators Demo.swap2 Demo.swap2)).1
          (minimumEigenvalues.prepare (Demo.solver 1)
            (Demo.collaborators Demo.swap2 Demo.swap2)).2 Demo.e0 2).H a b =
        dot ((minimumEigenvalues.krylov (Demo.collaborators Demo.swap2 Demo.swap2)
            (minimumEigenvalues.prepare (Demo.solver 1)
              (Demo.collaborators Demo.swap2 Demo.swap2)).1
            (minimumEigenvalues.prepare (Demo.solver 1)
              (Demo.collaborators Demo.swap2 Demo.swap2)).2 Demo.e0 2).V a)
          ((Demo.collaborators Demo.swap2 Demo.swap2).solve
            (minimumEigenvalues.prepare (Demo.solver 1)
              (Demo.collaborators Demo.swap2 Demo.swap2)).1
            ((minimumEigenvalues.krylov (Demo.collaborators Demo.swap2 Demo.swap2)
              (minimumEigenvalues.prepare (Demo.solver 1)
                (Demo.collaborators Demo.swap2 Demo.swap2)).1
              (minimumEigenvalues.prepare (Demo.solver 1)
                (Demo.collaborators Demo.swap2 Demo.swap2)).2 Demo.e0 2).V b))) := by
  have h := projected_matrix_is_restriction (Demo.solver 1)
    (Demo.collaborators Demo.swap2 Demo.swap2) EigevaluesMode.LargestReal Demo.e0 2
    demo_squaredNorm_e0
  refine ⟨demo_squaredNorm_e0, h.1 ?_, h.2 ?_⟩
  · intro j hj
    obtain rfl : j = 0 := by omega
    rw [demo_max_start_f]
    show GaussRat.sqrt _ ≠ 0 ∧ GaussRat.sqrt _ * GaussRat.sqrt _ = _ ∧
      star (GaussRat.sqrt _) = GaussRat.sqrt _
    rw [demo_beta_one]
    simp [squaredNorm, Fin.sum_univ_two, GaussRat.ext_iff]
  · intro j hj
    obtain rfl : j = 0 := by omega
    rw [demo_min_start_f]
    show GaussRat.sqrt _ ≠ 0 ∧ GaussRat.sqrt _ * GaussRat.sqrt _ = _ ∧
      star (GaussRat.sqrt _) = GaussRat.sqrt _
    rw [demo_beta_one]
    simp [squaredNorm, Fin.sum_univ_two, GaussRat.ext_iff]

end ProjectedExample

/-! ## The identity scenario -/

section IdentityScenario

variable {R K : Type} [Field K] [StarRing K] {d : Nat}

theorem dot_mul_right (a v : Fin d → K) (p : K) :
    dot a (fun site => p * v site) = p * dot a v := by
  unfold dot
  rw [Finset.mul_sum]
  apply Finset.sum_congr rfl
  intro site _
  ring

theorem squaredNorm_zero : squaredNorm (fun _ : Fin d => (0 : K)) = 0 := by
  simp [squaredNorm]

theorem ritzVector_one (eigvec : Nat → Nat → K) (V : Nat → Fin d → K) (i : Nat) :
    ritzVector 1 eigvec V i = fun site => eigvec 0 i * V 0 site := by
  funext site
  simp [ritzVector, forLoop]

/-- The identity scenario without extra steps: for the identity operator on a space of any
dimension, a normalised start vector and mode `LargestReal` (the rotation by `1`), the
residual of the start step is the zero vector; with `n = 1` and
`extra_steps = 0`, where no further step is taken, an exact square root of zero and a dense
solver that returns the entry of the `1 x 1` projected matrix as its eigenvalue,
`maximumEigenvalues` returns exactly one eigenvalue, equal to `1`, and reports the
convergence value `0`. -/
theorem identity_single_step (self : DiracEigenSolver R) (c : Collaborators R K d)
    (backend : Backend) (eigenvalues : List K) (eigenvectors : List (Fin d → K))
    (v0 : Fin d → K) (hextra : self.extra_steps = 0) (hid : ∀ v, c.multiply v = v)
    (hv0 : squaredNorm v0 = 1) (hsqrt : c.sqrt 0 = 0)
    (hdense : (maximumEigenvalues.dense c backend 1
        (maximumEigenvalues.krylov c EigevaluesMode.LargestReal v0 1).H).eigenvalues 0 =
      (maximumEigenvalues.krylov c EigevaluesMode.LargestReal v0 1).H 0 0) :
    (maximumEigenvalues.krylovAt c EigevaluesMode.LargestReal v0 0).f = (fun _ => 0) ∧
    ∃ r, maximumEigenvalues self c backend eigenvalues eigenvectors 1
        EigevaluesMode.LargestReal v0 = some r ∧
      r.eigenvalues = [1] ∧ r.eigenvectors.length = 1 ∧ r.diffnorm = 0 := by
  have hmod : (self.extra_steps + 1) % UINT_RANGE = 1 := by
    rw [hextra]
    rfl
  have happly : maximumEigenvalues.apply c EigevaluesMode.LargestReal v0 =
      fun site => 6 * v0 site := by
    funext site
    simp only [maximumEigenvalues.apply, rotateVector, multiplyAdd, hid]
    simp only [ne_eq, not_true_eq_false, if_false]
    ring
  have hH : (maximumEigenvalues.krylov c EigevaluesMode.LargestReal v0 1).H 0 0 = 6 := by
    show setEntry (fun _ _ => 0) 0 0
      (dot (setField (fun _ _ => 0) 0 v0 0)
        (maximumEigenvalues.apply c EigevaluesMode.LargestReal
          (setField (fun _ _ => 0) 0 v0 0))) 0 0 = 6
    rw [setField_same, happly, dot_mul_right, ← squaredNorm_eq_dot, hv0]
    simp [setEntry]
  have hstored : maximumEigenvalues.stored c backend EigevaluesMode.LargestReal
      ((maximumEigenvalues.dense c backend 1
        (maximumEigenvalues.krylov c EigevaluesMode.LargestReal v0 1).H).eigenvalues 0) = 1 := by
    rw [hdense, hH]
    cases backend <;> simp [maximumEigenvalues.stored, EigevaluesMap] <;> norm_num
  have hstart : (maximumEigenvalues.krylovAt c EigevaluesMode.LargestReal v0 0).f =
      fun _ => 0 := by
    show (fun site => maximumEigenvalues.apply c EigevaluesMode.LargestReal
        (setField (fun _ _ => 0) 0 v0 0) site -
      dot (setField (fun _ _ => 0) 0 v0 0)
        (maximumEigenvalues.apply c EigevaluesMode.LargestReal
          (setField (fun _ _ => 0) 0 v0 0)) * setField (fun _ _ => 0) 0 v0 0 site) = _
    rw [setField_same, happly, dot_mul_right, ← squaredNorm_eq_dot, hv0]
    funext site
    ring
  refine ⟨hstart, _, maximumEigenvalues_closed self c backend eigenvalues eigenvectors 1
    EigevaluesMode.LargestReal v0 1 hmod (by omega) (by omega), ?_, ?_, ?_⟩
  · simp [hextra, List.range_succ, hstored]
  · simp [hextra]
  · show differenceNorm c.sqrt _ _ = 0
    have h10 : 1 - 1 = 0 := rfl
    rw [h10, hstored, hid]
    unfold differenceNorm
    simp only [one_mul, sub_self]
    rw [squaredNorm_zero, hsqrt]

theorem demo_squaredNorm_e0_three : squaredNorm (Demo.e0 : Fin 3 → GaussRat) = 1 := by
  simp [squaredNorm, Demo.e0, Fin.sum_univ_three, GaussRat.ext_iff]

/-- The identity scenario without extra steps at a concrete call: the identity on three
components, `n = 1`, `extra_steps = 0`. -/
theorem identity_single_step_witness :
    ((Demo.solver 0).extra_steps = 0 ∧
      (∀ v : Fin 3 → GaussRat,
        (Demo.collaborators Demo.identity Demo.identity).multiply v = v) ∧
      squaredNorm (Demo.e0 : Fin 3 → GaussRat) = 1 ∧
      (Demo.collaborators ( Demo.identity : (Fin 3 → GaussRat) → _) Demo.identity).sqrt 0 = 0) ∧
    ((maximumEigenvalues.krylovAt (Demo.collaborators Demo.identity Demo.identity)
        EigevaluesMode.LargestReal (Demo.e0 : Fin 3 → GaussRat) 0).f = (fun _ => 0) ∧
      ∃ r, maximumEigenvalues (Demo.solver 0) (Demo.collaborators Demo.identity Demo.identity)
          Backend.EIGEN [] [] 1 EigevaluesMode.LargestReal (Demo.e0 : Fin 3 → GaussRat) =
            some r ∧
        r.eigenvalues = [1] ∧ r.eigenvectors.length = 1 ∧ r.diffnorm = 0) :=
  have hs : (Demo.collaborators ( Demo.identity : (Fin 3 → GaussRat) → _) Demo.identity).sqrt 0
      = 0 := by
    simp [Demo.collaborators, GaussRat.ext_iff, rat_sqrt_zero]
  ⟨⟨rfl, fun _ => rfl, demo_squaredNorm_e0_three, hs⟩,
    identity_single_step (Demo.solver 0) (Demo.collaborators Demo.identity Demo.identity)
      Backend.EIGEN [] [] Demo.e0 rfl (fun _ => rfl) demo_squaredNorm_e0_three hs rfl⟩

end IdentityScenario

/-! ## Reconstruction of the Ritz vectors -/

section Reconstruction

variable {R K : Type} [Field K] [StarRing K] {d : Nat}

theorem ritzVector_eq_sum (steps : Nat) (eigvec : Nat → Nat → K) (V : Nat → Fin d → K)
    (i : Nat) :
    ritzVector steps eigvec V i =
      fun site => ∑ j in Finset.range steps, eigvec j i * V j site := by
  have h : ∀ m, forLoop m (fun j (acc : Fin d → K) => fun site => acc site + eigvec j i * V j site)
      (fun _ => 0) = fun site => ∑ j in Finset.range m, eigvec j i * V j site := by
    intro m
    induction m with
    | zero => simp [forLoop]
    | succ m ih =>
      rw [forLoop_succ, ih]
      funext site
      rw [Finset.sum_range_succ]
  exact h steps

theorem reconstruct_getElem? (steps : Nat) (eigvec : Nat → Nat → K) (V : Nat → Fin d → K)
    (eigenvectors : List (Fin d → K)) (i : Nat) (hi : i < steps) :
    (reconstruct steps eigvec V eigenvectors)[i]? =
      some (fun site => ∑ j in Finset.range steps, eigvec j i * V j site) := by
  rw [reconstruct_eq_map, ← ritzVector_eq_sum]
  simp [hi]

/-- C21: for every `i < steps`, the `i`-th Ritz vector held by `eigenvectors` before the
reordering is `sum over j < steps of eigvec[j][i] * V[j]`, weighted by column `i` of the
eigenvector matrix of the dense solve and independent of the content of `eigenvectors` on
entry (the sum starts from the zero field); the same in `maximumEigenvalues` and in
`minimumEigenvalues`. -/
theorem ritz_vector_column_combination (self : DiracEigenSolver R) (c : Collaborators R K d)
    (backend : Backend) (eigenvectors : List (Fin d → K)) (mode : EigevaluesMode)
    (v0 : Fin d → K) (steps i : Nat) (hi : i < steps) :
    (reconstruct steps
        (maximumEigenvalues.dense c backend steps
          (maximumEigenvalues.krylov c mode v0 steps).H).eigenvectors
        (maximumEigenvalues.krylov c mode v0 steps).V eigenvectors)[i]? =
      some (fun site => ∑ j in Finset.range steps,
        (maximumEigenvalues.dense c backend steps
          (maximumEigenvalues.krylov c mode v0 steps).H).eigenvectors j i *
          (maximumEigenvalues.krylov c mode v0 steps).V j site) ∧
    (reconstruct steps
        (minimumEigenvalues.dense c backend steps
          (minimumEigenvalues.krylov c (minimumEigenvalues.prepare self c).1
            (minimumEigenvalues.prepare self c).2 v0 steps).H).eigenvectors
        (minimumEigenvalues.krylov c (minimumEigenvalues.prepare self c).1
          (minimumEigenvalues.prepare self c).2 v0 steps).V eigenvectors)[i]? =
      some (fun site => ∑ j in Finset.range steps,
        (minimumEigenvalues.dense c backend steps
          (minimumEigenvalues.krylov c (minimumEigenvalues.prepare self c).1
            (minimumEigenvalues.prepare self c).2 v0 steps).H).eigenvectors j i *
          (minimumEigenvalues.krylov c (minimumEigenvalues.prepare self c).1
            (minimumEigenvalues.prepare self c).2 v0 steps).V j site) ∧
    ritzVector 0 (maximumEigenvalues.dense c backend steps
      (maximumEigenvalues.krylov c mode v0 steps).H).eigenvectors
      (maximumEigenvalues.krylov c mode v0 steps).V i = (fun _ => 0) :=
  ⟨reconstruct_getElem? _ _ _ _ i hi, reconstruct_getElem? _ _ _ _ i hi, rfl⟩

/-- C21 at a concrete call: `steps = 2`, `i = 1`, the swap operator on two components with a
dense solver whose eigenvector matrix has the columns `(1, -1)` and `(1, 1)`. -/
theorem ritz_vector_column_combination_witness :
    1 < 2 ∧
    ((reconstruct 2
        (maximumEigenvalues.dense Demo.swapCollaborators Backend.EIGEN 2
          (maximumEigenvalues.krylov Demo.swapCollaborators EigevaluesMode.LargestReal
            Demo.e0 2).H).eigenvectors
        (maximumEigenvalues.krylov Demo.swapCollaborators EigevaluesMode.LargestReal
          Demo.e0 2).V [])[1]? =
      some (fun site => ∑ j in Finset.range 2,
        (maximumEigenvalues.dense Demo.swapCollaborators Backend.EIGEN 2
          (maximumEigenvalues.krylov Demo.swapCollaborators EigevaluesMode.LargestReal
            Demo.e0 2).H).eigenvectors j 1 *
          (maximumEigenvalues.krylov Demo.swapCollaborators EigevaluesMode.LargestReal
            Demo.e0 2).V j site) ∧
    (reconstruct 2
        (minimumEigenvalues.dense Demo.swapCollaborators Backend.EIGEN 2
          (minimumEigenvalues.krylov Demo.swapCollaborators
            (minimumEigenvalues.prepare (Demo.solver 1) Demo.swapCollaborators).1
            (minimumEigenvalues.prepare (Demo.solver 1) Demo.swapCollaborators).2
            Demo.e0 2).H).eigenvectors
        (minimumEigenvalues.krylov Demo.swapCollaborators
          (minimumEigenvalues.prepare (Demo.solver 1) Demo.swapCollaborators).1
          (minimumEigenvalues.prepare (Demo.solver 1) Demo.swapCollaborators).2
          Demo.e0 2).V [])[1]? =
      some (fun site => ∑ j in Finset.range 2,
        (minimumEigenvalues.dense Demo.swapCollaborators Backend.EIGEN 2
          (minimumEigenvalues.krylov Demo.swapCollaborators
            (minimumEigenvalues.prepare (Demo.solver 1) Demo.swapCollaborators).1
            (minimumEigenvalues.prepare (Demo.solver 1) Demo.swapCollaborators).2
            Demo.e0 2).H).eigenvectors j 1 *
          (minimumEigenvalues.krylov Demo.swapCollaborators
            (minimumEigenvalues.prepare (Demo.solver 1) Demo.swapCollaborators).1
            (minimumEigenvalues.prepare (Demo.solver 1) Demo.swapCollaborators).2
            Demo.e0 2).V j site) ∧
    ritzVector 0 (maximumEigenvalues.dense Demo.swapCollaborators Backend.EIGEN 2
      (maximumEigenvalues.krylov Demo.swapCollaborators EigevaluesMode.LargestReal
        Demo.e0 2).H).eigenvectors
      (maximumEigenvalues.krylov Demo.swapCollaborators EigevaluesMode.LargestReal
        Demo.e0 2).V 1 = (fun _ => 0)) :=
  ⟨by decide, ritz_vector_column_combination (Demo.solver 1) Demo.swapCollaborators
    Backend.EIGEN [] EigevaluesMode.LargestReal Demo.e0 2 1 (by decide)⟩

end Reconstruction

/-! ## Frame of the configuration -/

section Frame

variable {R K : Type} [Field K] [StarRing K] {d : Nat}

/-- C22: `setPrecision` leaves `extra_steps` and the embedded solver (with the precision it
holds) as they are, `setExtraSteps` leaves `epsilon` and the embedded solver as they are,
and a call of `maximumEigenvalues` or of `minimumEigenvalues` returns with `epsilon` and
`extra_steps` unchanged. -/
theorem configuration_changed_by_setters_only (self : DiracEigenSolver R)
    (c : Collaborators R K d) (backend : Backend) (eigenvalues : List K)
    (eigenvectors : List (Fin d → K)) (n : Nat) (mode : EigevaluesMode) (v0 : Fin d → K)
    (p : R) (k : Nat)
    (hpos : 1 ≤ self.extra_steps + n) (hov : self.extra_steps + n < UINT_RANGE) :
    ((self.setPrecision p).getExtraSteps = self.getExtraSteps ∧
      (self.setPrecision p).biConjugateGradient = self.biConjugateGradient) ∧
    ((self.setExtraSteps k).getPrecision = self.getPrecision ∧
      (self.setExtraSteps k).biConjugateGradient = self.biConjugateGradient) ∧
    (∃ r, maximumEigenvalues self c backend eigenvalues eigenvectors n mode v0 = some r ∧
      r.self.getPrecision = self.getPrecision ∧ r.self.getExtraSteps = self.getExtraSteps) ∧
    (∃ r, minimumEigenvalues self c backend eigenvalues eigenvectors n v0 = some r ∧
      r.self.getPrecision = self.getPrecision ∧ r.self.getExtraSteps = self.getExtraSteps) := by
  obtain ⟨r, hr, hself, _⟩ := maximumEigenvalues_self_log self c backend eigenvalues
    eigenvectors n mode v0 hpos hov
  obtain ⟨r2, hr2, hself2, _⟩ := minimumEigenvalues_self_log self c backend eigenvalues
    eigenvectors n v0 hpos hov
  refine ⟨⟨rfl, rfl⟩, ⟨rfl, rfl⟩, ⟨r, hr, ?_, ?_⟩, ⟨r2, hr2, ?_, ?_⟩⟩
  · rw [hself]
  · rw [hself]
  · rw [hself2]
    rfl
  · rw [hself2]
    rfl

/-- C22 at a concrete object: the solver with `extra_steps = 1`, `n = 1`, the swap operator
on two components. -/
theorem configuration_changed_by_setters_only_witness :
    (1 ≤ (Demo.solver 1).extra_steps + 1 ∧ (Demo.solver 1).extra_steps + 1 < UINT_RANGE) ∧
    ((((Demo.solver 1).setPrecision (1 / 2)).getExtraSteps = (Demo.solver 1).getExtraSteps ∧
      ((Demo.solver 1).setPrecision (1 / 2)).biConjugateGradient =
        (Demo.solver 1).biConjugateGradient) ∧
    (((Demo.solver 1).setExtraSteps 7).getPrecision = (Demo.solver 1).getPrecision ∧
      ((Demo.solver 1).setExtraSteps 7).biConjugateGradient =
        (Demo.solver 1).biConjugateGradient) ∧
    (∃ r, maximumEigenvalues (Demo.solver 1) (Demo.collaborators Demo.swap2 Demo.swap2)
        Backend.EIGEN [] [] 1 EigevaluesMode.LargestReal Demo.e0 = some r ∧
      r.self.getPrecision = (Demo.solver 1).getPrecision ∧
      r.self.getExtraSteps = (Demo.solver 1).getExtraSteps) ∧
    (∃ r, minimumEigenvalues (Demo.solver 1) (Demo.collaborators Demo.swap2 Demo.swap2)
        Backend.EIGEN [] [] 1 Demo.e0 = some r ∧
      r.self.getPrecision = (Demo.solver 1).getPrecision ∧
      r.self.getExtraSteps = (Demo.solver 1).getExtraSteps)) :=
  ⟨⟨by decide, by decide⟩,
    configuration_changed_by_setters_only (Demo.solver 1)
      (Demo.collaborators Demo.swap2 Demo.swap2) Backend.EIGEN [] [] 1
      EigevaluesMode.LargestReal Demo.e0 (1 / 2) 7 (by decide) (by decide)⟩

end Frame

/-! ## The Ritz residual identity -/

section RitzResidual

variable {R K : Type} [Field K] [StarRing K] {d : Nat}

theorem linear_sum (op : (Fin d → K) → (Fin d → K))
    (hadd : ∀ u v : Fin d → K, op (fun s => u s + v s) = fun s => op u s + op v s)
    (hsmul : ∀ (a : K) (v : Fin d → K), op (fun s => a * v s) = fun s => a * op v s)
    (y : Nat → K) (V : Nat → Fin d → K) (N : Nat) :
    op (fun s => ∑ j in Finset.range N, y j * V j s) =
      fun s => ∑ j in Finset.range N, y j * op (V j) s := by
  induction N with
  | zero =>
    have h := hsmul 0 (fun _ => 0)
    simp only [zero_mul] at h
    simpa using h
  | succ N ih =>
    have h1 : (fun s => ∑ j in Finset.range (N + 1), y j * V j s) =
        fun s => (fun s => ∑ j in Finset.range N, y j * V j s) s +
          (fun s => y N * V N s) s := by
      funext s
      rw [Finset.sum_range_succ]
    rw [h1, hadd, ih, hsmul]
    funext s
    rw [Finset.sum_range_succ]

/-- Column `j` of the Arnoldi relation with all sums taken over the whole basis: the
entries of `H` below the first subdiagonal are zero, and the residual enters only the last
column. -/
theorem arnoldiAt_relation_full (sqrt : K → K) (op : (Fin d → K) → (Fin d → K)) (ev : Event)
    (log0 : List Event) (v0 : Fin d → K) (k : Nat)
    (hbeta : ∀ j, j < k → sqrt (squaredNorm (arnoldiAt sqrt op ev log0 v0 j).f) ≠ 0)
    (j : Nat) (hj : j < k + 1) (site : Fin d) :
    op ((arnoldiAt sqrt op ev log0 v0 k).V j) site =
      (if j = k then (arnoldiAt sqrt op ev log0 v0 k).f site else 0) +
        ∑ i in Finset.range (k + 1),
          (arnoldiAt sqrt op ev log0 v0 k).H i j * (arnoldiAt sqrt op ev log0 v0 k).V i site := by
  by_cases hjk : j = k
  · subst hjk
    rw [if_pos rfl]
    exact arnoldiAt_relation_last sqrt op ev log0 v0 j site
  · rw [if_neg hjk, zero_add, arnoldiAt_relation sqrt op ev log0 v0 k hbeta j (by omega) site]
    apply Finset.sum_subset
    · intro i hi
      rw [Finset.mem_range] at hi ⊢
      omega
    · intro i hi hni
      rw [Finset.mem_range] at hi hni
      rw [arnoldiAt_hessenberg sqrt op ev log0 v0 k i j (Or.inl (by omega)), zero_mul]

/-- The Ritz residual identity for the abstract Arnoldi process after `k` turns. -/
theorem arnoldiAt_ritz_residual (sqrt : K → K) (op : (Fin d → K) → (Fin d → K)) (ev : Event)
    (log0 : List Event) (v0 : Fin d → K) (k : Nat)
    (hbeta : ∀ j, j < k → sqrt (squaredNorm (arnoldiAt sqrt op ev log0 v0 j).f) ≠ 0)
    (hadd : ∀ u v : Fin d → K, op (fun s => u s + v s) = fun s => op u s + op v s)
    (hsmul : ∀ (a : K) (v : Fin d → K), op (fun s => a * v s) = fun s => a * op v s)
    (y : Nat → K) (theta : K)
    (heig : ∀ a, a < k + 1 →
      ∑ b in Finset.range (k + 1), (arnoldiAt sqrt op ev log0 v0 k).H a b * y b =
        theta * y a)
    (site : Fin d) :
    op (fun s => ∑ j in Finset.range (k + 1),
        y j * (arnoldiAt sqrt op ev log0 v0 k).V j s) site -
      theta * ∑ j in Finset.range (k + 1), y j * (arnoldiAt sqrt op ev log0 v0 k).V j site =
      y k * (arnoldiAt sqrt op ev log0 v0 k).f site := by
  rw [linear_sum op hadd hsmul]
  have h1 : ∑ j in Finset.range (k + 1),
      y j * op ((arnoldiAt sqrt op ev log0 v0 k).V j) site =
      ∑ j in Finset.range (k + 1),
        (y j * (if j = k then (arnoldiAt sqrt op ev log0 v0 k).f site else 0) +
          ∑ i in Finset.range (k + 1),
            y j * ((arnoldiAt sqrt op ev log0 v0 k).H i j *
              (arnoldiAt sqrt op ev log0 v0 k).V i site)) := by
    apply Finset.sum_congr rfl
    intro j hj
    rw [arnoldiAt_relation_full sqrt op ev log0 v0 k hbeta j (Finset.mem_range.mp hj) site,
      mul_add, Finset.mul_sum]
  have h2 : ∑ j in Finset.range (k + 1),
      y j * (if j = k then (arnoldiAt sqrt op ev log0 v0 k).f site else 0) =
      y k * (arnoldiAt sqrt op ev log0 v0 k).f site := by
    rw [Finset.sum_eq_single k]
    · rw [if_pos rfl]
    · intro b _ hb
      rw [if_neg hb, mul_zero]
    · intro h
      exact absurd (Finset.mem_range.mpr (Nat.lt_succ_self k)) h
  have h3 : ∑ j in Finset.range (k + 1), ∑ i in Finset.range (k + 1),
      y j * ((arnoldiAt sqrt op ev log0 v0 k).H i j *
        (arnoldiAt sqrt op ev log0 v0 k).V i site) =
      theta * ∑ j in Finset.range (k + 1),
        y j * (arnoldiAt sqrt op ev log0 v0 k).V j site := by
    rw [Finset.sum_comm, Finset.mul_sum]
    apply Finset.sum_congr rfl
    intro i hi
    rw [← mul_assoc, ← heig i (Finset.mem_range.mp hi), Finset.sum_mul]
    apply Finset.sum_congr rfl
    intro j _
    ring
  show ∑ j in Finset.range (k + 1), y j * op ((arnoldiAt sqrt op ev log0 v0 k).V j) site -
    _ = _
  rw [h1, Finset.sum_add_distrib, h2, h3]
  ring

/-- C23: in exact arithmetic, for a linear iterated operator `B` (`v ↦ A(m v) + 5 v`) and
non-zero `beta` at every step, if column `i` of `eigvec` is an eigenvector of the projected
matrix `H` with eigenvalue `theta`, the reconstructed Ritz vector
`x = sum over j of eigvec[j][i] * V[j]` satisfies
`B x - theta x = eigvec[steps-1][i] * f`, with `f` the residual left by the last turn of
the loop (by the start step when `steps = 1`).  No orthonormality is assumed: the square
root only has to be non-zero. -/
theorem ritz_residual_identity (c : Collaborators R K d) (mode : EigevaluesMode)
    (v0 : Fin d → K) (steps : Nat) (eigvec : Nat → Nat → K) (i : Nat) (theta : K)
    (hsteps : 1 ≤ steps)
    (hadd : ∀ u v : Fin d → K, maximumEigenvalues.apply c mode (fun s => u s + v s) =
      fun s => maximumEigenvalues.apply c mode u s + maximumEigenvalues.apply c mode v s)
    (hsmul : ∀ (a : K) (v : Fin d → K), maximumEigenvalues.apply c mode (fun s => a * v s) =
      fun s => a * maximumEigenvalues.apply c mode v s)
    (hbeta : ∀ j, j < steps - 1 →
      c.sqrt (squaredNorm (maximumEigenvalues.krylovAt c mode v0 j).f) ≠ 0)
    (heig : ∀ a, a < steps →
      ∑ b in Finset.range steps,
        (maximumEigenvalues.krylov c mode v0 steps).H a b * eigvec b i =
          theta * eigvec a i) :
    ∀ site, maximumEigenvalues.apply c mode
        (ritzVector steps eigvec (maximumEigenvalues.krylov c mode v0 steps).V i) site -
      theta * ritzVector steps eigvec (maximumEigenvalues.krylov c mode v0 steps).V i site =
      eigvec (steps - 1) i * (maximumEigenvalues.krylov c mode v0 steps).f site := by
  intro site
  obtain ⟨k, rfl⟩ : ∃ k, steps = k + 1 := ⟨steps - 1, by omega⟩
  rw [ritzVector_eq_sum]
  unfold maximumEigenvalues.krylov at heig ⊢
  rw [max_krylovAt_eq] at heig ⊢
  have hb : ∀ j, j < k → c.sqrt (squaredNorm (arnoldiAt c.sqrt (maximumEigenvalues.apply c mode)
      Event.multiplyAdd [] v0 j).f) ≠ 0 := by
    intro j hj
    have h := hbeta j hj
    rw [max_krylovAt_eq] at h
    exact h
  exact arnoldiAt_ritz_residual c.sqrt (maximumEigenvalues.apply c mode) Event.multiplyAdd []
    v0 k hb hadd hsmul (fun j => eigvec j i) theta heig site

end RitzResidual

section RitzResidualExample

theorem demo_swap_bridge :
    maximumEigenvalues.krylov Demo.swapCollaborators EigevaluesMode.LargestReal
      (Demo.e0 : Fin 2 → GaussRat) 2 =
      arnoldiAt (Demo.collaborators Demo.swap2 Demo.swap2).sqrt
        (maximumEigenvalues.apply (Demo.collaborators Demo.swap2 Demo.swap2)
          EigevaluesMode.LargestReal) Event.multiplyAdd [] Demo.e0 1 := by
  unfold maximumEigenvalues.krylov
  rw [max_krylovAt_eq]
  rfl

theorem demo_swap_f0 :
    (arnoldiAt (Demo.collaborators Demo.swap2 Demo.swap2).sqrt
      (maximumEigenvalues.apply (Demo.collaborators Demo.swap2 Demo.swap2)
        EigevaluesMode.LargestReal) Event.multiplyAdd [] (Demo.e0 : Fin 2 → GaussRat) 0).f =
      fun site => if site = 1 then 1 else 0 := by
  have h := demo_max_start_f
  rw [max_krylovAt_eq] at h
  exact h

theorem demo_swap_beta :
    (Demo.collaborators Demo.swap2 Demo.swap2).sqrt
      (squaredNorm (fun site : Fin 2 => if site = 1 then (1 : GaussRat) else 0)) = 1 :=
  demo_beta_one

theorem demo_swap_H (a b : Nat) (ha : a < 2) (hb : b < 2) :
    (maximumEigenvalues.krylov Demo.swapCollaborators EigevaluesMode.LargestReal
      (Demo.e0 : Fin 2 → GaussRat) 2).H a b = if a = b then 5 else 1 := by
  rw [demo_swap_bridge]
  have hbeta : ∀ j, j < 1 →
      (Demo.collaborators Demo.swap2 Demo.swap2).sqrt (squaredNorm
        (arnoldiAt (Demo.collaborators Demo.swap2 Demo.swap2).sqrt
          (maximumEigenvalues.apply (Demo.collaborators Demo.swap2 Demo.swap2)
            EigevaluesMode.LargestReal) Event.multiplyAdd []
          (Demo.e0 : Fin 2 → GaussRat) j).f) ≠ 0 ∧
      (Demo.collaborators Demo.swap2 Demo.swap2).sqrt (squaredNorm
        (arnoldiAt (Demo.collaborators Demo.swap2 Demo.swap2).sqrt
          (maximumEigenvalues.apply (Demo.collaborators Demo.swap2 Demo.swap2)
            EigevaluesMode.LargestReal) Event.multiplyAdd []
          (Demo.e0 : Fin 2 → GaussRat) j).f) *
        (Demo.collaborators Demo.swap2 Demo.swap2).sqrt (squaredNorm
          (arnoldiAt (Demo.collaborators Demo.swap2 Demo.swap2).sqrt
            (maximumEigenvalues.apply (Demo.collaborators Demo.swap2 Demo.swap2)
              EigevaluesMode.LargestReal) Event.multiplyAdd []
            (Demo.e0 : Fin 2 → GaussRat) j).f) =
        squaredNorm (arnoldiAt (Demo.collaborators Demo.swap2 Demo.swap2).sqrt
          (maximumEigenvalues.apply (Demo.collaborators Demo.swap2 Demo.swap2)
            EigevaluesMode.LargestReal) Event.multiplyAdd []
          (Demo.e0 : Fin 2 → GaussRat) j).f ∧
      star ((Demo.collaborators Demo.swap2 Demo.swap2).sqrt (squaredNorm
        (arnoldiAt (Demo.collaborators Demo.swap2 Demo.swap2).sqrt
          (maximumEigenvalues.apply (Demo.collaborators Demo.swap2 Demo.swap2)
            EigevaluesMode.LargestReal) Event.multiplyAdd []
          (Demo.e0 : Fin 2 → GaussRat) j).f)) =
        (Demo.collaborators Demo.swap2 Demo.swap2).sqrt (squaredNorm
          (arnoldiAt (Demo.collaborators Demo.swap2 Demo.swap2).sqrt
            (maximumEigenvalues.apply (Demo.collaborators Demo.swap2 Demo.swap2)
              EigevaluesMode.LargestReal) Event.multiplyAdd []
            (Demo.e0 : Fin 2 → GaussRat) j).f) := by
    intro j hj
    obtain rfl : j = 0 := by omega
    rw [demo_swap_f0, demo_swap_beta]
    simp [squaredNorm, Fin.sum_univ_two, GaussRat.ext_iff]
  rw [arnoldiAt_projected _ _ _ _ _ (by rw [← squaredNorm_eq_dot]; exact demo_squaredNorm_e0)
    1 hbeta a b (by omega) (by omega)]
  rw [arnoldiAt_succ, arnoldiIterate_V, demo_swap_f0, demo_swap_beta, arnoldiAt_zero,
    arnoldiStart_V]
  interval_cases a <;> interval_cases b <;>
    simp [setField, dot, maximumEigenvalues.apply, rotateVector, multiplyAdd,
      Demo.collaborators, Demo.swap2, Demo.e0, Fin.sum_univ_two, GaussRat.ext_iff]

/-- C23 at a concrete call: the swap operator on two components, `steps = 2`, start vector
`(1, 0)`; the projected matrix is `[[5, 1], [1, 5]]`, and column `1` of the listed
eigenvector matrix, `(1, 1)`, is its eigenvector for the eigenvalue `6`. -/
theorem ritz_residual_identity_witness :
    1 ≤ 2 ∧
    (fun site => maximumEigenvalues.apply Demo.swapCollaborators EigevaluesMode.LargestReal
        (ritzVector 2
          (maximumEigenvalues.dense Demo.swapCollaborators Backend.EIGEN 2
            (maximumEigenvalues.krylov Demo.swapCollaborators EigevaluesMode.LargestReal
              Demo.e0 2).H).eigenvectors
          (maximumEigenvalues.krylov Demo.swapCollaborators EigevaluesMode.LargestReal
            Demo.e0 2).V 1) site -
      6 * ritzVector 2
          (maximumEigenvalues.dense Demo.swapCollaborators Backend.EIGEN 2
            (maximumEigenvalues.krylov Demo.swapCollaborators EigevaluesMode.LargestReal
              Demo.e0 2).H).eigenvectors
          (maximumEigenvalues.krylov Demo.swapCollaborators EigevaluesMode.LargestReal
            Demo.e0 2).V 1 site) =
      fun site => (maximumEigenvalues.dense Demo.swapCollaborators Backend.EIGEN 2
            (maximumEigenvalues.krylov Demo.swapCollaborators EigevaluesMode.LargestReal
              Demo.e0 2).H).eigenvectors (2 - 1) 1 *
        (maximumEigenvalues.krylov Demo.swapCollaborators EigevaluesMode.LargestReal
          Demo.e0 2).f site := by
  refine ⟨by decide, funext (ritz_residual_identity Demo.swapCollaborators
    EigevaluesMode.LargestReal Demo.e0 2 _ 1 6 (by decide) ?_ ?_ ?_ ?_)⟩
  · intro u v
    funext s
    simp [maximumEigenvalues.apply, rotateVector, multiplyAdd, Demo.swapCollaborators,
      Demo.withDense, Demo.collaborators, Demo.swap2]
    ring
  · intro a v
    funext s
    simp [maximumEigenvalues.apply, rotateVector, multiplyAdd, Demo.swapCollaborators,
      Demo.withDense, Demo.collaborators, Demo.swap2]
    ring
  · intro j hj
    obtain rfl : j = 0 := by omega
    have h : maximumEigenvalues.krylovAt Demo.swapCollaborators EigevaluesMode.LargestReal
        (Demo.e0 : Fin 2 → GaussRat) 0 =
        maximumEigenvalues.krylovAt (Demo.collaborators Demo.swap2 Demo.swap2)
          EigevaluesMode.LargestReal Demo.e0 0 := rfl
    rw [h, demo_max_start_f]
    show GaussRat.sqrt _ ≠ 0
    rw [demo_beta_one]
    simp [GaussRat.ext_iff]
  · intro a ha
    rw [Finset.sum_range_succ, Finset.sum_range_succ, Finset.sum_range_zero,
      demo_swap_H a 0 ha (by decide), demo_swap_H a 1 ha (by decide)]
    interval_cases a <;>
      simp [maximumEigenvalues.dense, Demo.swapCollaborators, Demo.withDense, Demo.listedEig,
        GaussRat.ext_iff] <;> norm_num

end RitzResidualExample

/-! ## Ordering of the inverted Ritz values -/

section InverseOrdering

variable {R K : Type} [Field K] [StarRing K] {d : Nat}

theorem mag_one_div {M : Type} [LinearOrderedField M] (mag : K → M)
    (hmul : ∀ a b, mag (a * b) = mag a * mag b) (hpos : ∀ a, a ≠ 0 → 0 < mag a)
    (a : K) (ha : a ≠ 0) : mag (1 / a) = 1 / mag a := by
  have h1 : mag 1 = 1 := by
    have h := hmul 1 1
    rw [mul_one] at h
    have hp := hpos 1 one_ne_zero
    have h2 : mag 1 * (mag 1 - 1) = 0 := by
      rw [mul_sub, ← h, mul_one, sub_self]
    rcases mul_eq_zero.mp h2 with h3 | h3
    · exact absurd h3 (ne_of_gt hp)
    · exact sub_eq_zero.mp h3
  have h2 : mag (1 / a) * mag a = 1 := by
    rw [← hmul, one_div, inv_mul_cancel₀ ha, h1]
  have hp := hpos a ha
  field_simp
  exact h2

theorem mag_one_div_le {M : Type} [LinearOrderedField M] (mag : K → M)
    (hmul : ∀ a b, mag (a * b) = mag a * mag b) (hpos : ∀ a, a ≠ 0 → 0 < mag a)
    (a b : K) (ha : a ≠ 0) (hb : b ≠ 0) (hab : mag a ≤ mag b) :
    mag (1 / b) ≤ mag (1 / a) := by
  rw [mag_one_div mag hmul hpos a ha, mag_one_div mag hmul hpos b hb]
  exact one_div_le_one_div_of_le (hpos a ha) hab

/-- C24: in the `1/ritz` branch (`EIGEN`), for a magnitude `mag` that is multiplicative and
positive away from zero, when the dense solve lists the Ritz values in non-decreasing
magnitude and none of them is zero, `minimumEigenvalues` returns `n` eigenvalues, the
`k`-th being `1/ritz[steps-1-k]`; they are in non-decreasing magnitude, and each is at most
as large in magnitude as every discarded value `1/ritz[i]`, `i < extra_steps`: they are the
`n` smallest-magnitude of the `steps` values `1/ritz`. -/
theorem minimum_inverse_of_ascending {M : Type} [LinearOrderedField M] (mag : K → M)
    (self : DiracEigenSolver R) (c : Collaborators R K d)
    (eigenvalues : List K) (eigenvectors : List (Fin d → K)) (n : Nat)
    (v0 : Fin d → K) (ritz : Nat → K)
    (hritz : ritz = (minimumEigenvalues.dense c Backend.EIGEN (self.extra_steps + n)
      (minimumEigenvalues.krylov c (minimumEigenvalues.prepare self c).1
        (minimumEigenvalues.prepare self c).2 v0 (self.extra_steps + n)).H).eigenvalues)
    (hmul : ∀ a b, mag (a * b) = mag a * mag b) (hmag : ∀ a, a ≠ 0 → 0 < mag a)
    (hn : 1 ≤ n) (hov : n + self.extra_steps < UINT_RANGE)
    (hsorted : ∀ i j, i ≤ j → j < self.extra_steps + n → mag (ritz i) ≤ mag (ritz j))
    (hnz : ∀ i, i < self.extra_steps + n → ritz i ≠ 0) :
    ∃ r, minimumEigenvalues self c Backend.EIGEN eigenvalues eigenvectors n v0 = some r ∧
      r.eigenvalues.length = n ∧
      (∀ k, k < n → r.eigenvalues[k]? = some (1 / ritz (self.extra_steps + n - 1 - k))) ∧
      (∀ (k k' : Nat) (a b : K), k ≤ k' → r.eigenvalues[k]? = some a →
        r.eigenvalues[k']? = some b →
        mag a ≤ mag b) ∧
      (∀ (k : Nat) (a : K) (i : Nat), r.eigenvalues[k]? = some a → i < self.extra_steps →
        mag a ≤ mag (1 / ritz i)) := by
  subst hritz
  have hmod : (self.extra_steps + n) % UINT_RANGE = self.extra_steps + n :=
    Nat.mod_eq_of_lt (by omega)
  have hsub : self.extra_steps + n - self.extra_steps = n := by omega
  have hlen : ((((List.range (self.extra_steps + n)).map (fun i =>
      minimumEigenvalues.stored Backend.EIGEN
        ((minimumEigenvalues.dense c Backend.EIGEN (self.extra_steps + n)
          (minimumEigenvalues.krylov c (minimumEigenvalues.prepare self c).1
            (minimumEigenvalues.prepare self c).2 v0
            (self.extra_steps + n)).H).eigenvalues i))).reverse).take
      (self.extra_steps + n - self.extra_steps)).length = n := by
    rw [hsub]
    exact length_take_reverse_map _ _ _ (by omega)
  have hget : ∀ k, k < n → ((((List.range (self.extra_steps + n)).map (fun i =>
      minimumEigenvalues.stored Backend.EIGEN
        ((minimumEigenvalues.dense c Backend.EIGEN (self.extra_steps + n)
          (minimumEigenvalues.krylov c (minimumEigenvalues.prepare self c).1
            (minimumEigenvalues.prepare self c).2 v0
            (self.extra_steps + n)).H).eigenvalues i))).reverse).take
      (self.extra_steps + n - self.extra_steps))[k]? =
      some (1 / (minimumEigenvalues.dense c Backend.EIGEN (self.extra_steps + n)
          (minimumEigenvalues.krylov c (minimumEigenvalues.prepare self c).1
            (minimumEigenvalues.prepare self c).2 v0
            (self.extra_steps + n)).H).eigenvalues (self.extra_steps + n - 1 - k)) := by
    intro k hk
    rw [hsub]
    exact getElem?_take_reverse_map _ _ _ _ (by omega) hk
  refine ⟨_, minimumEigenvalues_closed self c Backend.EIGEN eigenvalues eigenvectors n v0
    (self.extra_steps + n) hmod (by omega) (by omega), hlen, hget, ?_, ?_⟩
  · intro k k' a b hkk ha hb
    have hk' : k' < n := by
      have h := (List.getElem?_eq_some_iff.mp hb).1
      rw [hlen] at h
      exact h
    rw [hget k (by omega)] at ha
    rw [hget k' hk'] at hb
    cases ha
    cases hb
    exact mag_one_div_le mag hmul hmag _ _ (hnz _ (by omega)) (hnz _ (by omega))
      (hsorted _ _ (by omega) (by omega))
  · intro k a i ha hi
    have hk : k < n := by
      have h := (List.getElem?_eq_some_iff.mp ha).1
      rw [hlen] at h
      exact h
    rw [hget k hk] at ha
    cases ha
    exact mag_one_div_le mag hmul hmag _ _ (hnz _ (by omega)) (hnz _ (by omega))
      (hsorted _ _ (by omega) (by omega))

end InverseOrdering

section InverseOrderingExample

theorem normSq_mul (a b : GaussRat) :
    GaussRat.normSq (a * b) = GaussRat.normSq a * GaussRat.normSq b := by
  simp [GaussRat.normSq]
  ring

theorem normSq_pos (a : GaussRat) (ha : a ≠ 0) : 0 < GaussRat.normSq a := by
  unfold GaussRat.normSq
  by_contra h
  have h1 : a.re * a.re + a.im * a.im = 0 :=
    le_antisymm (not_lt.mp h) (add_nonneg (mul_self_nonneg _) (mul_self_nonneg _))
  have h2 : a.re = 0 := by nlinarith [mul_self_nonneg a.re, mul_self_nonneg a.im]
  have h3 : a.im = 0 := by nlinarith [mul_self_nonneg a.re, mul_self_nonneg a.im]
  exact ha (GaussRat.ext h2 h3)

/-- C24 at a concrete call: the operator `diag(1, 2)`, `n = 1`, `extra_steps = 1`, a dense
solver listing the Ritz values `1/2, 1` (non-decreasing, non-zero); the call returns the
eigenvalue `1`, the smaller of the values `1/ritz = 2, 1`. -/
theorem minimum_inverse_of_ascending_witness :
    (1 ≤ 1 ∧ 1 + (Demo.solver 1).extra_steps < UINT_RANGE) ∧
    ∃ r, minimumEigenvalues (Demo.solver 1) Demo.ascendingCollaborators Backend.EIGEN [] [] 1
        Demo.v345 = some r ∧ r.eigenvalues = [1] := by
  have hs : ∀ i j, i ≤ j → j < (Demo.solver 1).extra_steps + 1 →
      GaussRat.normSq ((minimumEigenvalues.dense Demo.ascendingCollaborators Backend.EIGEN
          ((Demo.solver 1).extra_steps + 1)
          (minimumEigenvalues.krylov Demo.ascendingCollaborators
            (minimumEigenvalues.prepare (Demo.solver 1) Demo.ascendingCollaborators).1
            (minimumEigenvalues.prepare (Demo.solver 1) Demo.ascendingCollaborators).2
            Demo.v345 ((Demo.solver 1).extra_steps + 1)).H).eigenvalues i) ≤
      GaussRat.normSq ((minimumEigenvalues.dense Demo.ascendingCollaborators Backend.EIGEN
          ((Demo.solver 1).extra_steps + 1)
          (minimumEigenvalues.krylov Demo.ascendingCollaborators
            (minimumEigenvalues.prepare (Demo.solver 1) Demo.ascendingCollaborators).1
            (minimumEigenvalues.prepare (Demo.solver 1) Demo.ascendingCollaborators).2
            Demo.v345 ((Demo.solver 1).extra_steps + 1)).H).eigenvalues j) := by
    intro i j hij hj
    have hj2 : j < 2 := hj
    interval_cases j <;> interval_cases i <;>
      simp [minimumEigenvalues.dense, Demo.ascendingCollaborators,
        Demo.withDense, Demo.listedEig, GaussRat.normSq] <;> norm_num
  have hz : ∀ i, i < (Demo.solver 1).extra_steps + 1 →
      (minimumEigenvalues.dense Demo.ascendingCollaborators Backend.EIGEN
          ((Demo.solver 1).extra_steps + 1)
          (minimumEigenvalues.krylov Demo.ascendingCollaborators
            (minimumEigenvalues.prepare (Demo.solver 1) Demo.ascendingCollaborators).1
            (minimumEigenvalues.prepare (Demo.solver 1) Demo.ascendingCollaborators).2
            Demo.v345 ((Demo.solver 1).extra_steps + 1)).H).eigenvalues i ≠ 0 := by
    intro i hi
    have hi2 : i < 2 := hi
    interval_cases i <;>
      simp [minimumEigenvalues.dense, Demo.ascendingCollaborators,
        Demo.withDense, Demo.listedEig, GaussRat.ext_iff]
  refine ⟨⟨by decide, by decide⟩, ?_⟩
  obtain ⟨r, h1, h2, h4, _⟩ := minimum_inverse_of_ascending GaussRat.normSq
    (Demo.solver 1) Demo.ascendingCollaborators [] [] 1 Demo.v345 _ rfl normSq_mul normSq_pos
    (by decide) (by decide) hs hz
  refine ⟨r, h1, ?_⟩
  have h6 : r.eigenvalues[0]? = some 1 := by
    rw [h4 0 (by decide)]
    simp [minimumEigenvalues.dense, Demo.ascendingCollaborators,
      Demo.withDense, Demo.listedEig, Demo.solver, GaussRat.ext_iff]
  match hr : r.eigenvalues, h2, h6 with
  | [x], _, h6 =>
    simp at h6
    rw [h6]

end InverseOrderingExample

/-! ## Exchange symmetry of the Wilson fermion force -/

section FermionForceSymmetry

variable {K : Type} [Field K] [StarRing K]

theorem tensor_inner_loop (m : Nat) (i : Nat) (g : Nat → K) (M : Nat → Nat → K) (a b : Nat) :
    forLoop m (fun j result => setEntry result i j (g j)) M a b =
      if a = i ∧ b < m then g b else M a b := by
  induction m with
  | zero => simp [forLoop]
  | succ m ih =>
    rw [forLoop_succ]
    show (if a = i ∧ b = m then g m
      else forLoop m (fun j result => setEntry result i j (g j)) M a b) = _
    by_cases h1 : a = i ∧ b = m
    · obtain ⟨rfl, rfl⟩ := h1
      simp
    · rw [if_neg h1, ih]
      by_cases h2 : a = i ∧ b < m
      · rw [if_pos h2, if_pos ⟨h2.1, by omega⟩]
      · rw [if_neg h2, if_neg]
        intro h3
        rcases h3 with ⟨h3, h4⟩
        rcases Nat.lt_succ_iff_lt_or_eq.mp h4 with h5 | h5
        · exact h2 ⟨h3, h5⟩
        · exact h1 ⟨h3, h5⟩

/-- The entries of `tensor(x, y)`: `y[i]*conj(x[j])` inside the matrix, the initial zero
outside. -/
theorem tensor_entry (self : FermionForce K) (N : Nat) (x y : Nat → K) (a b : Nat) :
    self.tensor N x y a b = if a < N ∧ b < N then y a * star (x b) else 0 := by
  unfold FermionForce.tensor
  have h : ∀ m, forLoop m (fun i result =>
      forLoop N (fun j result => setEntry result i j (y i * star (x j))) result)
      (fun _ _ => (0 : K)) a b = if a < m ∧ b < N then y a * star (x b) else 0 := by
    intro m
    induction m with
    | zero => simp [forLoop]
    | succ m ih =>
      rw [forLoop_succ, tensor_inner_loop, ih]
      by_cases h1 : a = m ∧ b < N
      · obtain ⟨rfl, h2⟩ := h1
        rw [if_pos ⟨rfl, h2⟩, if_pos ⟨by omega, h2⟩]
      · rw [if_neg h1]
        by_cases h2 : a < m ∧ b < N
        · rw [if_pos h2, if_pos ⟨by omega, h2.2⟩]
        · rw [if_neg h2, if_neg]
          intro h3
          rcases h3 with ⟨h3, h4⟩
          rcases Nat.lt_succ_iff_lt_or_eq.mp h3 with h5 | h5
          · exact h2 ⟨h5, h4⟩
          · exact h1 ⟨h5, h4⟩
  exact h N

/-- C26: in exact arithmetic, for every lattice, site, direction `mu`, every value of
`kappa`, of the gamma-matrix entries and of the neighbour map, and every pair of fields
`X`, `Y`, `derivative(lattice, X, Y, site, mu)` equals `derivative(lattice, Y, X, site, mu)`;
`tensor(x, y)` is the matrix with entry `(i, j)` equal to `y[i]*conj(x[j])` for
`i, j < diracVectorLength`. -/
theorem derivative_exchange_symmetric [DecidableEq K] (self : DiracWilsonFermionForce K)
    (c : ForceCollaborators K) (lattice : Int → Int → Nat → Nat → K)
    (X Y : Int → Nat → Nat → K) (site mu : Int) (x y : Nat → K) :
    self.derivative c lattice X Y site mu = self.derivative c lattice Y X site mu ∧
    (∀ i j, i < c.diracVectorLength → j < c.diracVectorLength →
      self.toFermionForce.tensor c.diracVectorLength x y i j = y i * star (x j)) := by
  constructor
  · unfold DiracWilsonFermionForce.derivative
    simp only [forLoop]
    abel
  · intro i j hi hj
    rw [tensor_entry, if_pos ⟨hi, hj⟩]

end FermionForceSymmetry

/-! ## Index safety -/

section CheckedAccess

variable {R K : Type} [Field K] [StarRing K] {d : Nat}

theorem forLoopM_succ {σ : Type} (n : Nat) (body : Nat → σ → Option σ) (s : σ) :
    forLoopM (n + 1) body s = (forLoopM n body s).bind (body n) := rfl

/-- A checked loop whose body passes its checks at every index below `n`, on every state
that satisfies the invariant `P`, runs as the unchecked loop. -/
theorem forLoopM_eq_some {σ : Type} (P : σ → Prop) (body : Nat → σ → Option σ)
    (g : Nat → σ → σ) (n : Nat) (s : σ) (h0 : P s)
    (hstep : ∀ i s', i < n → P s' → body i s' = some (g i s') ∧ P (g i s')) :
    forLoopM n body s = some (forLoop n g s) ∧ P (forLoop n g s) := by
  induction n with
  | zero => exact ⟨rfl, h0⟩
  | succ n ih =>
    obtain ⟨h1, h2⟩ := ih (fun i s' hi => hstep i s' (by omega))
    obtain ⟨h3, h4⟩ := hstep n _ (by omega) h2
    rw [forLoopM_succ, h1, forLoop_succ]
    exact ⟨h3, h4⟩

theorem readField_of_lt (size : Nat) (V : Nat → Fin d → K) (k : Nat) (h : k < size) :
    readField size V k = some (V k) := by
  unfold readField
  rw [if_pos h]

theorem writeField_of_lt (size : Nat) (V : Nat → Fin d → K) (k : Nat) (v : Fin d → K)
    (h : k < size) : writeField size V k v = some (setField V k v) := by
  unfold writeField
  rw [if_pos h]

theorem readEntry_of_lt (rows cols : Nat) (M : Nat → Nat → K) (i j : Nat) (hi : i < rows)
    (hj : j < cols) : readEntry rows cols M i j = some (M i j) := by
  unfold readEntry
  rw [if_pos ⟨hi, hj⟩]

theorem writeEntry_of_lt (rows cols : Nat) (M : Nat → Nat → K) (i j : Nat) (x : K)
    (hi : i < rows) (hj : j < cols) :
    writeEntry rows cols M i j x = some (setEntry M i j x) := by
  unfold writeEntry
  rw [if_pos ⟨hi, hj⟩]

theorem readValue_of_lt (size : Nat) (xs : Nat → K) (i : Nat) (h : i < size) :
    readValue size xs i = some (xs i) := by
  unfold readValue
  rw [if_pos h]

theorem writeAt_of_lt {α : Type} (xs : List α) (i : Nat) (x : α) (h : i < xs.length) :
    writeAt xs i x = some (xs.set i x) := by
  unfold writeAt
  rw [if_pos h]

theorem back_map_range {α : Type} (g : Nat → α) (steps : Nat) (h : 0 < steps) :
    back ((List.range steps).map g) = some (g (steps - 1)) := by
  obtain ⟨m, rfl⟩ : ∃ m, steps = m + 1 := ⟨steps - 1, by omega⟩
  simp [back, List.range_succ]

theorem ritzVectorChecked_eq (steps : Nat) (eigvec : Nat → Nat → K) (V : Nat → Fin d → K)
    (i : Nat) (hi : i < steps) :
    ritzVectorChecked steps eigvec V i = some (ritzVector steps eigvec V i) := by
  unfold ritzVectorChecked ritzVector
  refine (forLoopM_eq_some (fun _ => True) _ _ steps _ trivial ?_).1
  intro j acc hj _
  refine ⟨?_, trivial⟩
  simp only [readEntry_of_lt _ _ _ _ _ hj hi, readField_of_lt _ _ _ hj]
  rfl

theorem reconstructChecked_eq (steps : Nat) (eigvec : Nat → Nat → K) (V : Nat → Fin d → K)
    (eigenvectors : List (Fin d → K)) :
    reconstructChecked steps eigvec V eigenvectors =
      some (reconstruct steps eigvec V eigenvectors) := by
  unfold reconstructChecked reconstruct
  refine (forLoopM_eq_some (fun evs => evs.length = steps) _ _ steps _
    (resize_length _ _ _) ?_).1
  intro i evs hi hlen
  refine ⟨?_, by show (List.set _ _ _).length = steps; rw [List.length_set]; exact hlen⟩
  simp only [ritzVectorChecked_eq _ _ _ _ hi]
  exact writeAt_of_lt _ _ _ (by rw [hlen]; exact hi)

theorem max_storeEigenvaluesChecked_eq (c : Collaborators R K d) (backend : Backend)
    (mode : EigevaluesMode) (steps : Nat) (ritz : Nat → K) (eigenvalues : List K) :
    maximumEigenvalues.storeEigenvaluesChecked c backend mode steps ritz eigenvalues =
      some (maximumEigenvalues.storeEigenvalues c backend mode steps ritz eigenvalues) := by
  unfold maximumEigenvalues.storeEigenvaluesChecked maximumEigenvalues.storeEigenvalues
  refine (forLoopM_eq_some (fun ev => ev.length = steps) _ _ steps _
    (resize_length _ _ _) ?_).1
  intro i ev hi hlen
  refine ⟨?_, by show (List.set _ _ _).length = steps; rw [List.length_set]; exact hlen⟩
  simp only [readValue_of_lt _ _ _ hi]
  exact writeAt_of_lt _ _ _ (by rw [hlen]; exact hi)

theorem min_storeEigenvaluesChecked_eq (backend : Backend) (steps : Nat) (ritz : Nat → K)
    (eigenvalues : List K) :
    minimumEigenvalues.storeEigenvaluesChecked backend steps ritz eigenvalues =
      some (minimumEigenvalues.storeEigenvalues backend steps ritz eigenvalues) := by
  unfold minimumEigenvalues.storeEigenvaluesChecked minimumEigenvalues.storeEigenvalues
  refine (forLoopM_eq_some (fun ev => ev.length = steps) _ _ steps _
    (resize_length _ _ _) ?_).1
  intro i ev hi hlen
  refine ⟨?_, by show (List.set _ _ _).length = steps; rw [List.length_set]; exact hlen⟩
  simp only [readValue_of_lt _ _ _ hi]
  exact writeAt_of_lt _ _ _ (by rw [hlen]; exact hi)

theorem max_startChecked_eq (steps : Nat) (c : Collaborators R K d) (mode : EigevaluesMode)
    (v0 : Fin d → K) (h : 0 < steps) :
    maximumEigenvalues.startChecked steps c mode v0 =
      some (maximumEigenvalues.start c mode v0) := by
  unfold maximumEigenvalues.startChecked
  simp only [writeField_of_lt _ _ _ _ h, readField_of_lt _ _ _ h,
    writeEntry_of_lt _ _ _ _ _ _ h h]
  rfl

theorem max_gramSchmidtChecked_eq (steps j i : Nat) (s : Arnoldi K d) (hi : i < steps)
    (hj : j + 1 < steps) :
    maximumEigenvalues.gramSchmidtChecked steps j i s =
      some (maximumEigenvalues.gramSchmidt j i s) := by
  unfold maximumEigenvalues.gramSchmidtChecked
  simp only [readField_of_lt _ _ _ hi, writeEntry_of_lt _ _ _ _ _ _ hi hj]
  rfl

theorem max_moreStableChecked_eq (steps j i : Nat) (s : Arnoldi K d) (hi : i < steps)
    (hj : j + 1 < steps) :
    maximumEigenvalues.moreStableGramSchmidtChecked steps j i s =
      some (maximumEigenvalues.moreStableGramSchmidt j i s) := by
  unfold maximumEigenvalues.moreStableGramSchmidtChecked
  simp only [readField_of_lt _ _ _ hi, readEntry_of_lt _ _ _ _ _ hi hj,
    writeEntry_of_lt _ _ _ _ _ _ hi hj]
  rfl

theorem max_iterateChecked_eq (steps : Nat) (c : Collaborators R K d) (mode : EigevaluesMode)
    (j : Nat) (s : Arnoldi K d) (hj : j + 1 < steps) :
    maximumEigenvalues.iterateChecked steps c mode j s =
      some (maximumEigenvalues.iterate c mode j s) := by
  unfold maximumEigenvalues.iterateChecked
  simp only [writeField_of_lt _ _ _ _ hj, writeEntry_of_lt _ _ _ _ _ _ hj (by omega : j < steps),
    readField_of_lt _ _ _ hj]
  have h1 : ∀ s1 : Arnoldi K d,
      forLoopM (j + 2) (maximumEigenvalues.gramSchmidtChecked steps j) s1 =
        some (forLoop (j + 2) (maximumEigenvalues.gramSchmidt j) s1) := fun s1 =>
    (forLoopM_eq_some (fun _ => True) _ _ (j + 2) s1 trivial (fun i s' hi _ =>
      ⟨max_gramSchmidtChecked_eq steps j i s' (by omega) hj, trivial⟩)).1
  have h2 : ∀ s2 : Arnoldi K d,
      forLoopM (j + 2) (maximumEigenvalues.moreStableGramSchmidtChecked steps j) s2 =
        some (forLoop (j + 2) (maximumEigenvalues.moreStableGramSchmidt j) s2) := fun s2 =>
    (forLoopM_eq_some (fun _ => True) _ _ (j + 2) s2 trivial (fun i s' hi _ =>
      ⟨max_moreStableChecked_eq steps j i s' (by omega) hj, trivial⟩)).1
  simp only [h1, h2]
  rfl

theorem max_krylovChecked_eq (steps : Nat) (c : Collaborators R K d) (mode : EigevaluesMode)
    (v0 : Fin d → K) (h : 0 < steps) :
    maximumEigenvalues.krylovChecked steps c mode v0 =
      some (maximumEigenvalues.krylov c mode v0 steps) := by
  unfold maximumEigenvalues.krylovChecked
  simp only [max_startChecked_eq steps c mode v0 h]
  exact (forLoopM_eq_some (fun _ => True) _ _ (steps - 1) _ trivial (fun j s' hj _ =>
    ⟨max_iterateChecked_eq steps c mode j s' (by omega), trivial⟩)).1

end CheckedAccess

section CheckedMethods

variable {R K : Type} [Field K] [StarRing K] {d : Nat}

theorem min_startChecked_eq (steps : Nat) (c : Collaborators R K d)
    (bicg : BiConjugateGradient R) (log0 : List Event) (v0 : Fin d → K) (h : 0 < steps) :
    minimumEigenvalues.startChecked steps c bicg log0 v0 =
      some (minimumEigenvalues.start c bicg log0 v0) := by
  unfold minimumEigenvalues.startChecked
  simp only [writeField_of_lt _ _ _ _ h, readField_of_lt _ _ _ h,
    writeEntry_of_lt _ _ _ _ _ _ h h]
  rfl

theorem min_gramSchmidtChecked_eq (steps j i : Nat) (s : Arnoldi K d) (hi : i < steps)
    (hj : j + 1 < steps) :
    minimumEigenvalues.gramSchmidtChecked steps j i s =
      some (minimumEigenvalues.gramSchmidt j i s) := by
  unfold minimumEigenvalues.gramSchmidtChecked
  simp only [readField_of_lt _ _ _ hi, writeEntry_of_lt _ _ _ _ _ _ hi hj]
  rfl

theorem min_moreStableChecked_eq (steps j i : Nat) (s : Arnoldi K d) (hi : i < steps)
    (hj : j + 1 < steps) :
    minimumEigenvalues.moreStableGramSchmidtChecked steps j i s =
      some (minimumEigenvalues.moreStableGramSchmidt j i s) := by
  unfold minimumEigenvalues.moreStableGramSchmidtChecked
  simp only [readField_of_lt _ _ _ hi, readEntry_of_lt _ _ _ _ _ hi hj,
    writeEntry_of_lt _ _ _ _ _ _ hi hj]
  rfl

theorem min_iterateChecked_eq (steps : Nat) (c : Collaborators R K d)
    (bicg : BiConjugateGradient R) (j : Nat) (s : Arnoldi K d) (hj : j + 1 < steps) :
    minimumEigenvalues.iterateChecked steps c bicg j s =
      some (minimumEigenvalues.iterate c bicg j s) := by
  unfold minimumEigenvalues.iterateChecked
  simp only [writeField_of_lt _ _ _ _ hj, writeEntry_of_lt _ _ _ _ _ _ hj (by omega : j < steps),
    readField_of_lt _ _ _ hj]
  have h1 : ∀ s1 : Arnoldi K d,
      forLoopM (j + 2) (minimumEigenvalues.gramSchmidtChecked steps j) s1 =
        some (forLoop (j + 2) (minimumEigenvalues.gramSchmidt j) s1) := fun s1 =>
    (forLoopM_eq_some (fun _ => True) _ _ (j + 2) s1 trivial (fun i s' hi _ =>
      ⟨min_gramSchmidtChecked_eq steps j i s' (by omega) hj, trivial⟩)).1
  have h2 : ∀ s2 : Arnoldi K d,
      forLoopM (j + 2) (minimumEigenvalues.moreStableGramSchmidtChecked steps j) s2 =
        some (forLoop (j + 2) (minimumEigenvalues.moreStableGramSchmidt j) s2) := fun s2 =>
    (forLoopM_eq_some (fun _ => True) _ _ (j + 2) s2 trivial (fun i s' hi _ =>
      ⟨min_moreStableChecked_eq steps j i s' (by omega) hj, trivial⟩)).1
  simp only [h1, h2]
  rfl

theorem min_krylovChecked_eq (steps : Nat) (c : Collaborators R K d)
    (bicg : BiConjugateGradient R) (log0 : List Event) (v0 : Fin d → K) (h : 0 < steps) :
    minimumEigenvalues.krylovChecked steps c bicg log0 v0 =
      some (minimumEigenvalues.krylov c bicg log0 v0 steps) := by
  unfold minimumEigenvalues.krylovChecked
  simp only [min_startChecked_eq steps c bicg log0 v0 h]
  exact (forLoopM_eq_some (fun _ => True) _ _ (steps - 1) _ trivial (fun j s' hj _ =>
    ⟨min_iterateChecked_eq steps c bicg j s' (by omega), trivial⟩)).1

/-- With `steps` positive and at least `extra_steps`, the checked `maximumEigenvalues`
passes every check and computes the outcome of the unchecked method. -/
theorem max_checked_eq (self : DiracEigenSolver R) (c : Collaborators R K d)
    (backend : Backend) (eigenvalues : List K) (eigenvectors : List (Fin d → K)) (n : Nat)
    (mode : EigevaluesMode) (v0 : Fin d → K) (steps : Nat)
    (hsteps : (self.extra_steps + n) % UINT_RANGE = steps) (hpos : 0 < steps)
    (hle : self.extra_steps ≤ steps) :
    maximumEigenvalues.checked self c backend eigenvalues eigenvectors n mode v0 =
      maximumEigenvalues self c backend eigenvalues eigenvectors n mode v0 := by
  rw [maximumEigenvalues_closed self c backend eigenvalues eigenvectors n mode v0 steps hsteps
    hpos hle]
  unfold maximumEigenvalues.checked
  simp only [hsteps, max_krylovChecked_eq steps c mode v0 hpos,
    max_storeEigenvaluesChecked_eq, reconstructChecked_eq, reconstruct_eq_map,
    storeEigenvalues_max_eq_map, Option.bind_eq_bind, Option.some_bind,
    back_map_range _ steps hpos,
    eraseTail_eq_some _ (self.extra_steps) (by simp; exact hle :
      self.extra_steps ≤ (List.map (fun i => maximumEigenvalues.stored c backend mode
        ((maximumEigenvalues.dense c backend steps
          (maximumEigenvalues.krylov c mode v0 steps).H).eigenvalues i))
        (List.range steps)).reverse.length),
    eraseTail_eq_some _ (self.extra_steps) (by simp; exact hle :
      self.extra_steps ≤ (List.map (ritzVector steps
        (maximumEigenvalues.dense c backend steps
          (maximumEigenvalues.krylov c mode v0 steps).H).eigenvectors
        (maximumEigenvalues.krylov c mode v0 steps).V) (List.range steps)).reverse.length)]
  simp

/-- With `steps` positive and at least `extra_steps`, the checked `minimumEigenvalues`
passes every check and computes the outcome of the unchecked method. -/
theorem min_checked_eq (self : DiracEigenSolver R) (c : Collaborators R K d)
    (backend : Backend) (eigenvalues : List K) (eigenvectors : List (Fin d → K)) (n : Nat)
    (v0 : Fin d → K) (steps : Nat)
    (hsteps : (self.extra_steps + n) % UINT_RANGE = steps) (hpos : 0 < steps)
    (hle : self.extra_steps ≤ steps) :
    minimumEigenvalues.checked self c backend eigenvalues eigenvectors n v0 =
      minimumEigenvalues self c backend eigenvalues eigenvectors n v0 := by
  rw [minimumEigenvalues_closed self c backend eigenvalues eigenvectors n v0 steps hsteps
    hpos hle]
  unfold minimumEigenvalues.checked
  simp only [hsteps, min_krylovChecked_eq steps c _ _ v0 hpos,
    min_storeEigenvaluesChecked_eq, reconstructChecked_eq, reconstruct_eq_map,
    storeEigenvalues_min_eq_map, Option.bind_eq_bind, Option.some_bind,
    back_map_range _ steps hpos,
    eraseTail_eq_some _ (self.extra_steps) (by simp; exact hle :
      self.extra_steps ≤ (List.map (fun i => minimumEigenvalues.stored backend
        ((minimumEigenvalues.dense c backend steps
          (minimumEigenvalues.krylov c (minimumEigenvalues.prepare self c).1
            (minimumEigenvalues.prepare self c).2 v0 steps).H).eigenvalues i))
        (List.range steps)).reverse.length),
    eraseTail_eq_some _ (self.extra_steps) (by simp; exact hle :
      self.extra_steps ≤ (List.map (ritzVector steps
        (minimumEigenvalues.dense c backend steps
          (minimumEigenvalues.krylov c (minimumEigenvalues.prepare self c).1
            (minimumEigenvalues.prepare self c).2 v0 steps).H).eigenvectors
        (minimumEigenvalues.krylov c (minimumEigenvalues.prepare self c).1
          (minimumEigenvalues.prepare self c).2 v0 steps).V) (List.range steps)).reverse.length)]
  simp

/-- With `steps = 0` the checked methods fail at the first access, `V[0]` in an empty
vector. -/
theorem checked_zero_steps (self : DiracEigenSolver R) (c : Collaborators R K d)
    (backend : Backend) (eigenvalues : List K) (eigenvectors : List (Fin d → K)) (n : Nat)
    (mode : EigevaluesMode) (v0 : Fin d → K) (h : (self.extra_steps + n) % UINT_RANGE = 0) :
    maximumEigenvalues.checked self c backend eigenvalues eigenvectors n mode v0 = none ∧
    minimumEigenvalues.checked self c backend eigenvalues eigenvectors n v0 = none := by
  constructor
  · unfold maximumEigenvalues.checked maximumEigenvalues.krylovChecked
      maximumEigenvalues.startChecked
    simp [h, writeField]
  · unfold minimumEigenvalues.checked minimumEigenvalues.krylovChecked
      minimumEigenvalues.startChecked
    simp [h, writeField]

end CheckedMethods

section IndexSafety

variable {R K : Type} [Field K] [StarRing K] {d : Nat}

theorem arnoldiIterate_H_outside (sqrt : K → K) (op : (Fin d → K) → (Fin d → K))
    (ev : Event) (j : Nat) (s : Arnoldi K d) (a b : Nat) (h : ¬ (a < j + 2 ∧ b = j + 1)) :
    (arnoldiIterate sqrt op ev j s).H a b =
      setEntry s.H (j + 1) j (sqrt (squaredNorm s.f)) a b := by
  unfold arnoldiIterate
  rw [moreStable_loop_H, if_neg h, gramSchmidt_loop_H, if_neg h]

/-- The Arnoldi process with `k` turns writes `V[a]` only for `a ≤ k` and `H(a,b)` only for
`a, b ≤ k`: the other elements keep their initial zero. -/
theorem arnoldiAt_untouched (sqrt : K → K) (op : (Fin d → K) → (Fin d → K)) (ev : Event)
    (log0 : List Event) (v0 : Fin d → K) (k : Nat) :
    (∀ a, k < a → (arnoldiAt sqrt op ev log0 v0 k).V a = fun _ => 0) ∧
    (∀ a b, (k < a ∨ k < b) → (arnoldiAt sqrt op ev log0 v0 k).H a b = 0) := by
  induction k with
  | zero =>
    constructor
    · intro a ha
      rw [arnoldiAt_zero, arnoldiStart_V]
      unfold setField
      rw [if_neg (by omega)]
    · intro a b hab
      rw [arnoldiAt_zero, arnoldiStart_H]
      unfold setEntry
      rw [if_neg (by omega)]
  | succ k ih =>
    constructor
    · intro a ha
      rw [arnoldiAt_succ, arnoldiIterate_V]
      unfold setField
      rw [if_neg (by omega)]
      exact ih.1 a (by omega)
    · intro a b hab
      rw [arnoldiAt_succ, arnoldiIterate_H_outside _ _ _ _ _ _ _ (by omega)]
      unfold setEntry
      rw [if_neg (by omega)]
      exact ih.2 a b (by omega)

theorem storeEigenvalues_min_length (backend : Backend) (steps : Nat) (ritz : Nat → K)
    (eigenvalues : List K) :
    (minimumEigenvalues.storeEigenvalues backend steps ritz eigenvalues).length = steps := by
  rw [storeEigenvalues_min_eq_map]
  simp

/-- C25: for `n ≥ 1` and `steps = n + extra_steps` below `2^32`, `steps` is computed without
wrapping, and `maximumEigenvalues` and `minimumEigenvalues` run with every indexed access
to `V`, `H`, the Ritz values, the eigenvector matrix and the two output sequences checked
against the size `steps` of its container pass every check and return the outcome of the
unchecked methods (an access at index `steps`, or `back()` on an empty sequence, fails the
check); the Krylov constructions leave `V[a]` and `H(a,b)` at their initial zero when an
index is `steps` or more; the erased range `[size - extra_steps, size)` lies inside both
reversed sequences (of size `steps`) and leaves `n` elements; and for `steps = 1` the
basis-extension loop does not run, so that the working variables are those of the start
step and `H` is the matrix `[alpha]`. -/
theorem indices_below_steps (self : DiracEigenSolver R) (c : Collaborators R K d)
    (backend : Backend) (eigenvalues : List K) (eigenvectors : List (Fin d → K)) (n : Nat)
    (mode : EigevaluesMode) (v0 : Fin d → K) (steps : Nat)
    (hsteps : steps = self.extra_steps + n) (hn : 1 ≤ n)
    (hov : n + self.extra_steps < UINT_RANGE) :
    (self.extra_steps + n) % UINT_RANGE = steps ∧
    (∃ r, maximumEigenvalues.checked self c backend eigenvalues eigenvectors n mode v0 =
        some r ∧
      maximumEigenvalues self c backend eigenvalues eigenvectors n mode v0 = some r) ∧
    (∃ r, minimumEigenvalues.checked self c backend eigenvalues eigenvectors n v0 = some r ∧
      minimumEigenvalues self c backend eigenvalues eigenvectors n v0 = some r) ∧
    (∀ (V : Nat → Fin d → K) (M : Nat → Nat → K) (xs : Nat → K) (ys : List K) (i : Nat)
        (v : Fin d → K) (x : K),
      readField steps V steps = none ∧ writeField steps V steps v = none ∧
      readEntry steps steps M steps i = none ∧ readEntry steps steps M i steps = none ∧
      writeEntry steps steps M steps i x = none ∧ writeEntry steps steps M i steps x = none ∧
      readValue steps xs steps = none ∧ writeAt ys ys.length x = none ∧
      back ([] : List K) = none) ∧
    ((∀ a, steps ≤ a → (maximumEigenvalues.krylov c mode v0 steps).V a = fun _ => 0) ∧
      (∀ a b, (steps ≤ a ∨ steps ≤ b) →
        (maximumEigenvalues.krylov c mode v0 steps).H a b = 0) ∧
      (∀ a, steps ≤ a → (minimumEigenvalues.krylov c (minimumEigenvalues.prepare self c).1
        (minimumEigenvalues.prepare self c).2 v0 steps).V a = fun _ => 0) ∧
      (∀ a b, (steps ≤ a ∨ steps ≤ b) →
        (minimumEigenvalues.krylov c (minimumEigenvalues.prepare self c).1
          (minimumEigenvalues.prepare self c).2 v0 steps).H a b = 0)) ∧
    (∀ ritz, eraseTail (maximumEigenvalues.storeEigenvalues c backend mode steps ritz
        eigenvalues).reverse self.extra_steps =
      some ((maximumEigenvalues.storeEigenvalues c backend mode steps ritz
        eigenvalues).reverse.take n)) ∧
    (∀ ritz, eraseTail (minimumEigenvalues.storeEigenvalues backend steps ritz
        eigenvalues).reverse self.extra_steps =
      some ((minimumEigenvalues.storeEigenvalues backend steps ritz
        eigenvalues).reverse.take n)) ∧
    (∀ eigvec V, eraseTail (reconstruct steps eigvec V eigenvectors).reverse
        self.extra_steps =
      some ((reconstruct steps eigvec V eigenvectors).reverse.take n)) ∧
    (steps = 1 →
      maximumEigenvalues.krylovChecked steps c mode v0 =
        some (maximumEigenvalues.start c mode v0) ∧
      maximumEigenvalues.krylov c mode v0 steps = maximumEigenvalues.start c mode v0 ∧
      (∀ a b, (maximumEigenvalues.krylov c mode v0 steps).H a b =
        if a = 0 ∧ b = 0 then dot v0 (maximumEigenvalues.apply c mode v0) else 0) ∧
      minimumEigenvalues.krylov c (minimumEigenvalues.prepare self c).1
          (minimumEigenvalues.prepare self c).2 v0 steps =
        minimumEigenvalues.start c (minimumEigenvalues.prepare self c).1
          (minimumEigenvalues.prepare self c).2 v0 ∧
      (∀ a b, (minimumEigenvalues.krylov c (minimumEigenvalues.prepare self c).1
          (minimumEigenvalues.prepare self c).2 v0 steps).H a b =
        if a = 0 ∧ b = 0 then dot v0 (c.solve (minimumEigenvalues.prepare self c).1 v0)
        else 0)) := by
  subst hsteps
  have hmod : (self.extra_steps + n) % UINT_RANGE = self.extra_steps + n :=
    Nat.mod_eq_of_lt (by omega)
  have hsub : self.extra_steps + n - self.extra_steps = n := by omega
  obtain ⟨r, hr, _⟩ := maximumEigenvalues_self_log self c backend eigenvalues
    eigenvectors n mode v0 (by omega) (by omega)
  obtain ⟨r2, hr2, _⟩ := minimumEigenvalues_self_log self c backend eigenvalues
    eigenvectors n v0 (by omega) (by omega)
  have hmax := arnoldiAt_untouched c.sqrt (maximumEigenvalues.apply c mode) Event.multiplyAdd
    [] v0 (self.extra_steps + n - 1)
  have hmin := arnoldiAt_untouched c.sqrt (c.solve (minimumEigenvalues.prepare self c).1)
    Event.solve (minimumEigenvalues.prepare self c).2 v0 (self.extra_steps + n - 1)
  rw [← max_krylovAt_eq] at hmax
  rw [← min_krylovAt_eq] at hmin
  refine ⟨hmod, ⟨r, ?_, hr⟩, ⟨r2, ?_, hr2⟩, ?_,
    ⟨fun a ha => hmax.1 a (by omega), fun a b hab => hmax.2 a b (by omega),
      fun a ha => hmin.1 a (by omega), fun a b hab => hmin.2 a b (by omega)⟩,
    ?_, ?_, ?_, ?_⟩
  · rw [max_checked_eq self c backend eigenvalues eigenvectors n mode v0 _ hmod (by omega)
      (by omega)]
    exact hr
  · rw [min_checked_eq self c backend eigenvalues eigenvectors n v0 _ hmod (by omega)
      (by omega)]
    exact hr2
  · intro V M xs ys i v x
    simp [readField, writeField, readEntry, writeEntry, readValue, writeAt, back]
  · intro ritz
    rw [eraseTail_eq_some _ _ (by rw [List.length_reverse, storeEigenvalues_max_length]; omega),
      List.length_reverse, storeEigenvalues_max_length, hsub]
  · intro ritz
    rw [eraseTail_eq_some _ _ (by rw [List.length_reverse, storeEigenvalues_min_length]; omega),
      List.length_reverse, storeEigenvalues_min_length, hsub]
  · intro eigvec V
    rw [eraseTail_eq_some _ _ (by rw [List.length_reverse, reconstruct_length]; omega),
      List.length_reverse, reconstruct_length, hsub]
  · intro h1
    rw [h1]
    refine ⟨?_, rfl, ?_, rfl, ?_⟩
    · rw [max_krylovChecked_eq 1 c mode v0 (by omega)]
      rfl
    · intro a b
      show setEntry (fun _ _ => 0) 0 0 (dot (setField (fun _ _ => 0) 0 v0 0)
        (maximumEigenvalues.apply c mode (setField (fun _ _ => 0) 0 v0 0))) a b = _
      rw [setField_same]
      rfl
    · intro a b
      show setEntry (fun _ _ => 0) 0 0 (dot (setField (fun _ _ => 0) 0 v0 0)
        (c.solve (minimumEigenvalues.prepare self c).1 (setField (fun _ _ => 0) 0 v0 0)))
        a b = _
      rw [setField_same]
      rfl

end IndexSafety

section IndexSafetyExample

/-- C25 at a concrete call: `n = 1`, `extra_steps = 1`, so `steps = 2`: the loop runs one
turn, each Gram-Schmidt loop two, and one element of each sequence is erased; the checked
methods return the outcomes of the unchecked ones. -/
theorem indices_below_steps_witness :
    (2 = (Demo.solver 1).extra_steps + 1 ∧ 1 ≤ 1 ∧
      1 + (Demo.solver 1).extra_steps < UINT_RANGE) ∧
    (∃ r, maximumEigenvalues.checked (Demo.solver 1)
        (Demo.collaborators Demo.swap2 Demo.swap2) Backend.EIGEN [] [] 1
        EigevaluesMode.LargestReal Demo.e0 = some r ∧
      maximumEigenvalues (Demo.solver 1) (Demo.collaborators Demo.swap2 Demo.swap2)
        Backend.EIGEN [] [] 1 EigevaluesMode.LargestReal Demo.e0 = some r) ∧
    (∃ r, minimumEigenvalues.checked (Demo.solver 1)
        (Demo.collaborators Demo.swap2 Demo.swap2) Backend.EIGEN [] [] 1 Demo.e0 = some r ∧
      minimumEigenvalues (Demo.solver 1) (Demo.collaborators Demo.swap2 Demo.swap2)
        Backend.EIGEN [] [] 1 Demo.e0 = some r) :=
  have h := indices_below_steps (Demo.solver 1) (Demo.collaborators Demo.swap2 Demo.swap2)
    Backend.EIGEN [] [] 1 EigevaluesMode.LargestReal Demo.e0 2 rfl (by decide) (by decide)
  ⟨⟨rfl, by decide, by decide⟩, h.2.1, h.2.2.1⟩

end IndexSafetyExample

/-! ## The identity scenario with one extra step -/

section OpenQuotient

variable {R K : Type} [Field K] [StarRing K] {d : Nat}

theorem max_iterateWith_eq (quot : K → K → K) (c : Collaborators R K d)
    (mode : EigevaluesMode) (j : Nat) (s : Arnoldi K d) :
    maximumEigenvalues.iterateWith quot c mode j s =
      forLoop (j + 2) (arnoldiMoreStable j)
        (forLoop (j + 2) (arnoldiGramSchmidt j)
          { V := setField s.V (j + 1) (fun site => quot (s.f site) (c.sqrt (squaredNorm s.f)))
            H := setEntry s.H (j + 1) j (c.sqrt (squaredNorm s.f))
            w := maximumEigenvalues.apply c mode
              (fun site => quot (s.f site) (c.sqrt (squaredNorm s.f)))
            f := maximumEigenvalues.apply c mode
              (fun site => quot (s.f site) (c.sqrt (squaredNorm s.f)))
            log := s.log ++ [Event.squaredNorm, Event.multiplyAdd] }) := by
  simp only [maximumEigenvalues.iterateWith, setField_same]
  rfl

/-- With the quotient of line 83 computed by division, the method is
`maximumEigenvalues`. -/
theorem maximumEigenvaluesWith_div (self : DiracEigenSolver R) (c : Collaborators R K d)
    (backend : Backend) (eigenvalues : List K) (eigenvectors : List (Fin d → K)) (n : Nat)
    (mode : EigevaluesMode) (v0 : Fin d → K) :
    maximumEigenvaluesWith (fun a b => a / b) self c backend eigenvalues eigenvectors n mode
        v0 =
      maximumEigenvalues self c backend eigenvalues eigenvectors n mode v0 := rfl

theorem max_iterateWith_log (quot : K → K → K) (c : Collaborators R K d)
    (mode : EigevaluesMode) (j : Nat) (s : Arnoldi K d) :
    (maximumEigenvalues.iterateWith quot c mode j s).log =
      (maximumEigenvalues.iterate c mode j s).log := by
  rw [max_iterateWith_eq, max_iterate_eq]
  unfold arnoldiIterate
  rw [moreStable_loop_log, gramSchmidt_loop_log, moreStable_loop_log, gramSchmidt_loop_log]

end OpenQuotient

section OpenQuotientExample

end OpenQuotientExample

end Update
